import Mathlib

/-!
# SimpleEmailClient: response framing, header unfolding and MIME extraction

A shallow embedding of the parsing layer of `src/main.c`.

Conventions of the embedding.

* A C string is the list of its characters before the terminating NUL; reading the
  position just past the last character yields NUL (`List.headD _ NUL`).
* A pointer into a string is the suffix that starts there; a pointer returned by a search is
  given as the offset of the match from the pointer searched, so `p += k` is `List.drop k`.
* `exit(n)` ends a run with `Status.exited n`; text written to `stdout` is collected in
  `Run.stdout`, diagnostics on `stderr` are not modelled.
* Behaviour the C standard leaves undefined is the explicit outcome `undefined`.
-/

namespace SimpleEmailClient

/-! ## Constants of the source -/

/-- The macro `BUFFER_SIZE`. -/
def BUFFER_SIZE : Nat := 1024

/-- The macro `EXIT_FAILURE` of `stdlib.h`. -/
def EXIT_FAILURE : Nat := 1

/-- The largest value of the C type `int` (32 bits). -/
def INT_MAX : Int := 2147483647

/-- The smallest value of the C type `int` (32 bits). -/
def INT_MIN : Int := -2147483648

/-- The NUL character that terminates a C string. -/
def NUL : Char := Char.ofNat 0

/-! ## Outcomes -/

/-- How a run of a C function ends. -/
inductive Status
  | returned (value : Int)
  | exited (code : Nat)
  | undefined
  | out_of_fuel
deriving DecidableEq, Repr

/-- What a run wrote to `stdout`, and how it ended. -/
structure Run where
  stdout : List Char
  status : Status
deriving DecidableEq, Repr

/-! ## C library functions used by the source -/

/-- The function `tolower` in the C locale. -/
def tolower (c : Char) : Char := c.toLower

/-- The function `isspace` in the C locale. -/
def isspace (c : Char) : Bool :=
  c = ' ' || c = '\t' || c = '\n' || c = Char.ofNat 11 || c = Char.ofNat 12 || c = '\r'

/-- The function `isdigit`. -/
def isdigit (c : Char) : Bool := decide ('0' ≤ c ∧ c ≤ '9')

/-- The function `strncasecmp`: compares at most `n` characters, ignoring letter case, and stops
at the end of either string. -/
def strncasecmp : List Char → List Char → Nat → Int
  | _, _, 0 => 0
  | s, t, n + 1 =>
    let a := tolower (s.headD NUL)
    let b := tolower (t.headD NUL)
    if a ≠ b then (a.toNat : Int) - (b.toNat : Int)
    else if a = NUL then 0
    else strncasecmp s.tail t.tail n

/-- The loop `while (*p) { if (hit(p)) return p; p++; } return NULL;`, giving the offset of the
first position at which `hit` holds. -/
def scan_forward (hit : List Char → Bool) : List Char → Option Nat
  | [] => none
  | c :: rest => if hit (c :: rest) then some 0 else (scan_forward hit rest).map (· + 1)

/-- The function `strstr`: offset of the first occurrence of `needle` in `haystack`. -/
def strstr (haystack needle : List Char) : Option Nat :=
  if needle = [] then some 0
  else scan_forward (fun s => needle.isPrefixOf s) haystack

/-- The function `strchr`: offset of the first occurrence of `c` in `s`. -/
def strchr (s : List Char) (c : Char) : Option Nat :=
  scan_forward (fun p => p.head? = some c) s

/-- What `snprintf(buf, size, ...)` stores for the formatted text `text`: at most `size - 1`
characters. -/
def snprintf (size : Nat) (text : List Char) : List Char := text.take (size - 1)

/-- The text `printf("%d", n)` writes. -/
def printf_d (n : Int) : List Char := (Int.repr n).toList

/-! ### `sscanf` -/

/-- The directives of the `sscanf` formats of the source. -/
inductive Directive
  | space
  | ordinary (c : Char)
  | decimal (assign : Bool)
deriving DecidableEq, Repr

/-- Splits a format string into directives: white space, `%d`, `%*d`, ordinary characters. -/
def parse_format : List Char → List Directive
  | [] => []
  | '%' :: '*' :: 'd' :: rest => Directive.decimal false :: parse_format rest
  | '%' :: 'd' :: rest => Directive.decimal true :: parse_format rest
  | c :: rest =>
    (if isspace c then Directive.space else Directive.ordinary c) :: parse_format rest

/-- The value of a string of decimal digits. -/
def decimal_value (digits : List Char) : Nat :=
  digits.foldl (fun acc d => 10 * acc + (d.toNat - 48)) 0

/-- The input item of a `%d` conversion: white space is skipped, then an optional sign and a
non-empty run of digits are read. Gives the value and the rest of the input, or `none` on a
matching failure. -/
def scan_decimal (input : List Char) : Option (Int × List Char) :=
  let s := input.dropWhile isspace
  let negative := s.head? = some '-'
  let s := if s.head? = some '-' ∨ s.head? = some '+' then s.tail else s
  let digits := s.takeWhile isdigit
  if digits = [] then none
  else some (if negative then -(decimal_value digits : Int) else (decimal_value digits : Int),
    s.dropWhile isdigit)

/-- The result of `sscanf`: the values assigned, in order (the C return value is their number, or
`EOF` when the input ends before the first assignment, which no caller tells from 0); or
undefined behaviour, when a converted value does not fit the `int` it is assigned to. -/
inductive Scanned
  | assigned (values : List Int)
  | undefined
deriving DecidableEq, Repr

/-- Runs the directives of a format over the input, collecting the assigned values. -/
def sscanf_run : List Directive → List Char → List Int → Scanned
  | [], _, acc => Scanned.assigned acc
  | Directive.space :: ds, input, acc => sscanf_run ds (input.dropWhile isspace) acc
  | Directive.ordinary c :: ds, input, acc =>
    if input.head? = some c then sscanf_run ds input.tail acc else Scanned.assigned acc
  | Directive.decimal assign :: ds, input, acc =>
    match scan_decimal input with
    | none => Scanned.assigned acc
    | some (v, rest) =>
      if assign then
        if INT_MIN ≤ v ∧ v ≤ INT_MAX then sscanf_run ds rest (acc ++ [v]) else Scanned.undefined
      else sscanf_run ds rest acc

/-- The function `sscanf` for formats made of white space, ordinary characters, `%d`, `%*d`. -/
def sscanf (input format : List Char) : Scanned :=
  sscanf_run (parse_format format) input []

/-! ## `remove_cr_newline` (lines 675-686) -/

/-- The function `remove_cr_newline`: one left-to-right pass that skips each CR that is directly
followed by LF, together with that LF, and copies every other character. -/
def remove_cr_newline : List Char → List Char
  | [] => []
  | [c] => [c]
  | c :: d :: rest =>
    if c = '\r' ∧ d = '\n' then remove_cr_newline rest
    else c :: remove_cr_newline (d :: rest)

/-! ## The MIME parser (lines 748-936) -/

/-- The function `insensitive_strstr`: offset of the first position of `search` at which
`target` matches up to letter case. -/
def insensitive_strstr (search target : List Char) : Option Nat :=
  if target.headD NUL = NUL then some 0
  else scan_forward (fun s => strncasecmp s target target.length = 0) search

/-- The function `get_boundary`: the value of the first `boundary=` parameter, quoted or bare. -/
def get_boundary (content : List Char) : Option (List Char) :=
  match insensitive_strstr content "boundary=".toList with
  | none => none
  | some i =>
    let start := content.drop (i + "boundary=".length)
    if start.headD NUL = '"' then
      let start := start.drop 1
      match strchr start '"' with
      | some boundary_len => some (start.take boundary_len)
      | none => none
    else
      some (start.takeWhile (fun c => c ≠ ' ' ∧ c ≠ '\r' ∧ c ≠ '\n'))

/-- The function `check_starting_boundary`: offset just past the first start delimiter. -/
def check_starting_boundary (content boundary : List Char) : Except Status Nat :=
  let boundary_start := snprintf BUFFER_SIZE ("\r\n--".toList ++ boundary ++ "\r\n".toList)
  match insensitive_strstr content boundary_start with
  | some i => Except.ok (i + boundary_start.length)
  | none => Except.error (Status.exited 4)

/-- The function `check_content_type_charset`: offset just past the first `charset=UTF-8`,
provided `Content-Type: text/plain` occurs too. -/
def check_content_type_charset (content : List Char) : Except Status Nat :=
  match insensitive_strstr content "Content-Type: text/plain".toList with
  | some _ =>
    match insensitive_strstr content "charset=UTF-8".toList with
    | some i => Except.ok (i + "charset=UTF-8".length)
    | none => Except.error (Status.exited 4)
  | none => Except.error (Status.exited 4)

/-- The function `check_encoding_parameter`: offset just past the first accepted
`Content-Transfer-Encoding` header, trying quoted-printable, then 7bit, then 8bit. -/
def check_encoding_parameter (content : List Char) : Except Status Nat :=
  match insensitive_strstr content "Content-Transfer-Encoding: quoted-printable".toList with
  | some i => Except.ok (i + "Content-Transfer-Encoding: quoted-printable".length)
  | none =>
    match insensitive_strstr content "Content-Transfer-Encoding: 7bit".toList with
    | some i => Except.ok (i + "Content-Transfer-Encoding: 7bit".length)
    | none =>
      match insensitive_strstr content "Content-Transfer-Encoding: 8bit".toList with
      | some i => Except.ok (i + "Content-Transfer-Encoding: 8bit".length)
      | none => Except.error (Status.exited 4)

/-- The function `check_end_boundary`: the text before the first end delimiter. -/
def check_end_boundary (content boundary : List Char) : Except Status (List Char) :=
  let boundary_end := snprintf BUFFER_SIZE ("\r\n--".toList ++ boundary)
  match insensitive_strstr content boundary_end with
  | some new_len => Except.ok (content.take new_len)
  | none => Except.error (Status.exited 4)

/-- The final parse position of `print_mime` (lines 772-781), as an offset from the part start:
both headers are located from the part start, then resolved in the order found. -/
def resolve_headers (content : List Char) : Except Status Nat :=
  match check_content_type_charset content with
  | Except.error e => Except.error e
  | Except.ok content_type =>
    match check_encoding_parameter content with
    | Except.error e => Except.error e
    | Except.ok encoding =>
      if content_type < encoding then
        match check_encoding_parameter (content.drop content_type) with
        | Except.error e => Except.error e
        | Except.ok k => Except.ok (content_type + k)
      else
        match check_content_type_charset (content.drop encoding) with
        | Except.error e => Except.error e
        | Except.ok k => Except.ok (encoding + k)

/-- The value of `content` that `print_mime` hands to its only `printf` (line 785), or the way
the run ends before. Stepping 4 characters past the end of the string is undefined. -/
def print_mime_content (body_buffer : List Char) : Except Status (List Char) :=
  match insensitive_strstr body_buffer "MIME-Version: 1.0".toList with
  | none => Except.error (Status.exited 4)
  | some _ =>
    match insensitive_strstr body_buffer "Content-Type: multipart/alternative;".toList with
    | none => Except.error (Status.exited 4)
    | some i =>
      let content := body_buffer.drop i
      match get_boundary content with
      | none => Except.error (Status.exited 4)
      | some boundary =>
        match check_starting_boundary content boundary with
        | Except.error e => Except.error e
        | Except.ok s =>
          let content := content.drop s
          match resolve_headers content with
          | Except.error e => Except.error e
          | Except.ok pos =>
            if content.length < pos + 4 then Except.error Status.undefined
            else check_end_boundary (content.drop (pos + 4)) boundary

/-- The function `print_mime`. -/
def print_mime (body_buffer : List Char) : Run :=
  match print_mime_content body_buffer with
  | Except.ok content => ⟨content, Status.returned 0⟩
  | Except.error e => ⟨[], e⟩

/-! ## The literal framer (lines 385-391, 484-492, 525-535, 569-577, 610-620, 713-719) -/

/-- The string a receive buffer holds once `receive_buffer[bytes_received] = 0` is stored: the
received bytes up to the first NUL among them. -/
def c_string (received : List Char) : List Char := received.takeWhile (fun c => c ≠ NUL)

/-- The outcome of the framing step: the announced literal length and the index handed on, or
the not-found branch, or undefined behaviour inside `sscanf`. -/
inductive Frame
  | found (size : Int) (index : Nat)
  | not_found
  | undefined
deriving DecidableEq, Repr

/-- The framing step shared by the six operations: `strstr(receive_buffer, "\r\n")`, then
`sscanf(receive_buffer, format, &size) == 1 && start != NULL`; on success the index is the
offset of the CRLF plus 2 plus the length of the field label the operation skips. -/
def literal_frame (format : List Char) (label : Nat) (received : List Char) : Frame :=
  let receive_buffer := c_string received
  match sscanf receive_buffer format with
  | Scanned.undefined => Frame.undefined
  | Scanned.assigned values =>
    match strstr receive_buffer "\r\n".toList with
    | some start => if values.length = 1 then Frame.found (values.headD 0) (start + 2 + label)
                    else Frame.not_found
    | none => Frame.not_found

/-- The framing step of `fetch_email` (lines 387-390). -/
def fetch_email_frame (received : List Char) : Frame :=
  literal_frame "* %*d FETCH (BODY[] \x7b%d\x7d".toList 0 received

/-- The framing step of `read_mime` (lines 715-718). -/
def read_mime_frame (received : List Char) : Frame :=
  literal_frame "* %*d FETCH (BODY[] \x7b%d\x7d".toList 0 received

/-- The framing step of `parse_from` (lines 486-490). -/
def parse_from_frame (received : List Char) : Frame :=
  literal_frame "* %*d FETCH (BODY[HEADER.FIELDS (FROM)] \x7b%d\x7d".toList 6 received

/-- The framing step of `parse_to` (lines 527-531). -/
def parse_to_frame (received : List Char) : Frame :=
  literal_frame "* %*d FETCH (BODY[HEADER.FIELDS (TO)] \x7b%d\x7d".toList 4 received

/-- The framing step of `parse_date` (lines 571-575). -/
def parse_date_frame (received : List Char) : Frame :=
  literal_frame "* %*d FETCH (BODY[HEADER.FIELDS (DATE)] \x7b%d\x7d".toList 6 received

/-- The framing step of `parse_subject` (lines 612-616). -/
def parse_subject_frame (received : List Char) : Frame :=
  literal_frame "* %*d FETCH (BODY[HEADER.FIELDS (SUBJECT)] \x7b%d\x7d\r\n".toList 9 received

/-! ## The list parser (lines 970-1019) -/

/-- The loop of `parse_list_response`, run for at most `fuel` iterations from `line_start`, with
the text printed so far and the current `is_not_empty`. -/
def parse_list_loop : Nat → List Char → List Char → Int → Run
  | 0, _, out, _ => ⟨out, Status.out_of_fuel⟩
  | fuel + 1, line_start, out, is_not_empty =>
    match strstr line_start "* ".toList with
    | none => ⟨out, Status.returned is_not_empty⟩
    | some i =>
      let line_start := line_start.drop i
      match sscanf line_start "* %d FETCH (BODY[HEADER.FIELDS (SUBJECT)] \x7b%d\x7d\r\n".toList with
      | Scanned.undefined => ⟨out, Status.undefined⟩
      | Scanned.assigned values =>
        if values.length = 2 then
          let email_num := values.headD 0
          match strstr line_start "\r\nSubject:".toList with
          | some j =>
            let subject_start := line_start.drop (j + 10)
            match strstr subject_start "\r\n\r\n)\r\n".toList with
            | some k =>
              let subject := (subject_start.take k).dropWhile (fun c => c = ' ' || c = '\t')
              parse_list_loop fuel (subject_start.drop (k + 7))
                (out ++ printf_d email_num ++ ": ".toList ++ remove_cr_newline subject
                  ++ "\n".toList) 1
            | none => ⟨out, Status.exited EXIT_FAILURE⟩
          | none =>
            parse_list_loop fuel (line_start.drop 5)
              (out ++ printf_d email_num ++ ": <No subject>\n".toList) 1
        else ⟨out, Status.exited EXIT_FAILURE⟩

/-- The function `parse_list_response`; every iteration of its loop moves `line_start` forward,
so one more iteration than the response has characters is never used up. -/
def parse_list_response (response : List Char) : Run :=
  parse_list_loop (response.length + 1) response [] 0

/-! ## Notions used to state the properties -/

/-- The string `s` holds a CR directly followed by an LF. -/
def HasCRLF (s : List Char) : Prop := ∃ a b, s = a ++ '\r' :: '\n' :: b

/-- The text made of `n` CRLF pairs. -/
def crlf_run : Nat → List Char
  | 0 => []
  | n + 1 => '\r' :: '\n' :: crlf_run n

/-- The string `s` holds a CR, then one or more CRLF pairs, then an LF. -/
def HasNestedCRLF (s : List Char) : Prop :=
  ∃ a k b, s = a ++ '\r' :: (crlf_run (k + 1) ++ '\n' :: b)

/-- The pattern `t` matches at the start of `s`, characters being compared with `r`. -/
def prefix_by (r : Char → Char → Bool) : List Char → List Char → Bool
  | [], _ => true
  | _ :: _, [] => false
  | x :: t, c :: s => r x c && prefix_by r t s

/-- Two characters are equal up to ASCII letter case. -/
def ci (x c : Char) : Bool := decide (tolower x = tolower c)

/-- The character is an ASCII letter. -/
def is_letter (d : Char) : Bool :=
  (decide (65 ≤ d.toNat) && decide (d.toNat ≤ 90))
    || (decide (97 ≤ d.toNat) && decide (d.toNat ≤ 122))

/-- The string `s` has a substring equal to `t` up to ASCII letter case. -/
def ContainsCI (s t : List Char) : Prop :=
  ∃ pre mid post, s = pre ++ mid ++ post ∧ mid.map tolower = t.map tolower

/-- A non-empty string of decimal digits. -/
def AllDigits (ds : List Char) : Prop := ds ≠ [] ∧ ∀ c ∈ ds, isdigit c = true

/-- The response line `* <seq> FETCH (BODY[<section>] {<n>}`, without its CRLF. -/
def fetch_line (section_name seq n : List Char) : List Char :=
  "* ".toList ++ seq ++ " FETCH (BODY[".toList ++ section_name ++ "] \x7b".toList ++ n
    ++ "\x7d".toList

/-- The message of the specification's example, for a boundary token `X` and a body text `T`:
the version header, the multipart header with the quoted boundary, a blank line, the start
delimiter, the two part headers, a blank line, `T`, and the closing delimiter. -/
def sample_message (X T : List Char) : List Char :=
  "MIME-Version: 1.0\r\n".toList
    ++ "Content-Type: multipart/alternative; boundary=\"".toList ++ X ++ "\"\r\n".toList
    ++ "\r\n".toList
    ++ "--".toList ++ X ++ "\r\n".toList
    ++ "Content-Type: text/plain; charset=UTF-8\r\n".toList
    ++ "Content-Transfer-Encoding: 7bit\r\n".toList
    ++ "\r\n".toList
    ++ T ++ "\r\n".toList
    ++ "--".toList ++ X ++ "--".toList

/-- The header markers that `print_mime` searches for. -/
def searched_markers : List (List Char) :=
  ["MIME-Version: 1.0".toList, "Content-Type: multipart/alternative;".toList,
   "boundary=".toList, "Content-Type: text/plain".toList, "charset=UTF-8".toList,
   "Content-Transfer-Encoding: quoted-printable".toList,
   "Content-Transfer-Encoding: 7bit".toList, "Content-Transfer-Encoding: 8bit".toList]

/-- A boundary token of 1020 characters, one more than the delimiter buffers can hold. -/
def long_boundary : List Char := List.replicate 1020 'x'

/-- A body text that holds the first 1019 characters of `long_boundary` after CRLF and two
dashes, but not the whole token. -/
def long_boundary_text : List Char := "\r\n--".toList ++ List.replicate 1019 'x' ++ "!".toList

/-- The closing delimiter of `sample_message`: CRLF, two dashes, the token, two dashes. -/
def closing_delimiter (X : List Char) : List Char :=
  '\r' :: ("\n--".toList ++ X ++ "--".toList)

/-- The two part headers of `sample_message` and the blank line after them. -/
def part_headers : List Char :=
  ("Content-Type: text/plain; charset=UTF-8\r\n"
    ++ "Content-Transfer-Encoding: 7bit\r\n\r\n").toList

/-- The string `s` has the substring `t`. -/
def Contains (s t : List Char) : Prop := ∃ pre post, s = pre ++ t ++ post

/-! ## The transport

A connection is the list of deliveries the peer still makes; when the list is used up the peer
has closed the connection, and `recv` returns 0 from then on. Every `send` is taken to
succeed. -/

/-- What the peer does next: it delivers bytes, or the read fails. -/
inductive Delivery
  | data (bytes : List Char)
  | failure
deriving DecidableEq, Repr

/-- The deliveries still to come on a socket, in order. -/
abbrev Connection := List Delivery

/-- The function `recv(connfd, buf, len, 0)`: the return value, the bytes stored, and the
connection afterwards. A delivery longer than `len` is handed over in part. -/
def recv (conn : Connection) (len : Nat) : Int × List Char × Connection :=
  match conn with
  | [] => (0, [], [])
  | Delivery.failure :: rest => (-1, [], rest)
  | Delivery.data bytes :: rest =>
    if bytes.length ≤ len then ((bytes.length : Int), bytes, rest)
    else ((len : Int), bytes.take len, Delivery.data (bytes.drop len) :: rest)

/-- All bytes the peer still delivers before it closes or a read fails. -/
def pending_bytes : Connection → List Char
  | [] => []
  | Delivery.failure :: _ => []
  | Delivery.data bytes :: rest => bytes ++ pending_bytes rest

/-- How the loop `while (total_received < size) { recv ...; total_received += ...; }` ends. -/
inductive Received
  | complete (buffer : List Char) (conn : Connection)
  | failed
  | out_of_fuel
deriving DecidableEq, Repr

/-- The read loop of `get_full_body`, `print_response` and `print_parsed_fields` (lines 735-743,
422-430, 656-664), run for at most `fuel` iterations; `buffer` holds the `total_received` bytes
stored so far. Only a negative return value of `recv` ends the loop early. -/
def read_loop : Nat → Connection → Int → List Char → Received
  | 0, _, _, _ => Received.out_of_fuel
  | fuel + 1, conn, size, buffer =>
    if (buffer.length : Int) < size then
      let r := recv conn (size - (buffer.length : Int)).toNat
      if r.1 < 0 then Received.failed
      else read_loop fuel r.2.2 size (buffer ++ r.2.1)
    else Received.complete buffer conn

/-- The read loop with the fuel its callers give it: an iteration that does not end the loop
uses up a delivery, so one more iteration than there are deliveries is used up only when the
connection has been closed before `size` bytes came, and then no number of iterations ends the
loop. -/
def read_exact (conn : Connection) (size : Int) : Received :=
  read_loop (conn.length + 1) conn size []

/-- The function `get_full_body`: the buffer read and the connection afterwards. `malloc` is
taken to fail exactly for a size that a negative `int` turns into when converted to `size_t`;
storing the terminator in an object of size 0 is undefined. -/
def get_full_body (conn : Connection) (body_size : Int) :
    Except Status (List Char × Connection) :=
  if body_size + 1 < 0 then Except.error (Status.exited EXIT_FAILURE)
  else if body_size + 1 = 0 then Except.error Status.undefined
  else
    match read_exact conn body_size with
    | Received.complete buffer conn2 => Except.ok (buffer, conn2)
    | Received.failed => Except.error (Status.exited EXIT_FAILURE)
    | Received.out_of_fuel => Except.error Status.out_of_fuel

/-- The function `receive_remaining_response`: one `recv` of up to `BUFFER_SIZE - 1` bytes. -/
def receive_remaining_response (conn : Connection) : Run × Connection :=
  let r := recv conn (BUFFER_SIZE - 1)
  if r.1 < 0 then (⟨[], Status.exited EXIT_FAILURE⟩, r.2.2)
  else (⟨[], Status.returned 0⟩, r.2.2)

/-- The part shared by `print_response` and `print_parsed_fields` after the allocation: one
`recv` for the first `print_index` bytes, the read loop for `print_size` bytes, the text printed
(the buffer as a C string, passed through `filter`), and `receive_remaining_response`. -/
def print_received (filter : List Char → List Char) (conn : Connection) (print_index : Nat)
    (print_size : Int) : Run × Connection :=
  let r := if 0 < print_index then recv conn print_index else ((0 : Int), [], conn)
  if r.1 < 0 then (⟨[], Status.exited EXIT_FAILURE⟩, r.2.2)
  else
    match read_exact r.2.2 print_size with
    | Received.failed => (⟨[], Status.exited EXIT_FAILURE⟩, r.2.2)
    | Received.out_of_fuel => (⟨[], Status.out_of_fuel⟩, r.2.2)
    | Received.complete buffer conn2 =>
      let d := receive_remaining_response conn2
      (⟨filter (c_string buffer) ++ d.1.stdout, d.1.status⟩, d.2)

/-- The function `print_response` (lines 400-438). -/
def print_response (conn : Connection) (print_index : Nat) (print_size : Int) :
    Run × Connection :=
  if print_size + 1 < 0 then (⟨[], Status.exited EXIT_FAILURE⟩, conn)
  else if print_size + 1 = 0 then (⟨[], Status.undefined⟩, conn)
  else print_received (fun s => s) conn print_index print_size

/-- The function `print_parsed_fields` (lines 633-673); on an allocation failure it prints
`print_size` before it exits. -/
def print_parsed_fields (conn : Connection) (print_index : Nat) (print_size : Int) :
    Run × Connection :=
  if print_size + 1 < 0 then (⟨printf_d print_size, Status.exited EXIT_FAILURE⟩, conn)
  else if print_size + 1 = 0 then (⟨[], Status.undefined⟩, conn)
  else print_received remove_cr_newline conn print_index print_size

/-- Text printed before a call, the call, and text printed after it when it returns. -/
def print_around (before : List Char) (p : Run × Connection) (after : List Char) :
    Run × Connection :=
  match p.1.status with
  | Status.returned _ => (⟨before ++ p.1.stdout ++ after, Status.returned 0⟩, p.2)
  | s => (⟨before ++ p.1.stdout, s⟩, p.2)

/-! ## The operations (lines 360-398, 459-631, 688-723, 938-968)

Each operation sends its command and looks at the response with `recv(..., MSG_PEEK)`, which
leaves the connection as it is. -/

/-- The function `fetch_email`. -/
def fetch_email (conn : Connection) : Run × Connection :=
  let r := recv conn (BUFFER_SIZE - 1)
  if r.1 < 0 then (⟨[], Status.exited EXIT_FAILURE⟩, conn)
  else
    match fetch_email_frame r.2.1 with
    | Frame.undefined => (⟨[], Status.undefined⟩, conn)
    | Frame.not_found => (⟨"Message not found\n".toList, Status.exited 3⟩, conn)
    | Frame.found body_size body_index =>
      if body_size - 1 < INT_MIN then (⟨[], Status.undefined⟩, conn)
      else
        let p := print_around [] (print_response conn body_index (body_size - 1)) "\n".toList
        match p.1.status with
        | Status.returned _ => (⟨p.1.stdout, Status.exited 0⟩, p.2)
        | _ => p

/-- The function `parse_from`. -/
def parse_from (conn : Connection) : Run × Connection :=
  let r := recv conn (BUFFER_SIZE - 1)
  if r.1 < 0 then (⟨[], Status.exited EXIT_FAILURE⟩, conn)
  else
    match parse_from_frame r.2.1 with
    | Frame.undefined => (⟨[], Status.undefined⟩, conn)
    | Frame.not_found => (⟨[], Status.exited EXIT_FAILURE⟩, conn)
    | Frame.found from_size from_index =>
      if from_size - 8 < INT_MIN then (⟨[], Status.undefined⟩, conn)
      else print_around "From: ".toList (print_parsed_fields conn from_index (from_size - 8))
        "\n".toList

/-- The function `parse_to`; it has no branch for a response that does not match. -/
def parse_to (conn : Connection) : Run × Connection :=
  let r := recv conn (BUFFER_SIZE - 1)
  if r.1 < 0 then (⟨[], Status.exited EXIT_FAILURE⟩, conn)
  else
    match parse_to_frame r.2.1 with
    | Frame.undefined => (⟨[], Status.undefined⟩, conn)
    | Frame.not_found => (⟨[], Status.returned 0⟩, conn)
    | Frame.found to_size to_index =>
      if 2 < to_size then
        print_around "To: ".toList (print_parsed_fields conn to_index (to_size - 6)) "\n".toList
      else print_around "To:\n".toList (receive_remaining_response conn) []

/-- The function `parse_date`. -/
def parse_date (conn : Connection) : Run × Connection :=
  let r := recv conn (BUFFER_SIZE - 1)
  if r.1 < 0 then (⟨[], Status.exited EXIT_FAILURE⟩, conn)
  else
    match parse_date_frame r.2.1 with
    | Frame.undefined => (⟨[], Status.undefined⟩, conn)
    | Frame.not_found => (⟨[], Status.exited EXIT_FAILURE⟩, conn)
    | Frame.found date_size date_index =>
      if date_size - 8 < INT_MIN then (⟨[], Status.undefined⟩, conn)
      else print_around "Date: ".toList (print_parsed_fields conn date_index (date_size - 8))
        "\n".toList

/-- The function `parse_subject`. -/
def parse_subject (conn : Connection) : Run × Connection :=
  let r := recv conn (BUFFER_SIZE - 1)
  if r.1 < 0 then (⟨[], Status.exited EXIT_FAILURE⟩, conn)
  else
    match parse_subject_frame r.2.1 with
    | Frame.undefined => (⟨[], Status.undefined⟩, conn)
    | Frame.not_found => (⟨[], Status.exited EXIT_FAILURE⟩, conn)
    | Frame.found subject_size subject_index =>
      if 2 < subject_size then
        print_around "Subject: ".toList
          (print_parsed_fields conn subject_index (subject_size - 11)) "\n".toList
      else
        print_around "Subject: <No subject>\n".toList (receive_remaining_response conn) []

/-- The function `read_mime`; it has no branch for a response that does not match. -/
def read_mime (conn : Connection) : Run × Connection :=
  let r := recv conn (BUFFER_SIZE - 1)
  if r.1 < 0 then (⟨[], Status.exited EXIT_FAILURE⟩, conn)
  else
    match read_mime_frame r.2.1 with
    | Frame.undefined => (⟨[], Status.undefined⟩, conn)
    | Frame.not_found => (⟨[], Status.returned 0⟩, conn)
    | Frame.found body_size body_index =>
      if INT_MAX < body_size + (body_index : Int) then (⟨[], Status.undefined⟩, conn)
      else
        match get_full_body conn (body_size + (body_index : Int)) with
        | Except.error e => (⟨[], e⟩, conn)
        | Except.ok (body_buffer, conn2) => (print_mime (c_string body_buffer), conn2)

/-- The function `list_email`: one consuming `recv`, then `parse_list_response`; a return value
of 0 ends the process with exit status 0. -/
def list_email (conn : Connection) : Run × Connection :=
  let r := recv conn (BUFFER_SIZE - 1)
  if r.1 < 0 then (⟨[], Status.exited EXIT_FAILURE⟩, r.2.2)
  else
    let p := parse_list_response (c_string r.2.1)
    match p.status with
    | Status.returned v => if v = 0 then (⟨p.stdout, Status.exited 0⟩, r.2.2) else (p, r.2.2)
    | _ => (p, r.2.2)

/-- The four header fields that `parse_header_fields` fetches. -/
inductive HeaderField
  | From
  | To
  | Date
  | Subject
deriving DecidableEq, Repr

/-- The label that stands before the value in the literal and that the operation prints. -/
def HeaderField.label : HeaderField → List Char
  | HeaderField.From => "From: ".toList
  | HeaderField.To => "To: ".toList
  | HeaderField.Date => "Date: ".toList
  | HeaderField.Subject => "Subject: ".toList

/-- The section name of the field in the response line. -/
def HeaderField.section_name : HeaderField → List Char
  | HeaderField.From => "HEADER.FIELDS (FROM)".toList
  | HeaderField.To => "HEADER.FIELDS (TO)".toList
  | HeaderField.Date => "HEADER.FIELDS (DATE)".toList
  | HeaderField.Subject => "HEADER.FIELDS (SUBJECT)".toList

/-- The operation that fetches the field. -/
def HeaderField.fetch : HeaderField → Connection → Run × Connection
  | HeaderField.From => parse_from
  | HeaderField.To => parse_to
  | HeaderField.Date => parse_date
  | HeaderField.Subject => parse_subject

/-- The line `<seq>: <text>` that `parse_list_response` writes for one message. -/
def list_line (entry : Int × List Char) : List Char :=
  printf_d entry.1 ++ ": ".toList ++ entry.2 ++ "\n".toList

/-- The boundary token and the value of `content` after line 783 of `print_mime`: the text that
starts 4 characters after the final header parse position, or the way the run ends before. -/
def print_mime_body_start (body_buffer : List Char) : Except Status (List Char × List Char) :=
  match insensitive_strstr body_buffer "MIME-Version: 1.0".toList with
  | none => Except.error (Status.exited 4)
  | some _ =>
    match insensitive_strstr body_buffer "Content-Type: multipart/alternative;".toList with
    | none => Except.error (Status.exited 4)
    | some i =>
      let content := body_buffer.drop i
      match get_boundary content with
      | none => Except.error (Status.exited 4)
      | some boundary =>
        match check_starting_boundary content boundary with
        | Except.error e => Except.error e
        | Except.ok s =>
          let content := content.drop s
          match resolve_headers content with
          | Except.error e => Except.error e
          | Except.ok pos =>
            if content.length < pos + 4 then Except.error Status.undefined
            else Except.ok (boundary, content.drop (pos + 4))

/-- The text of `s` at offset `j` is `t`, up to ASCII letter case. -/
def MatchesAtCI (s t : List Char) (j : Nat) : Prop :=
  ∃ mid post, s.drop j = mid ++ post ∧ mid.map tolower = t.map tolower

/-- Equality of two outcomes of a fallible step is decidable. -/
instance decEqExcept {ε α : Type} [DecidableEq ε] [DecidableEq α] : DecidableEq (Except ε α)
  | Except.ok a, Except.ok b =>
    if h : a = b then isTrue (by rw [h]) else isFalse (fun e => h (Except.ok.inj e))
  | Except.error a, Except.error b =>
    if h : a = b then isTrue (by rw [h]) else isFalse (fun e => h (Except.error.inj e))
  | Except.ok _, Except.error _ => isFalse (fun e => Except.noConfusion e)
  | Except.error _, Except.ok _ => isFalse (fun e => Except.noConfusion e)

/-- One iteration of the loop of `parse_list_response` (lines 977-1015) from the scan position
`line_start`: the offset, from `line_start`, of the scan position of the next iteration, when
the iteration ends neither the loop nor the process. It is 5 characters past the `* ` found in
the no-subject branch, and 7 characters past the entry terminator in the subject branch. -/
def parse_list_advance (line_start : List Char) : Option Nat :=
  match strstr line_start "* ".toList with
  | none => none
  | some i =>
    match sscanf (line_start.drop i)
        "* %d FETCH (BODY[HEADER.FIELDS (SUBJECT)] \x7b%d\x7d\r\n".toList with
    | Scanned.undefined => none
    | Scanned.assigned values =>
      if values.length = 2 then
        match strstr (line_start.drop i) "\r\nSubject:".toList with
        | some j =>
          match strstr ((line_start.drop i).drop (j + 10)) "\r\n\r\n)\r\n".toList with
          | some k => some (i + (j + 10) + (k + 7))
          | none => none
        | none => some (i + 5)
      else none

/-- The number of values a run of the directives assigns when every directive matches. -/
def assignments : List Directive → Nat
  | [] => 0
  | Directive.decimal true :: ds => assignments ds + 1
  | _ :: ds => assignments ds

/-- A lower bound for the number of input characters that a run making every assignment reads:
one for each ordinary character and each conversion up to the last assigning conversion. -/
def min_input : List Directive → Nat
  | [] => 0
  | Directive.space :: ds => min_input ds
  | d :: ds => if assignments (d :: ds) = 0 then 0 else min_input ds + 1

/-! ## `escape_special_char` (lines 344-358) -/

/-- The loop of `escape_special_char` on the rest of the input, `output` being the `j`
characters stored so far: it stops at the end of the input, when `j < output_size - 1` fails,
or at a double quote or backslash for which `j < output_size - 2` fails. -/
def escape_loop (output_size : Int) : List Char → List Char → List Char
  | [], output => output
  | c :: rest, output =>
    if (output.length : Int) < output_size - 1 then
      if c = '"' ∨ c = '\\' then
        if (output.length : Int) < output_size - 2 then
          escape_loop output_size rest (output ++ ['\\', c])
        else output
      else escape_loop output_size rest (output ++ [c])
    else output

/-- The function `escape_special_char`: the string that `output` holds afterwards. For
`output_size < 1` the terminator is stored outside an object of `output_size` bytes. -/
def escape_special_char (input : List Char) (output_size : Int) : Option (List Char) :=
  if output_size < 1 then none else some (escape_loop output_size input [])

/-- The escaping of a string: a backslash stands before each double quote and each backslash. -/
def escaped : List Char → List Char
  | [] => []
  | c :: rest => if c = '"' ∨ c = '\\' then '\\' :: c :: escaped rest else c :: escaped rest

/-- The string without its escaping backslashes: of a backslash and the character after it,
the character is kept. -/
def unescaped : List Char → List Char
  | [] => []
  | [c] => [c]
  | c :: d :: rest => if c = '\\' then d :: unescaped rest else c :: unescaped (d :: rest)

/-! # Theorems -/

/-! ## Unfolding: `remove_cr_newline` -/

theorem remove_cr_newline_pair (s : List Char) :
    remove_cr_newline ('\r' :: '\n' :: s) = remove_cr_newline s := by
  simp [remove_cr_newline]

theorem remove_cr_newline_keep (c : Char) (s : List Char)
    (h : ¬ (c = '\r' ∧ s.head? = some '\n')) :
    remove_cr_newline (c :: s) = c :: remove_cr_newline s := by
  cases s with
  | nil => simp [remove_cr_newline]
  | cons d rest =>
    have h2 : ¬ (c = '\r' ∧ d = '\n') := by simpa using h
    simp only [remove_cr_newline, if_neg h2]

theorem remove_cr_newline_length_le (t : List Char) :
    (remove_cr_newline t).length ≤ t.length := by
  induction t using remove_cr_newline.induct with
  | case1 => simp [remove_cr_newline]
  | case2 c => simp [remove_cr_newline]
  | case3 c d rest hcd ih =>
    simp only [remove_cr_newline, if_pos hcd]
    simp only [List.length_cons]
    omega
  | case4 c d rest hcd ih =>
    simp only [remove_cr_newline, if_neg hcd]
    simpa using ih

theorem remove_cr_newline_crlf_run (n : Nat) (s : List Char) :
    remove_cr_newline (crlf_run n ++ s) = remove_cr_newline s := by
  induction n with
  | zero => rfl
  | succ n ih => simpa [crlf_run, remove_cr_newline_pair] using ih

/-- If the unfolded text begins with LF, the input is a run of CRLF pairs followed by LF. -/
theorem head_lf_of_remove_cr_newline (s : List Char) :
    (remove_cr_newline s).head? = some '\n' → ∃ k b, s = crlf_run k ++ '\n' :: b := by
  induction s using remove_cr_newline.induct with
  | case1 => simp [remove_cr_newline]
  | case2 c =>
    intro h
    refine ⟨0, [], ?_⟩
    simp [remove_cr_newline] at h
    simp [crlf_run, h]
  | case3 c d rest hcd ih =>
    intro h
    obtain ⟨hc, hd⟩ := hcd
    subst hc; subst hd
    rw [remove_cr_newline_pair] at h
    obtain ⟨k, b, hk⟩ := ih h
    exact ⟨k + 1, b, by simp [crlf_run, hk]⟩
  | case4 c d rest hcd ih =>
    intro h
    rw [remove_cr_newline_keep c (d :: rest) (by simpa using hcd)] at h
    refine ⟨0, d :: rest, ?_⟩
    simp at h
    simp [crlf_run, h]

theorem hasCRLF_cons (c : Char) (s : List Char) :
    HasCRLF (c :: s) ↔ (c = '\r' ∧ s.head? = some '\n') ∨ HasCRLF s := by
  constructor
  · rintro ⟨a, b, h⟩
    cases a with
    | nil =>
      left
      simp at h
      simp [h.1, h.2]
    | cons x a =>
      right
      simp at h
      exact ⟨a, b, h.2⟩
  · rintro (⟨hc, hs⟩ | ⟨a, b, h⟩)
    · cases s with
      | nil => simp at hs
      | cons d rest =>
        simp at hs
        exact ⟨[], rest, by simp [hc, hs]⟩
    · exact ⟨c :: a, b, by simp [h]⟩

theorem hasNestedCRLF_cons_of (c : Char) (s : List Char) (h : HasNestedCRLF s) :
    HasNestedCRLF (c :: s) := by
  obtain ⟨a, k, b, h⟩ := h
  exact ⟨c :: a, k, b, by simp [h]⟩

/-- The unfolded text holds a CRLF exactly when the input holds CR, CRLF pairs, LF. -/
theorem hasCRLF_remove_cr_newline_iff (s : List Char) :
    HasCRLF (remove_cr_newline s) ↔ HasNestedCRLF s := by
  induction s using remove_cr_newline.induct with
  | case1 =>
    constructor
    · rintro ⟨a, b, h⟩
      simp [remove_cr_newline] at h
    · rintro ⟨a, k, b, h⟩
      simp at h
  | case2 c =>
    constructor
    · rintro ⟨a, b, h⟩
      have := congrArg List.length h
      simp [remove_cr_newline] at this
      omega
    · rintro ⟨a, k, b, h⟩
      have := congrArg List.length h
      simp [crlf_run] at this
      omega
  | case3 c d rest hcd ih =>
    obtain ⟨hc, hd⟩ := hcd
    subst hc; subst hd
    rw [remove_cr_newline_pair, ih]
    constructor
    · intro h
      exact hasNestedCRLF_cons_of _ _ (hasNestedCRLF_cons_of _ _ h)
    · rintro ⟨a, k, b, h⟩
      match a, h with
      | [], h =>
        simp [crlf_run] at h
      | [x], h =>
        simp [crlf_run] at h
      | x :: y :: a, h =>
        simp at h
        exact ⟨a, k, b, h.2.2⟩
  | case4 c d rest hcd ih =>
    rw [remove_cr_newline_keep c (d :: rest) (by simpa using hcd), hasCRLF_cons, ih]
    constructor
    · rintro (⟨hc, hh⟩ | h)
      · obtain ⟨k, b, hk⟩ := head_lf_of_remove_cr_newline _ hh
        cases k with
        | zero =>
          simp [crlf_run] at hk
          exact absurd ⟨hc, hk.1⟩ hcd
        | succ k => exact ⟨[], k, b, by simp [hc, hk]⟩
      · exact hasNestedCRLF_cons_of _ _ h
    · rintro ⟨a, k, b, h⟩
      cases a with
      | nil =>
        left
        simp at h
        refine ⟨h.1, ?_⟩
        rw [h.2, remove_cr_newline_crlf_run]
        cases b with
        | nil => simp [remove_cr_newline]
        | cons y b =>
          rw [remove_cr_newline_keep _ _ (by simp)]
          simp
      | cons x a =>
        right
        simp at h
        exact ⟨a, k, b, h.2⟩

/-- Unfolding leaves a string as it is exactly when the string holds no CRLF. -/
theorem remove_cr_newline_fixed_iff (s : List Char) :
    remove_cr_newline s = s ↔ ¬ HasCRLF s := by
  induction s using remove_cr_newline.induct with
  | case1 =>
    simp [remove_cr_newline]
    rintro ⟨a, b, h⟩
    simp at h
  | case2 c =>
    simp [remove_cr_newline]
    rintro ⟨a, b, h⟩
    have := congrArg List.length h
    simp at this
    omega
  | case3 c d rest hcd ih =>
    obtain ⟨hc, hd⟩ := hcd
    subst hc; subst hd
    rw [remove_cr_newline_pair]
    constructor
    · intro h
      exfalso
      have := remove_cr_newline_length_le rest
      rw [h] at this
      simp only [List.length_cons] at this
      omega
    · intro h
      exact absurd ⟨[], rest, rfl⟩ h
  | case4 c d rest hcd ih =>
    rw [remove_cr_newline_keep c (d :: rest) (by simpa using hcd), hasCRLF_cons]
    simp only [List.cons.injEq, true_and, ih]
    constructor
    · intro h
      rintro (h2 | h2)
      · exact hcd (by simpa using h2)
      · exact h h2
    · intro h h2
      exact h (Or.inr h2)

/-- C1, as stated, fails: unfolding CR CR LF LF gives CR LF, and unfolding that gives the empty
string. -/
theorem remove_cr_newline_not_idempotent :
    remove_cr_newline (remove_cr_newline "\r\r\n\n".toList)
      ≠ remove_cr_newline "\r\r\n\n".toList := by
  decide

/-- C1, amended: unfolding a string is a no-op exactly when the string holds no CRLF, and
unfolding twice equals unfolding once exactly when the input holds no CR followed by one or
more CRLF pairs and an LF. -/
theorem remove_cr_newline_idempotent_iff (s : List Char) :
    (remove_cr_newline s = s ↔ ¬ HasCRLF s) ∧
    (remove_cr_newline (remove_cr_newline s) = remove_cr_newline s ↔ ¬ HasNestedCRLF s) := by
  refine ⟨remove_cr_newline_fixed_iff s, ?_⟩
  rw [remove_cr_newline_fixed_iff, hasCRLF_remove_cr_newline_iff]

/-- C2, as stated, fails: the unfolding of CR CR LF LF is CR LF, which holds a CRLF. -/
theorem remove_cr_newline_leaves_crlf :
    HasCRLF (remove_cr_newline "\r\r\n\n".toList) :=
  ⟨[], [], by decide⟩

/-- C2, amended: the unfolded text holds a CR directly followed by an LF exactly when the input
holds a CR, then one or more CRLF pairs, then an LF; every CRLF pair met by the scan is
removed. -/
theorem remove_cr_newline_crlf_iff (s : List Char) :
    (HasCRLF (remove_cr_newline s) ↔
      ∃ a k b, s = a ++ '\r' :: (crlf_run (k + 1) ++ '\n' :: b)) ∧
    (∀ n t, remove_cr_newline (crlf_run n ++ t) = remove_cr_newline t) :=
  ⟨hasCRLF_remove_cr_newline_iff s, remove_cr_newline_crlf_run⟩

/-! ## Characters -/

theorem char_eq_of_toNat_eq {c d : Char} (h : c.toNat = d.toNat) : c = d := by
  rw [← Char.ofNat_toNat c, ← Char.ofNat_toNat d, h]

theorem toNat_ofNat_of_lt (n : Nat) (h : n < 55296) : (Char.ofNat n).toNat = n := by
  have hv : n.isValidChar := Or.inl h
  simp only [Char.ofNat, hv, dite_true, Char.ofNatAux, Char.toNat]
  rfl

theorem tolower_toNat (c : Char) :
    (tolower c).toNat = if 65 ≤ c.toNat ∧ c.toNat ≤ 90 then c.toNat + 32 else c.toNat := by
  unfold tolower Char.toLower
  simp only [ge_iff_le]
  split
  · rename_i h
    exact toNat_ofNat_of_lt _ (by omega)
  · rfl

theorem tolower_eq_nul_iff (c : Char) : tolower c = NUL ↔ c = NUL := by
  constructor
  · intro h
    have h1 := congrArg Char.toNat h
    rw [tolower_toNat] at h1
    have h0 : NUL.toNat = 0 := by decide
    apply char_eq_of_toNat_eq
    rw [h0] at h1 ⊢
    split at h1 <;> omega
  · intro h
    subst h
    decide

/-- A character that is not a letter matches only itself. -/
theorem ci_iff_of_not_letter (d c : Char) (hd : is_letter d = false) :
    ci d c = true ↔ c = d := by
  simp only [is_letter, Bool.or_eq_false_iff, Bool.and_eq_false_imp, decide_eq_true_eq,
    decide_eq_false_iff_not] at hd
  simp only [ci, decide_eq_true_eq]
  constructor
  · intro h
    have h1 := congrArg Char.toNat h
    rw [tolower_toNat, tolower_toNat] at h1
    apply char_eq_of_toNat_eq
    obtain ⟨hu, hl⟩ := hd
    split at h1 <;> split at h1 <;> omega
  · intro h
    rw [h]

theorem ci_refl (c : Char) : ci c c = true := by simp [ci]

theorem ci_symm (c d : Char) : ci c d = ci d c := by
  simp only [ci]
  exact decide_eq_decide.mpr eq_comm

/-! ## Matching a pattern at the start of a string -/

theorem prefix_by_length (r : Char → Char → Bool) (t s : List Char)
    (h : prefix_by r t s = true) : t.length ≤ s.length := by
  induction t generalizing s with
  | nil => simp
  | cons x t ih =>
    cases s with
    | nil => simp [prefix_by] at h
    | cons c s =>
      simp only [prefix_by, Bool.and_eq_true] at h
      have := ih s h.2
      simp only [List.length_cons]
      omega

theorem prefix_by_append_right (r : Char → Char → Bool) (t s u : List Char)
    (h : t.length ≤ s.length) : prefix_by r t (s ++ u) = prefix_by r t s := by
  induction t generalizing s with
  | nil => simp [prefix_by]
  | cons x t ih =>
    cases s with
    | nil => simp at h
    | cons c s =>
      simp only [List.length_cons, Nat.add_le_add_iff_right] at h
      rw [List.cons_append]
      simp only [prefix_by]
      rw [ih s h]

theorem prefix_by_append_true (r : Char → Char → Bool) (t s u : List Char)
    (h : prefix_by r t s = true) : prefix_by r t (s ++ u) = true := by
  rw [prefix_by_append_right r t s u (prefix_by_length r t s h)]
  exact h

theorem prefix_by_self_append (r : Char → Char → Bool) (hr : ∀ c, r c c = true)
    (t u : List Char) : prefix_by r t (t ++ u) = true := by
  induction t with
  | nil => simp [prefix_by]
  | cons x t ih => simp [prefix_by, hr, ih]

/-- A match that starts in `a` and is not inside `a` runs into the next character `c`, which
then matches a later character of the pattern. -/
theorem prefix_by_append_cons_false (r : Char → Char → Bool) (t a : List Char) (c : Char)
    (u : List Char) (ha : a ≠ []) (hc : ∀ x ∈ t.tail, r x c = false)
    (h : prefix_by r t a = false) : prefix_by r t (a ++ c :: u) = false := by
  induction a generalizing t with
  | nil => exact absurd rfl ha
  | cons e a ih =>
    cases t with
    | nil => simp [prefix_by] at h
    | cons x t =>
      simp only [List.cons_append, prefix_by]
      cases hxe : r x e with
      | false => simp
      | true =>
        simp only [prefix_by, hxe, Bool.true_and] at h
        simp only [Bool.true_and]
        simp only [List.tail_cons] at hc
        cases a with
        | nil =>
          cases t with
          | nil => simp [prefix_by] at h
          | cons y t =>
            simp [prefix_by, hc y (by simp)]
        | cons e2 a =>
          apply ih t (by simp) _ h
          intro z hz
          exact hc z (List.mem_of_mem_tail hz)

/-- A match that starts in `a` and is not inside `a` covers the last character `d` of `a` with a
character of the pattern that is not its last. -/
theorem prefix_by_append_false_of_last (r : Char → Char → Bool) (t a : List Char) (d : Char)
    (u : List Char) (ha : a.getLast? = some d) (hd : ∀ x ∈ t.dropLast, r x d = false)
    (h : prefix_by r t a = false) : prefix_by r t (a ++ u) = false := by
  induction a generalizing t with
  | nil => simp at ha
  | cons e a ih =>
    cases t with
    | nil => simp [prefix_by] at h
    | cons x t =>
      simp only [List.cons_append, prefix_by]
      cases hxe : r x e with
      | false => simp
      | true =>
        simp only [prefix_by, hxe, Bool.true_and] at h
        simp only [Bool.true_and]
        cases a with
        | nil =>
          simp only [List.getLast?_singleton, Option.some.injEq] at ha
          subst ha
          cases t with
          | nil => simp [prefix_by] at h
          | cons y t =>
            have := hd x (by simp [List.dropLast])
            rw [this] at hxe
            exact absurd hxe (by simp)
        | cons e2 a =>
          apply ih t _ _ h
          · simpa [List.getLast?_cons_cons] using ha
          · intro z hz
            cases t with
            | nil => simp at hz
            | cons y t => exact hd z (by simp [List.dropLast]; exact Or.inr hz)

theorem prefix_by_mem (r : Char → Char → Bool) (t s : List Char)
    (h : prefix_by r t s = true) : ∀ x ∈ t, ∃ c ∈ s, r x c = true := by
  induction t generalizing s with
  | nil => simp
  | cons y t ih =>
    cases s with
    | nil => simp [prefix_by] at h
    | cons c s =>
      simp only [prefix_by, Bool.and_eq_true] at h
      intro x hx
      rcases List.mem_cons.mp hx with hx | hx
      · exact ⟨c, by simp, hx ▸ h.1⟩
      · obtain ⟨c2, hc2, hr⟩ := ih s h.2 x hx
        exact ⟨c2, List.mem_cons_of_mem _ hc2, hr⟩

theorem prefix_by_append_left (r : Char → Char → Bool) (t1 t2 s : List Char) :
    prefix_by r (t1 ++ t2) s
      = (prefix_by r t1 s && prefix_by r t2 (s.drop t1.length)) := by
  induction t1 generalizing s with
  | nil => simp [prefix_by]
  | cons x t ih =>
    cases s with
    | nil => simp [prefix_by]
    | cons c s => simp [prefix_by, ih, Bool.and_assoc]

theorem prefix_ci_iff (t s : List Char) :
    prefix_by ci t s = true ↔ ∃ u v, s = u ++ v ∧ u.map tolower = t.map tolower := by
  induction t generalizing s with
  | nil =>
    simp only [prefix_by, List.map_nil, List.map_eq_nil_iff, true_iff]
    exact ⟨[], s, rfl, rfl⟩
  | cons x t ih =>
    cases s with
    | nil =>
      simp only [prefix_by, Bool.false_eq_true, false_iff]
      rintro ⟨u, v, h, hm⟩
      have hu : u = [] := by
        cases u with
        | nil => rfl
        | cons a u => simp at h
      subst hu
      simp at hm
    | cons c s =>
      simp only [prefix_by, Bool.and_eq_true, ih s]
      constructor
      · rintro ⟨hxc, u, v, hs, hm⟩
        refine ⟨c :: u, v, by simp [hs], ?_⟩
        simp only [ci, decide_eq_true_eq] at hxc
        simp [hm, hxc]
      · rintro ⟨u, v, hs, hm⟩
        cases u with
        | nil => simp at hm
        | cons a u =>
          simp only [List.cons_append, List.cons.injEq] at hs
          simp only [List.map_cons, List.cons.injEq] at hm
          obtain ⟨rfl, hs⟩ := hs
          exact ⟨by simp [ci, hm.1], u, v, hs, hm.2⟩

theorem isPrefixOf_eq_prefix_by (t s : List Char) :
    t.isPrefixOf s = prefix_by (fun x c => x == c) t s := by
  induction t generalizing s with
  | nil => simp [prefix_by]
  | cons x t ih =>
    cases s with
    | nil => simp [prefix_by]
    | cons c s => simp [prefix_by, List.isPrefixOf, ih]

theorem strncasecmp_eq_zero_iff (t s : List Char) (ht : NUL ∉ t) :
    strncasecmp s t t.length = 0 ↔ prefix_by ci t s = true := by
  induction t generalizing s with
  | nil => simp [strncasecmp, prefix_by]
  | cons x t ih =>
    have hx : x ≠ NUL := fun h => ht (by simp [h])
    have ht2 : NUL ∉ t := fun h => ht (List.mem_cons_of_mem _ h)
    have hlx : tolower x ≠ NUL := fun h => hx ((tolower_eq_nul_iff x).mp h)
    cases s with
    | nil =>
      simp only [List.length_cons, strncasecmp, List.headD_nil, List.headD_cons, prefix_by]
      have h0 : tolower NUL = NUL := by decide
      have hne : tolower NUL ≠ tolower x := by
        rw [h0]
        exact fun h => hlx h.symm
      simp only [ne_eq, hne, not_false_eq_true, if_true, Bool.false_eq_true, iff_false]
      intro h
      have h2 : ((tolower NUL).toNat : Int) = ((tolower x).toNat : Int) := by omega
      exact hne (char_eq_of_toNat_eq (by exact_mod_cast h2))
    | cons c s =>
      simp only [List.length_cons, strncasecmp, List.headD_cons, List.tail_cons, prefix_by,
        Bool.and_eq_true, ci, decide_eq_true_eq]
      by_cases hcx : tolower c = tolower x
      · have hc0 : tolower c ≠ NUL := by rw [hcx]; exact hlx
        simp only [hcx, ne_eq, not_true_eq_false, if_false, true_and]
        rw [← hcx]
        simp only [hc0, if_false]
        exact ih s ht2
      · simp only [ne_eq, hcx, not_false_eq_true, if_true]
        constructor
        · intro h
          have h2 : ((tolower c).toNat : Int) = ((tolower x).toNat : Int) := by omega
          exact absurd (char_eq_of_toNat_eq (by exact_mod_cast h2)) hcx
        · rintro ⟨h, -⟩
          exact absurd h.symm hcx

/-! ## The search loop -/

theorem scan_forward_cons (hit : List Char → Bool) (c : Char) (s : List Char) :
    scan_forward hit (c :: s)
      = if hit (c :: s) = true then some 0 else (scan_forward hit s).map (· + 1) := rfl

theorem scan_forward_append_skip (hit : List Char → Bool) (a u : List Char)
    (h : ∀ j, j < a.length → hit ((a ++ u).drop j) = false) :
    scan_forward hit (a ++ u) = (scan_forward hit u).map (· + a.length) := by
  induction a with
  | nil => simp
  | cons c a ih =>
    have h0 := h 0 (by simp)
    simp only [List.drop_zero, List.cons_append] at h0
    have ih2 := ih (fun j hj => by
      have := h (j + 1) (by simpa using hj)
      simpa using this)
    rw [List.cons_append, scan_forward_cons, h0, ih2]
    simp only [Bool.false_eq_true, if_false, Option.map_map, List.length_cons]
    congr 1

theorem scan_forward_hit (hit : List Char → Bool) (s : List Char) (hs : s ≠ [])
    (h : hit s = true) : scan_forward hit s = some 0 := by
  cases s with
  | nil => exact absurd rfl hs
  | cons c s => simp [scan_forward, h]

theorem scan_forward_eq_none_iff (hit : List Char → Bool) (s : List Char) :
    scan_forward hit s = none ↔ ∀ j, j < s.length → hit (s.drop j) = false := by
  induction s with
  | nil => simp [scan_forward]
  | cons c s ih =>
    simp only [scan_forward, List.length_cons]
    constructor
    · intro h j hj
      by_cases hc : hit (c :: s) = true
      · simp [hc] at h
      · simp only [hc, Bool.false_eq_true, if_false, Option.map_eq_none'] at h
        cases j with
        | zero => simpa using hc
        | succ j => simpa using (ih.mp h) j (by omega)
    · intro h
      have h0 := h 0 (by omega)
      simp only [List.drop_zero] at h0
      simp only [h0, Bool.false_eq_true, if_false, Option.map_eq_none']
      exact ih.mpr (fun j hj => by simpa using h (j + 1) (by omega))

theorem scan_forward_some_spec (hit : List Char → Bool) (s : List Char) (i : Nat)
    (h : scan_forward hit s = some i) :
    i < s.length ∧ hit (s.drop i) = true ∧ ∀ j, j < i → hit (s.drop j) = false := by
  induction s generalizing i with
  | nil => simp [scan_forward] at h
  | cons c s ih =>
    simp only [scan_forward] at h
    by_cases hc : hit (c :: s) = true
    · simp only [hc, if_true, Option.some.injEq] at h
      subst h
      simp [hc]
    · simp only [hc, Bool.false_eq_true, if_false, Option.map_eq_some'] at h
      obtain ⟨k, hk, rfl⟩ := h
      obtain ⟨h1, h2, h3⟩ := ih k hk
      refine ⟨by simpa using h1, by simpa using h2, ?_⟩
      intro j hj
      cases j with
      | zero => simpa using hc
      | succ j => simpa using h3 j (by omega)

theorem scan_forward_congr (hit1 hit2 : List Char → Bool) (s : List Char)
    (h : ∀ p, hit1 p = hit2 p) : scan_forward hit1 s = scan_forward hit2 s := by
  have : hit1 = hit2 := funext h
  rw [this]

/-- A match found in `a` is found at the same place when more text follows `a`. -/
theorem scan_prefix_append (r : Char → Char → Bool) (t a u : List Char) (i : Nat)
    (h : scan_forward (prefix_by r t) a = some i) :
    scan_forward (prefix_by r t) (a ++ u) = some i := by
  induction a generalizing i with
  | nil => simp [scan_forward] at h
  | cons c a ih =>
    rw [scan_forward_cons] at h
    rw [List.cons_append, scan_forward_cons]
    by_cases hc : prefix_by r t (c :: a) = true
    · simp only [hc, if_true, Option.some.injEq] at h
      have := prefix_by_append_true r t (c :: a) u hc
      simp only [List.cons_append] at this
      simp [this, h]
    · simp only [hc, Bool.false_eq_true, if_false, Option.map_eq_some'] at h
      obtain ⟨k, hk, rfl⟩ := h
      obtain ⟨h1, h2, -⟩ := scan_forward_some_spec _ _ _ hk
      have hl := prefix_by_length r t _ h2
      simp only [List.length_drop] at hl
      have := prefix_by_append_right r t (c :: a) u (by simp only [List.length_cons]; omega)
      simp only [List.cons_append] at this
      simp [this, hc, ih k hk]

/-- Text none of whose characters matches the first character of the pattern is skipped. -/
theorem scan_prefix_skip_first (r : Char → Char → Bool) (x : Char) (t a u : List Char)
    (ha : ∀ c ∈ a, r x c = false) :
    scan_forward (prefix_by r (x :: t)) (a ++ u)
      = (scan_forward (prefix_by r (x :: t)) u).map (· + a.length) := by
  induction a with
  | nil => simp
  | cons c a ih =>
    have ih2 := ih (fun d hd => ha d (List.mem_cons_of_mem _ hd))
    rw [List.cons_append, scan_forward_cons, ih2]
    simp only [prefix_by, ha c (by simp), Bool.false_and, Bool.false_eq_true, if_false,
      Option.map_map, List.length_cons]
    congr 1

/-- Text without a match is skipped when the character after it matches no later character of
the pattern. -/
theorem scan_prefix_skip_before (r : Char → Char → Bool) (t a : List Char) (c : Char)
    (u : List Char) (ha : scan_forward (prefix_by r t) a = none)
    (hc : ∀ x ∈ t.tail, r x c = false) :
    scan_forward (prefix_by r t) (a ++ c :: u)
      = (scan_forward (prefix_by r t) (c :: u)).map (· + a.length) := by
  apply scan_forward_append_skip
  intro j hj
  rw [List.drop_append_of_le_length (by omega)]
  apply prefix_by_append_cons_false r t _ c u _ hc
  · exact (scan_forward_eq_none_iff _ _).mp ha j hj
  · intro h
    have := congrArg List.length h
    simp at this
    omega

/-- Text without a match is skipped when its last character matches only the last character of
the pattern. -/
theorem scan_prefix_skip_last (r : Char → Char → Bool) (t a : List Char) (d : Char)
    (u : List Char) (ha : scan_forward (prefix_by r t) a = none)
    (hl : a.getLast? = some d) (hd : ∀ x ∈ t.dropLast, r x d = false) :
    scan_forward (prefix_by r t) (a ++ u)
      = (scan_forward (prefix_by r t) u).map (· + a.length) := by
  apply scan_forward_append_skip
  intro j hj
  rw [List.drop_append_of_le_length (by omega)]
  apply prefix_by_append_false_of_last r t _ d u _ hd
  · exact (scan_forward_eq_none_iff _ _).mp ha j hj
  · rw [List.getLast?_drop]
    simp [hl, Nat.not_le.mpr hj]

/-- No match exists in a text that lacks a character of the pattern. -/
theorem scan_prefix_none_of_absent (r : Char → Char → Bool) (t s : List Char) (x : Char)
    (hx : x ∈ t) (hs : ∀ c ∈ s, r x c = false) :
    scan_forward (prefix_by r t) s = none := by
  rw [scan_forward_eq_none_iff]
  intro j _
  by_contra h
  simp only [Bool.not_eq_false] at h
  obtain ⟨c, hc, hr⟩ := prefix_by_mem r t _ h x hx
  rw [hs c (List.mem_of_mem_drop hc)] at hr
  exact absurd hr (by simp)

theorem insensitive_strstr_eq_scan (s t : List Char) (hne : t ≠ []) (ht : NUL ∉ t) :
    insensitive_strstr s t = scan_forward (prefix_by ci t) s := by
  unfold insensitive_strstr
  have h0 : t.headD NUL ≠ NUL := by
    cases t with
    | nil => exact absurd rfl hne
    | cons x t =>
      simp only [List.headD_cons]
      exact fun h => ht (by simp [h])
  rw [if_neg h0]
  apply scan_forward_congr
  intro p
  rw [Bool.eq_iff_iff, decide_eq_true_eq]
  exact strncasecmp_eq_zero_iff t p ht

theorem strstr_eq_scan (s t : List Char) (hne : t ≠ []) :
    strstr s t = scan_forward (prefix_by (fun x c => x == c) t) s := by
  unfold strstr
  rw [if_neg hne]
  apply scan_forward_congr
  intro p
  exact isPrefixOf_eq_prefix_by t p

/-! ## Boundary extraction and the version check -/

theorem scan_ci_eq_none_iff (s t : List Char) (hne : t ≠ []) :
    scan_forward (prefix_by ci t) s = none ↔ ¬ ContainsCI s t := by
  rw [scan_forward_eq_none_iff]
  constructor
  · rintro h ⟨pre, mid, post, hs, hm⟩
    have hlen : mid.length = t.length := by
      have := congrArg List.length hm
      simpa using this
    have hmid : mid ≠ [] := by
      intro h0
      rw [h0] at hlen
      exact hne (List.length_eq_zero.mp hlen.symm)
    have hj := h pre.length (by
      rw [hs]
      have : 0 < mid.length := List.length_pos.mpr hmid
      simp only [List.length_append]
      omega)
    have hd : s.drop pre.length = mid ++ post := by
      rw [hs, List.append_assoc, List.drop_left]
    rw [hd] at hj
    have : prefix_by ci t (mid ++ post) = true := (prefix_ci_iff t _).mpr ⟨mid, post, rfl, hm⟩
    rw [this] at hj
    exact absurd hj (by simp)
  · intro h j _
    by_contra hc
    simp only [Bool.not_eq_false] at hc
    obtain ⟨u, v, huv, hm⟩ := (prefix_ci_iff t _).mp hc
    apply h
    refine ⟨s.take j, u, v, ?_, hm⟩
    rw [List.append_assoc, ← huv, List.take_append_drop]

/-- The search finds nothing exactly when the text has no substring equal to the target up to
letter case. -/
theorem insensitive_strstr_eq_none_iff (s t : List Char) (hne : t ≠ []) (ht : NUL ∉ t) :
    insensitive_strstr s t = none ↔ ¬ ContainsCI s t := by
  rw [insensitive_strstr_eq_scan s t hne ht, scan_ci_eq_none_iff s t hne]

theorem strchr_append_cons (t : List Char) (c : Char) (u : List Char) (h : c ∉ t) :
    strchr (t ++ c :: u) c = some t.length := by
  unfold strchr
  rw [scan_forward_append_skip]
  · rw [scan_forward_hit _ _ (by simp) (by simp)]
    simp
  · intro j hj
    rw [List.drop_append_of_le_length (by omega)]
    cases hd : t.drop j with
    | nil =>
      have := congrArg List.length hd
      simp at this
      omega
    | cons x rest =>
      have hx : x ∈ t := List.mem_of_mem_drop (by rw [hd]; simp)
      have : x ≠ c := fun e => h (e ▸ hx)
      simp [this]

theorem takeWhile_append_stop (p : Char → Bool) (t u : List Char) (ht : ∀ c ∈ t, p c = true)
    (hu : u = [] ∨ ∃ c, u.head? = some c ∧ p c = false) :
    (t ++ u).takeWhile p = t := by
  induction t with
  | nil =>
    rcases hu with rfl | ⟨c, hc, hp⟩
    · rfl
    · cases u with
      | nil => simp at hc
      | cons d u =>
        simp only [List.head?_cons, Option.some.injEq] at hc
        subst hc
        simp [List.takeWhile, hp]
  | cons x t ih =>
    have := ih (fun c hc => ht c (List.mem_cons_of_mem _ hc))
    simp [List.takeWhile, ht x (by simp), this]

/-- The first `boundary=` of a content whose text before the parameter has none. -/
theorem insensitive_strstr_boundary (pre rest : List Char)
    (hpre : ¬ ContainsCI pre "boundary=".toList) :
    insensitive_strstr (pre ++ ("boundary=".toList ++ rest)) "boundary=".toList
      = some pre.length := by
  rw [insensitive_strstr_eq_scan _ _ (by decide) (by decide)]
  have e : "boundary=".toList ++ rest = 'b' :: ("oundary=".toList ++ rest) := rfl
  rw [e, scan_prefix_skip_before ci _ pre 'b' _
    ((scan_ci_eq_none_iff _ _ (by decide)).mpr hpre) (by decide)]
  rw [← e, scan_forward_hit _ _ (by simp [e]) (prefix_by_self_append ci ci_refl _ _)]
  simp

/-- The quoted form: the token runs up to the next double quote. -/
theorem get_boundary_quoted (pre t rest : List Char)
    (hpre : ¬ ContainsCI pre "boundary=".toList) (hq : '"' ∉ t) :
    get_boundary (pre ++ ("boundary=".toList ++ ('"' :: (t ++ '"' :: rest)))) = some t := by
  have hlen : "boundary=".length = "boundary=".toList.length := rfl
  unfold get_boundary
  rw [insensitive_strstr_boundary pre _ hpre]
  simp only [hlen, ← List.drop_drop, List.drop_left, List.headD_cons, if_true,
    List.drop_succ_cons, List.drop_zero]
  rw [strchr_append_cons t '"' rest hq]
  simp

/-- The bare form: the token runs up to the next space, CR, LF or the end of the input. -/
theorem get_boundary_bare (pre t post : List Char)
    (hpre : ¬ ContainsCI pre "boundary=".toList)
    (ht : t ≠ []) (hq : '"' ∉ t) (hsp : ' ' ∉ t) (hcr : '\r' ∉ t) (hlf : '\n' ∉ t)
    (hpost : post = [] ∨ post.head? = some ' ' ∨ post.head? = some '\r'
      ∨ post.head? = some '\n') :
    get_boundary (pre ++ ("boundary=".toList ++ (t ++ post))) = some t := by
  have hlen : "boundary=".length = "boundary=".toList.length := rfl
  unfold get_boundary
  rw [insensitive_strstr_boundary pre _ hpre]
  simp only [hlen, ← List.drop_drop, List.drop_left]
  cases t with
  | nil => exact absurd rfl ht
  | cons x t =>
    have hx : x ≠ '"' := fun e => hq (by simp [e])
    simp only [List.cons_append, List.headD_cons, hx, if_false]
    rw [← List.cons_append]
    congr 1
    apply takeWhile_append_stop
    · intro c hc
      have h1 : c ≠ ' ' := fun e => hsp (e ▸ hc)
      have h2 : c ≠ '\r' := fun e => hcr (e ▸ hc)
      have h3 : c ≠ '\n' := fun e => hlf (e ▸ hc)
      simp [h1, h2, h3]
    · rcases hpost with h | h | h | h
      · exact Or.inl h
      · exact Or.inr ⟨' ', h, by decide⟩
      · exact Or.inr ⟨'\r', h, by decide⟩
      · exact Or.inr ⟨'\n', h, by decide⟩

/-- C7: for a non-empty token `t` without double quote, space, CR or LF, and a content whose
first `boundary=` is the parameter in question, `get_boundary` returns exactly `t` both for the
quoted form `boundary="t"` (whatever follows) and for the bare form `boundary=t` followed by a
space, CR, LF or the end of the input. -/
theorem get_boundary_quoted_bare (pre t rest post : List Char)
    (hpre : ¬ ContainsCI pre "boundary=".toList)
    (ht : t ≠ []) (hq : '"' ∉ t) (hsp : ' ' ∉ t) (hcr : '\r' ∉ t) (hlf : '\n' ∉ t)
    (hpost : post = [] ∨ post.head? = some ' ' ∨ post.head? = some '\r'
      ∨ post.head? = some '\n') :
    get_boundary (pre ++ ("boundary=".toList ++ ('"' :: (t ++ '"' :: rest)))) = some t ∧
    get_boundary (pre ++ ("boundary=".toList ++ (t ++ post))) = some t :=
  ⟨get_boundary_quoted pre t rest hpre hq,
   get_boundary_bare pre t post hpre ht hq hsp hcr hlf hpost⟩

/-- A sample content: `boundary=abc123`, quoted and bare, gives `abc123`. -/
theorem get_boundary_quoted_bare_witness :
    get_boundary "Content-Type: multipart/alternative; boundary=\"abc123\"\r\n".toList
      = some "abc123".toList ∧
    get_boundary "Content-Type: multipart/alternative; boundary=abc123\r\n".toList
      = some "abc123".toList :=
  get_boundary_quoted_bare "Content-Type: multipart/alternative; ".toList "abc123".toList
    "\r\n".toList "\r\n".toList
    ((insensitive_strstr_eq_none_iff _ _ (by decide) (by decide)).mp (by decide))
    (by decide) (by decide) (by decide) (by decide) (by decide) (by decide)

/-- C8: a body without `MIME-Version: 1.0` (in any letter case) makes `print_mime` exit with
code 4 at the version check, with nothing written. -/
theorem print_mime_version_missing (body : List Char)
    (h : ¬ ContainsCI body "MIME-Version: 1.0".toList) :
    print_mime body = ⟨[], Status.exited 4⟩ := by
  have hn : insensitive_strstr body "MIME-Version: 1.0".toList = none :=
    (insensitive_strstr_eq_none_iff _ _ (by decide) (by decide)).mpr h
  simp only [print_mime, print_mime_content, hn]

/-- A sample body that is well formed except for the missing version header. -/
theorem print_mime_version_missing_witness :
    ¬ ContainsCI ("Content-Type: multipart/alternative; boundary=\"X\"\r\n\r\n--X\r\n"
        ++ "Content-Type: text/plain; charset=UTF-8\r\nContent-Transfer-Encoding: 7bit\r\n\r\n"
        ++ "Hello\r\n--X--").toList "MIME-Version: 1.0".toList ∧
    print_mime ("Content-Type: multipart/alternative; boundary=\"X\"\r\n\r\n--X\r\n"
        ++ "Content-Type: text/plain; charset=UTF-8\r\nContent-Transfer-Encoding: 7bit\r\n\r\n"
        ++ "Hello\r\n--X--").toList = ⟨[], Status.exited 4⟩ :=
  ⟨(insensitive_strstr_eq_none_iff _ _ (by decide) (by decide)).mp (by decide!),
   print_mime_version_missing _
    ((insensitive_strstr_eq_none_iff _ _ (by decide) (by decide)).mp (by decide!))⟩

/-! ## Runs of the code on sample inputs -/

/-- C3 fails on the code: for a message whose `text/plain` part is 7bit and whose following
`text/html` part is quoted-printable, `print_mime` writes the body of the HTML part, because
`check_encoding_parameter` looks for the quoted-printable header first and in the whole rest of
the buffer. -/
theorem print_mime_emits_later_part :
    print_mime ("MIME-Version: 1.0\r\n"
      ++ "Content-Type: multipart/alternative; boundary=\"X\"\r\n\r\n"
      ++ "--X\r\n"
      ++ "Content-Type: text/plain; charset=UTF-8\r\n"
      ++ "Content-Transfer-Encoding: 7bit\r\n\r\n"
      ++ "Hello\r\n"
      ++ "--X\r\n"
      ++ "Content-Type: text/html; charset=UTF-8\r\n"
      ++ "Content-Transfer-Encoding: quoted-printable\r\n\r\n"
      ++ "<p>Hello</p>\r\n"
      ++ "--X--").toList
    = ⟨"<p>Hello</p>".toList, Status.returned 0⟩ := by
  decide!

/-- C5 fails on the code: for an entry without a subject followed by an entry with one,
`parse_list_response` writes a single line that joins the first sequence number with the second
entry's subject, because `strstr(line_start, "\r\nSubject:")` searches the whole rest of the
buffer. -/
theorem parse_list_response_borrows_subject :
    parse_list_response ("* 1 FETCH (BODY[HEADER.FIELDS (SUBJECT)] \x7b2\x7d\r\n\r\n)\r\n"
      ++ "* 2 FETCH (BODY[HEADER.FIELDS (SUBJECT)] \x7b15\x7d\r\nSubject: hi\r\n\r\n)\r\n").toList
    = ⟨"1: hi\n".toList, Status.returned 1⟩ := by
  decide!

/-- C10 fails on the code: a first line without the closing brace is framed like a well-formed
one, because `sscanf` has made its one assignment before it meets the brace of the format. -/
theorem fetch_email_frame_accepts_missing_brace :
    fetch_email_frame "* 1 FETCH (BODY[] \x7b5\r\nhello".toList = Frame.found 5 22 ∧
    fetch_email_frame "* 1 FETCH (BODY[] \x7b5 bytes\x7d\r\nhello".toList = Frame.found 5 29 := by
  decide!

/-! ## The literal framer -/

theorem isdigit_iff (c : Char) : isdigit c = true ↔ 48 ≤ c.toNat ∧ c.toNat ≤ 57 := by
  simp only [isdigit, decide_eq_true_eq]
  show ('0'.val ≤ c.val ∧ c.val ≤ '9'.val) ↔ _
  rw [UInt32.le_def, UInt32.le_def]
  rfl

theorem isspace_of_isdigit (c : Char) (h : isdigit c = true) : isspace c = false := by
  cases hs : isspace c with
  | false => rfl
  | true =>
    exfalso
    simp only [isspace, Bool.or_eq_true, decide_eq_true_eq] at hs
    rcases hs with ((((rfl | rfl) | rfl) | rfl) | rfl) | rfl <;> exact absurd h (by decide)

theorem dropWhile_append_stop (p : Char → Bool) (t u : List Char) (ht : ∀ c ∈ t, p c = true)
    (hu : u = [] ∨ ∃ c, u.head? = some c ∧ p c = false) :
    (t ++ u).dropWhile p = u := by
  induction t with
  | nil =>
    rcases hu with rfl | ⟨c, hc, hp⟩
    · rfl
    · cases u with
      | nil => simp at hc
      | cons d u =>
        simp only [List.head?_cons, Option.some.injEq] at hc
        subst hc
        simp [List.dropWhile, hp]
  | cons x t ih =>
    have := ih (fun c hc => ht c (List.mem_cons_of_mem _ hc))
    simp [List.dropWhile, ht x (by simp), this]

theorem dropWhile_isspace_digits (ds u : List Char) (h : AllDigits ds) :
    (ds ++ u).dropWhile isspace = ds ++ u := by
  obtain ⟨hne, hd⟩ := h
  cases ds with
  | nil => exact absurd rfl hne
  | cons d ds =>
    simp [List.dropWhile, isspace_of_isdigit d (hd d (by simp))]

/-- A `%d` conversion reads a run of digits that is followed by a character that is no digit. -/
theorem scan_decimal_digits (ds : List Char) (c : Char) (u : List Char) (h : AllDigits ds)
    (hc : isdigit c = false) :
    scan_decimal (ds ++ c :: u) = some ((decimal_value ds : Int), c :: u) := by
  have hsp := dropWhile_isspace_digits ds (c :: u) h
  obtain ⟨hne, hd⟩ := h
  have htw : (ds ++ c :: u).takeWhile isdigit = ds :=
    takeWhile_append_stop isdigit ds (c :: u) hd (Or.inr ⟨c, rfl, hc⟩)
  have hdw : (ds ++ c :: u).dropWhile isdigit = c :: u :=
    dropWhile_append_stop isdigit ds (c :: u) hd (Or.inr ⟨c, rfl, hc⟩)
  cases ds with
  | nil => exact absurd rfl hne
  | cons d ds =>
    have hdd := hd d (by simp)
    have h1 : d ≠ '-' := fun e => by subst e; exact absurd hdd (by decide)
    have h2 : d ≠ '+' := fun e => by subst e; exact absurd hdd (by decide)
    unfold scan_decimal
    simp only [hsp]
    simp only [List.cons_append, List.head?_cons, Option.some.injEq, h1, h2, or_self,
      if_false, decide_False]
    rw [← List.cons_append, htw, hdw]
    simp

theorem int_range_of_le (v : Nat) (h : (v : Int) ≤ INT_MAX) :
    INT_MIN ≤ (v : Int) ∧ (v : Int) ≤ INT_MAX := by
  refine ⟨?_, h⟩
  have : INT_MIN ≤ 0 := by decide
  omega

theorem digit_ne_of_not_isdigit (ds : List Char) (h : AllDigits ds) (x : Char)
    (hx : isdigit x = false) : x ∉ ds := by
  intro hm
  rw [h.2 x hm] at hx
  exact absurd hx (by simp)

theorem sscanf_fetch_line_body (seq n tail : List Char) (hs : AllDigits seq)
    (hn : AllDigits n) (hv : (decimal_value n : Int) ≤ INT_MAX) :
    sscanf (fetch_line [] seq n ++ tail) "* %*d FETCH (BODY[] \x7b%d\x7d".toList
      = Scanned.assigned [(decimal_value n : Int)] := by
  have hb : isdigit '}' = false := by decide
  have hsp : isdigit ' ' = false := by decide
  have hr := int_range_of_le _ hv
  simp [fetch_line, sscanf, parse_format, isspace, sscanf_run, dropWhile_isspace_digits, hs, hn,
    scan_decimal_digits, hb, hsp, hr]

theorem sscanf_fetch_line_from (seq n tail : List Char) (hs : AllDigits seq)
    (hn : AllDigits n) (hv : (decimal_value n : Int) ≤ INT_MAX) :
    sscanf (fetch_line "HEADER.FIELDS (FROM)".toList seq n ++ tail)
      "* %*d FETCH (BODY[HEADER.FIELDS (FROM)] \x7b%d\x7d".toList
      = Scanned.assigned [(decimal_value n : Int)] := by
  have hb : isdigit '}' = false := by decide
  have hsp : isdigit ' ' = false := by decide
  have hr := int_range_of_le _ hv
  simp [fetch_line, sscanf, parse_format, isspace, sscanf_run, dropWhile_isspace_digits, hs, hn,
    scan_decimal_digits, hb, hsp, hr]

theorem sscanf_fetch_line_to (seq n tail : List Char) (hs : AllDigits seq)
    (hn : AllDigits n) (hv : (decimal_value n : Int) ≤ INT_MAX) :
    sscanf (fetch_line "HEADER.FIELDS (TO)".toList seq n ++ tail)
      "* %*d FETCH (BODY[HEADER.FIELDS (TO)] \x7b%d\x7d".toList
      = Scanned.assigned [(decimal_value n : Int)] := by
  have hb : isdigit '}' = false := by decide
  have hsp : isdigit ' ' = false := by decide
  have hr := int_range_of_le _ hv
  simp [fetch_line, sscanf, parse_format, isspace, sscanf_run, dropWhile_isspace_digits, hs, hn,
    scan_decimal_digits, hb, hsp, hr]

theorem sscanf_fetch_line_date (seq n tail : List Char) (hs : AllDigits seq)
    (hn : AllDigits n) (hv : (decimal_value n : Int) ≤ INT_MAX) :
    sscanf (fetch_line "HEADER.FIELDS (DATE)".toList seq n ++ tail)
      "* %*d FETCH (BODY[HEADER.FIELDS (DATE)] \x7b%d\x7d".toList
      = Scanned.assigned [(decimal_value n : Int)] := by
  have hb : isdigit '}' = false := by decide
  have hsp : isdigit ' ' = false := by decide
  have hr := int_range_of_le _ hv
  simp [fetch_line, sscanf, parse_format, isspace, sscanf_run, dropWhile_isspace_digits, hs, hn,
    scan_decimal_digits, hb, hsp, hr]

theorem sscanf_fetch_line_subject (seq n tail : List Char) (hs : AllDigits seq)
    (hn : AllDigits n) (hv : (decimal_value n : Int) ≤ INT_MAX) :
    sscanf (fetch_line "HEADER.FIELDS (SUBJECT)".toList seq n ++ tail)
      "* %*d FETCH (BODY[HEADER.FIELDS (SUBJECT)] \x7b%d\x7d\r\n".toList
      = Scanned.assigned [(decimal_value n : Int)] := by
  have hb : isdigit '}' = false := by decide
  have hsp : isdigit ' ' = false := by decide
  have hr := int_range_of_le _ hv
  simp [fetch_line, sscanf, parse_format, isspace, sscanf_run, dropWhile_isspace_digits, hs, hn,
    scan_decimal_digits, hb, hsp, hr]

/-- A fetch line holds neither NUL nor CR when its section name holds none. -/
theorem fetch_line_clean (sec seq n : List Char) (hs : AllDigits seq) (hn : AllDigits n)
    (h0 : NUL ∉ sec) (h1 : '\r' ∉ sec) :
    NUL ∉ fetch_line sec seq n ∧ '\r' ∉ fetch_line sec seq n := by
  have a0 := digit_ne_of_not_isdigit seq hs NUL (by decide)
  have a1 := digit_ne_of_not_isdigit seq hs '\r' (by decide)
  have b0 := digit_ne_of_not_isdigit n hn NUL (by decide)
  have b1 := digit_ne_of_not_isdigit n hn '\r' (by decide)
  have c0 : NUL ≠ '*' ∧ NUL ≠ ' ' ∧ NUL ≠ 'F' ∧ NUL ≠ 'E' ∧ NUL ≠ 'T' ∧ NUL ≠ 'C' ∧ NUL ≠ 'H'
      ∧ NUL ≠ '(' ∧ NUL ≠ 'B' ∧ NUL ≠ 'O' ∧ NUL ≠ 'D' ∧ NUL ≠ 'Y' ∧ NUL ≠ '[' ∧ NUL ≠ ']'
      ∧ NUL ≠ '{' ∧ NUL ≠ '}' := by decide
  constructor
  · simp only [fetch_line, List.mem_append, not_or]
    simp [a0, b0, h0, c0]
  · simp only [fetch_line, List.mem_append, not_or]
    simp [a1, b1, h1]

/-- The framing step on a buffer that starts with a line free of NUL and CR, followed by CRLF,
when `sscanf` assigns exactly `v` on it. -/
theorem literal_frame_of_line (format : List Char) (label : Nat) (line rest : List Char)
    (v : Int) (h0 : NUL ∉ line) (h1 : '\r' ∉ line)
    (hscan : ∀ tail, sscanf (line ++ tail) format = Scanned.assigned [v]) :
    literal_frame format label (line ++ "\r\n".toList ++ rest)
      = Frame.found v (line.length + 2 + label) := by
  have hc : c_string (line ++ "\r\n".toList ++ rest)
      = line ++ ('\r' :: '\n' :: c_string rest) := by
    unfold c_string
    rw [List.append_assoc, List.takeWhile_append_of_pos]
    · have e : "\r\n".toList ++ rest = '\r' :: '\n' :: rest := rfl
      have n1 : '\r' ≠ NUL := by decide
      have n2 : '\n' ≠ NUL := by decide
      rw [e]
      simp [List.takeWhile, n1, n2]
    · intro a ha
      have : a ≠ NUL := fun e => h0 (e ▸ ha)
      simpa using this
  unfold literal_frame
  simp only [hc, hscan]
  rw [strstr_eq_scan _ _ (by decide)]
  have e2 : "\r\n".toList = '\r' :: ['\n'] := rfl
  rw [e2, scan_prefix_skip_first _ '\r' ['\n'] line _ (by
    intro c hc
    have : c ≠ '\r' := fun e => h1 (e ▸ hc)
    simp only [beq_eq_false_iff_ne, ne_eq]
    exact fun e => this e.symm)]
  rw [scan_forward_hit _ _ (by simp) (by simp [prefix_by])]
  simp

/-- C9 fails as stated: on the chunk `* 1 FETCH (BODY[] {2147483648}` CRLF `x` the framing step
does not give the length 2147483648, which does not fit the `int` that `%d` assigns to. -/
theorem fetch_email_frame_overflow :
    AllDigits "1".toList ∧ AllDigits "2147483648".toList ∧
    fetch_line [] "1".toList "2147483648".toList ++ "\r\n".toList ++ "x".toList
      = "* 1 FETCH (BODY[] \x7b2147483648\x7d\r\nx".toList ∧
    fetch_email_frame "* 1 FETCH (BODY[] \x7b2147483648\x7d\r\nx".toList = Frame.undefined ∧
    fetch_email_frame "* 1 FETCH (BODY[] \x7b2147483648\x7d\r\nx".toList
      ≠ Frame.found 2147483648 31 := by
  refine ⟨⟨by decide, by decide⟩, ⟨by decide, by decide⟩, by decide, ?_, ?_⟩ <;> decide!

/-- C9, amended: on a chunk that starts with `* <seq> FETCH (BODY[<section>] {<N>}` and CRLF,
where `<seq>` and `<N>` are non-empty digit strings and the value of `<N>` is at most
`INT_MAX`, each of the six framing steps gives the value of `<N>` as the length and, as the
index, the offset just past the CRLF plus the label length 0, 0, 6, 4, 6, 9; whatever bytes
follow. -/
theorem literal_frame_well_formed (seq n rest : List Char) (hs : AllDigits seq)
    (hn : AllDigits n) (hv : (decimal_value n : Int) ≤ INT_MAX) :
    fetch_email_frame (fetch_line [] seq n ++ "\r\n".toList ++ rest)
      = Frame.found (decimal_value n) ((fetch_line [] seq n).length + 2) ∧
    read_mime_frame (fetch_line [] seq n ++ "\r\n".toList ++ rest)
      = Frame.found (decimal_value n) ((fetch_line [] seq n).length + 2) ∧
    parse_from_frame (fetch_line "HEADER.FIELDS (FROM)".toList seq n ++ "\r\n".toList ++ rest)
      = Frame.found (decimal_value n)
          ((fetch_line "HEADER.FIELDS (FROM)".toList seq n).length + 2 + 6) ∧
    parse_to_frame (fetch_line "HEADER.FIELDS (TO)".toList seq n ++ "\r\n".toList ++ rest)
      = Frame.found (decimal_value n)
          ((fetch_line "HEADER.FIELDS (TO)".toList seq n).length + 2 + 4) ∧
    parse_date_frame (fetch_line "HEADER.FIELDS (DATE)".toList seq n ++ "\r\n".toList ++ rest)
      = Frame.found (decimal_value n)
          ((fetch_line "HEADER.FIELDS (DATE)".toList seq n).length + 2 + 6) ∧
    parse_subject_frame
        (fetch_line "HEADER.FIELDS (SUBJECT)".toList seq n ++ "\r\n".toList ++ rest)
      = Frame.found (decimal_value n)
          ((fetch_line "HEADER.FIELDS (SUBJECT)".toList seq n).length + 2 + 9) := by
  have c1 := fetch_line_clean [] seq n hs hn (by simp) (by simp)
  have c2 := fetch_line_clean "HEADER.FIELDS (FROM)".toList seq n hs hn (by decide) (by decide)
  have c3 := fetch_line_clean "HEADER.FIELDS (TO)".toList seq n hs hn (by decide) (by decide)
  have c4 := fetch_line_clean "HEADER.FIELDS (DATE)".toList seq n hs hn (by decide) (by decide)
  have c5 := fetch_line_clean "HEADER.FIELDS (SUBJECT)".toList seq n hs hn (by decide)
    (by decide)
  refine ⟨?_, ?_, ?_, ?_, ?_, ?_⟩
  · exact literal_frame_of_line _ 0 _ rest _ c1.1 c1.2
      (fun tail => sscanf_fetch_line_body seq n tail hs hn hv)
  · exact literal_frame_of_line _ 0 _ rest _ c1.1 c1.2
      (fun tail => sscanf_fetch_line_body seq n tail hs hn hv)
  · exact literal_frame_of_line _ 6 _ rest _ c2.1 c2.2
      (fun tail => sscanf_fetch_line_from seq n tail hs hn hv)
  · exact literal_frame_of_line _ 4 _ rest _ c3.1 c3.2
      (fun tail => sscanf_fetch_line_to seq n tail hs hn hv)
  · exact literal_frame_of_line _ 6 _ rest _ c4.1 c4.2
      (fun tail => sscanf_fetch_line_date seq n tail hs hn hv)
  · exact literal_frame_of_line _ 9 _ rest _ c5.1 c5.2
      (fun tail => sscanf_fetch_line_subject seq n tail hs hn hv)

/-- A sample chunk for each operation: sequence number 12, a literal of 345 bytes. -/
theorem literal_frame_well_formed_witness :
    fetch_email_frame (fetch_line [] "12".toList "345".toList ++ "\r\n".toList
        ++ "From: a@b\r\n".toList)
      = Frame.found (decimal_value "345".toList)
          ((fetch_line [] "12".toList "345".toList).length + 2) ∧
    parse_subject_frame (fetch_line "HEADER.FIELDS (SUBJECT)".toList "12".toList "345".toList
        ++ "\r\n".toList ++ "From: a@b\r\n".toList)
      = Frame.found (decimal_value "345".toList)
          ((fetch_line "HEADER.FIELDS (SUBJECT)".toList "12".toList "345".toList).length
            + 2 + 9) :=
  have h := literal_frame_well_formed "12".toList "345".toList "From: a@b\r\n".toList
    ⟨by decide, by decide⟩ ⟨by decide, by decide⟩ (by decide)
  ⟨h.1, h.2.2.2.2.2⟩

/-! ## The list parser -/

theorem remove_cr_newline_append_of_no_cr (a u : List Char) (ha : '\r' ∉ a) :
    remove_cr_newline (a ++ u) = a ++ remove_cr_newline u := by
  induction a with
  | nil => rfl
  | cons x a ih =>
    have hx : x ≠ '\r' := fun e => ha (by simp [e])
    rw [List.cons_append, remove_cr_newline_keep x _ (by simp [hx]),
      ih (fun h => ha (List.mem_cons_of_mem _ h))]
    rfl

theorem remove_cr_newline_of_no_cr (a : List Char) (ha : '\r' ∉ a) :
    remove_cr_newline a = a := by
  have := remove_cr_newline_append_of_no_cr a [] ha
  simpa [remove_cr_newline] using this

theorem sscanf_list_line (seq n tail : List Char) (hs : AllDigits seq)
    (hsv : (decimal_value seq : Int) ≤ INT_MAX)
    (hn : AllDigits n) (hv : (decimal_value n : Int) ≤ INT_MAX) :
    sscanf (fetch_line "HEADER.FIELDS (SUBJECT)".toList seq n ++ tail)
      "* %d FETCH (BODY[HEADER.FIELDS (SUBJECT)] \x7b%d\x7d\r\n".toList
      = Scanned.assigned [(decimal_value seq : Int), (decimal_value n : Int)] := by
  have hb : isdigit '}' = false := by decide
  have hsp : isdigit ' ' = false := by decide
  have hr := int_range_of_le _ hv
  have hr2 := int_range_of_le _ hsv
  simp [fetch_line, sscanf, parse_format, isspace, sscanf_run, dropWhile_isspace_digits, hs, hn,
    scan_decimal_digits, hb, hsp, hr, hr2]

theorem strstr_star_fetch_line (sec seq n tail : List Char) :
    strstr (fetch_line sec seq n ++ tail) "* ".toList = some 0 := by
  simp [fetch_line, strstr, scan_forward, List.isPrefixOf]

theorem beq_false_of_not_mem (x : Char) (a : List Char) (h : x ∉ a) :
    ∀ c ∈ a, (x == c) = false := by
  intro c hc
  simp only [beq_eq_false_iff_ne, ne_eq]
  exact fun e => h (e ▸ hc)

theorem dropWhile_append_cons_stop (p : Char → Bool) (l : List Char) (c : Char)
    (u : List Char) (hc : p c = false) :
    (l ++ c :: u).dropWhile p = l.dropWhile p ++ c :: u := by
  induction l with
  | nil => simp [List.dropWhile, hc]
  | cons x l ih =>
    rw [List.cons_append, List.dropWhile_cons, List.dropWhile_cons]
    cases hx : p x with
    | true => simpa using ih
    | false => simp

theorem exists_fuel_of_two_le (s : List Char) (h : 2 ≤ s.length) :
    ∃ f, s.length + 1 = f + 2 + 1 :=
  ⟨s.length - 2, by omega⟩

/-- One iteration of the loop on an entry whose subject is folded over two lines. -/
theorem parse_list_loop_folded_entry (fuel : Nat) (seq n a b tail out : List Char) (flag : Int)
    (hs : AllDigits seq) (hsv : (decimal_value seq : Int) ≤ INT_MAX)
    (hn : AllDigits n) (hv : (decimal_value n : Int) ≤ INT_MAX)
    (ha : '\r' ∉ a) (hb : '\r' ∉ b) :
    parse_list_loop (fuel + 1)
      (fetch_line "HEADER.FIELDS (SUBJECT)".toList seq n
        ++ ("\r\nSubject:".toList
          ++ ((' ' :: (a ++ '\r' :: '\n' :: ' ' :: b)) ++ ("\r\n\r\n)\r\n".toList ++ tail))))
      out flag
    = parse_list_loop fuel tail
        (out ++ printf_d (decimal_value seq) ++ ": ".toList
          ++ (a.dropWhile (fun c => c = ' ' || c = '\t') ++ ' ' :: b) ++ "\n".toList)
        1 := by
  have hclean := fetch_line_clean "HEADER.FIELDS (SUBJECT)".toList seq n hs hn (by decide)
    (by decide)
  have h3 : strstr (fetch_line "HEADER.FIELDS (SUBJECT)".toList seq n
        ++ ("\r\nSubject:".toList
          ++ ((' ' :: (a ++ '\r' :: '\n' :: ' ' :: b)) ++ ("\r\n\r\n)\r\n".toList ++ tail))))
      "\r\nSubject:".toList
      = some (fetch_line "HEADER.FIELDS (SUBJECT)".toList seq n).length := by
    rw [strstr_eq_scan _ _ (by decide)]
    have e : "\r\nSubject:".toList = '\r' :: "\nSubject:".toList := rfl
    rw [e, scan_prefix_skip_first _ '\r' _ _ _ (beq_false_of_not_mem _ _ hclean.2), ← e,
      scan_forward_hit _ _ (by simp) (prefix_by_self_append _ (by simp) _ _)]
    simp
  have h5 : strstr ((' ' :: (a ++ '\r' :: '\n' :: ' ' :: b)) ++ ("\r\n\r\n)\r\n".toList ++ tail))
      "\r\n\r\n)\r\n".toList = some (' ' :: (a ++ '\r' :: '\n' :: ' ' :: b)).length := by
    rw [strstr_eq_scan _ _ (by decide)]
    have e : "\r\n\r\n)\r\n".toList = '\r' :: "\n\r\n)\r\n".toList := rfl
    have hsa : '\r' ∉ ' ' :: a := by simp [ha]
    have hsb : '\r' ∉ '\n' :: ' ' :: b := by simp [hb]
    have e1 : (' ' :: (a ++ '\r' :: '\n' :: ' ' :: b)) ++ ("\r\n\r\n)\r\n".toList ++ tail)
        = (' ' :: a) ++ ('\r' :: (('\n' :: ' ' :: b) ++ ("\r\n\r\n)\r\n".toList ++ tail))) := by
      simp
    rw [e1, e, scan_prefix_skip_first _ '\r' _ _ _ (beq_false_of_not_mem _ _ hsa),
      scan_forward_cons]
    have hmiss : prefix_by (fun x c => x == c) ('\r' :: "\n\r\n)\r\n".toList)
        ('\r' :: (('\n' :: ' ' :: b) ++ ('\r' :: "\n\r\n)\r\n".toList ++ tail))) = false := by
      simp [prefix_by]
    rw [hmiss, scan_prefix_skip_first _ '\r' _ _ _ (beq_false_of_not_mem _ _ hsb),
      scan_forward_hit _ _ (by simp) (prefix_by_self_append _ (by simp) _ _)]
    simp only [Bool.false_eq_true, if_false, Option.map_some', List.length_cons,
      List.length_append, Option.some.injEq]
    omega
  have hdw : List.dropWhile (fun c => c = ' ' || c = '\t')
      (' ' :: (a ++ '\r' :: '\n' :: ' ' :: b))
      = a.dropWhile (fun c => c = ' ' || c = '\t') ++ '\r' :: '\n' :: ' ' :: b := by
    rw [List.dropWhile_cons]
    simp only [decide_True, Bool.true_or, if_true]
    exact dropWhile_append_cons_stop _ a '\r' _ (by decide)
  have hrm : remove_cr_newline
      (a.dropWhile (fun c => c = ' ' || c = '\t') ++ '\r' :: '\n' :: ' ' :: b)
      = a.dropWhile (fun c => c = ' ' || c = '\t') ++ ' ' :: b := by
    have hd : '\r' ∉ a.dropWhile (fun c => c = ' ' || c = '\t') :=
      fun h => ha ((List.dropWhile_sublist _).subset h)
    rw [remove_cr_newline_append_of_no_cr _ _ hd, remove_cr_newline_pair,
      remove_cr_newline_of_no_cr (' ' :: b) (by simp [hb])]
  have hl : (10 : Nat) = "\r\nSubject:".toList.length := rfl
  have h7 : (7 : Nat) = "\r\n\r\n)\r\n".toList.length := rfl
  rw [parse_list_loop]
  simp only [strstr_star_fetch_line, List.drop_zero,
    sscanf_list_line seq n _ hs hsv hn hv, List.length_cons, List.length_nil, if_true,
    List.headD_cons, h3]
  rw [hl, ← List.drop_drop, List.drop_left, List.drop_left]
  simp only [h5, List.take_left, hdw, hrm]
  rw [h7, ← List.drop_drop, List.drop_left, List.drop_left]

theorem prefix_eq_iff (t s : List Char) :
    prefix_by (fun x c => x == c) t s = true ↔ ∃ v, s = t ++ v := by
  induction t generalizing s with
  | nil => simp [prefix_by]
  | cons x t ih =>
    cases s with
    | nil => simp [prefix_by]
    | cons c s =>
      simp only [prefix_by, Bool.and_eq_true, beq_iff_eq, ih s, List.cons_append,
        List.cons.injEq]
      constructor
      · rintro ⟨rfl, v, rfl⟩
        exact ⟨v, rfl, rfl⟩
      · rintro ⟨v, rfl, rfl⟩
        exact ⟨rfl, v, rfl⟩

theorem scan_eq_none_iff (s t : List Char) (hne : t ≠ []) :
    scan_forward (prefix_by (fun x c => x == c) t) s = none ↔ ¬ Contains s t := by
  rw [scan_forward_eq_none_iff]
  constructor
  · rintro h ⟨pre, post, hs⟩
    have hj := h pre.length (by
      rw [hs]
      have : 0 < t.length := List.length_pos.mpr hne
      simp only [List.length_append]
      omega)
    have hd : s.drop pre.length = t ++ post := by
      rw [hs, List.append_assoc, List.drop_left]
    rw [hd, (prefix_eq_iff t _).mpr ⟨post, rfl⟩] at hj
    exact absurd hj (by simp)
  · intro h j _
    by_contra hc
    simp only [Bool.not_eq_false] at hc
    obtain ⟨v, hv⟩ := (prefix_eq_iff t _).mp hc
    apply h
    refine ⟨s.take j, v, ?_⟩
    rw [List.append_assoc, ← hv, List.take_append_drop]

theorem strstr_eq_none_iff (s t : List Char) (hne : t ≠ []) :
    strstr s t = none ↔ ¬ Contains s t := by
  rw [strstr_eq_scan s t hne, scan_eq_none_iff s t hne]

/-- The loop on a last entry that has no subject, followed by text that holds no `* ` and no
line starting with `Subject:`: one line is written and the loop ends. -/
theorem parse_list_loop_last_entry_then_tail (fuel : Nat) (seq n tail out : List Char)
    (flag : Int) (hs : AllDigits seq) (hsv : (decimal_value seq : Int) ≤ INT_MAX)
    (hn : AllDigits n) (hv : (decimal_value n : Int) ≤ INT_MAX)
    (ht1 : ¬ Contains tail "* ".toList)
    (ht2 : ¬ Contains ("\r\n".toList ++ tail) "\r\nSubject:".toList) :
    parse_list_loop (fuel + 2)
      (fetch_line "HEADER.FIELDS (SUBJECT)".toList seq n ++ ("\r\n\r\n)\r\n".toList ++ tail))
      out flag
    = ⟨out ++ printf_d (decimal_value seq) ++ ": <No subject>\n".toList, Status.returned 1⟩ := by
  have hclean := fetch_line_clean "HEADER.FIELDS (SUBJECT)".toList seq n hs hn (by decide)
    (by decide)
  have h3 : strstr (fetch_line "HEADER.FIELDS (SUBJECT)".toList seq n
        ++ ("\r\n\r\n)\r\n".toList ++ tail)) "\r\nSubject:".toList = none := by
    rw [strstr_eq_scan _ _ (by decide)]
    have e : "\r\nSubject:".toList = '\r' :: "\nSubject:".toList := rfl
    rw [e, scan_prefix_skip_first _ '\r' _ _ _ (beq_false_of_not_mem _ _ hclean.2), ← e]
    have h5 := (scan_eq_none_iff _ _ (by decide)).mpr ht2
    have e2 : "\r\n".toList ++ tail = '\r' :: '\n' :: tail := rfl
    rw [e2] at h5
    have e3 : "\r\n\r\n)\r\n".toList ++ tail
        = '\r' :: '\n' :: '\r' :: '\n' :: ')' :: '\r' :: '\n' :: tail := rfl
    rw [e3]
    simp only [scan_forward_cons, h5]
    simp [prefix_by]
  have h4 : strstr ((fetch_line "HEADER.FIELDS (SUBJECT)".toList seq n
      ++ ("\r\n\r\n)\r\n".toList ++ tail)).drop 5) "* ".toList = none := by
    have a0 := digit_ne_of_not_isdigit seq hs '*' (by decide)
    have b0 := digit_ne_of_not_isdigit n hn '*' (by decide)
    have hlen : 5 ≤ (fetch_line "HEADER.FIELDS (SUBJECT)".toList seq n
        ++ "\r\n\r\n)\r\n".toList).length := by
      simp only [List.length_append]
      have : "\r\n\r\n)\r\n".toList.length = 7 := rfl
      omega
    rw [← List.append_assoc, List.drop_append_of_le_length hlen,
      strstr_eq_scan _ _ (by decide)]
    have e : "* ".toList = '*' :: " ".toList := rfl
    rw [e, scan_prefix_skip_first _ '*' _ _ _ (by
      apply beq_false_of_not_mem
      intro hm
      have e1 : fetch_line "HEADER.FIELDS (SUBJECT)".toList seq n ++ "\r\n\r\n)\r\n".toList
          = '*' :: (' ' :: (seq ++ (" FETCH (BODY[HEADER.FIELDS (SUBJECT)] \x7b".toList
              ++ (n ++ "\x7d\r\n\r\n)\r\n".toList)))) := by
        simp [fetch_line]
      rw [e1, List.drop_succ_cons] at hm
      have hm2 := List.mem_of_mem_drop hm
      simp [a0, b0] at hm2), ← e, (scan_eq_none_iff _ _ (by decide)).mpr ht1]
    rfl
  rw [parse_list_loop]
  simp only [strstr_star_fetch_line, List.drop_zero,
    sscanf_list_line seq n _ hs hsv hn hv, List.length_cons, List.length_nil, if_true,
    List.headD_cons, h3]
  rw [parse_list_loop]
  simp only [h4]

/-- C6: a response of two entries, the first numbered 1 with the subject `a` folded onto a
second line ` b`, the second numbered 2 without a Subject header, makes `parse_list_response`
write `1: a b` (`a` without its leading blanks) and `2: <No subject>` in that order and return
1. The lines `a` and `b` hold no CR, the announced lengths fit an `int`, and the text after the
two entries (such as the tagged completion line) holds no `* ` and no line starting with
`Subject:`. -/
theorem parse_list_response_folded_then_none (n1 n2 a b tail : List Char)
    (hn1 : AllDigits n1) (hv1 : (decimal_value n1 : Int) ≤ INT_MAX)
    (hn2 : AllDigits n2) (hv2 : (decimal_value n2 : Int) ≤ INT_MAX)
    (ha : '\r' ∉ a) (hb : '\r' ∉ b)
    (ht1 : ¬ Contains tail "* ".toList)
    (ht2 : ¬ Contains ("\r\n".toList ++ tail) "\r\nSubject:".toList) :
    parse_list_response
      (fetch_line "HEADER.FIELDS (SUBJECT)".toList "1".toList n1 ++ "\r\n".toList
        ++ "Subject: ".toList ++ a ++ "\r\n".toList ++ " ".toList ++ b ++ "\r\n".toList
        ++ "\r\n".toList ++ ")\r\n".toList
        ++ fetch_line "HEADER.FIELDS (SUBJECT)".toList "2".toList n2 ++ "\r\n".toList
        ++ "\r\n".toList ++ ")\r\n".toList ++ tail)
    = ⟨"1: ".toList ++ a.dropWhile (fun c => c = ' ' || c = '\t') ++ " ".toList ++ b
          ++ "\n".toList ++ "2: <No subject>\n".toList,
        Status.returned 1⟩ := by
  have d1 : AllDigits "1".toList := ⟨by decide, by decide⟩
  have d2 : AllDigits "2".toList := ⟨by decide, by decide⟩
  have shape :
      fetch_line "HEADER.FIELDS (SUBJECT)".toList "1".toList n1 ++ "\r\n".toList
        ++ "Subject: ".toList ++ a ++ "\r\n".toList ++ " ".toList ++ b ++ "\r\n".toList
        ++ "\r\n".toList ++ ")\r\n".toList
        ++ fetch_line "HEADER.FIELDS (SUBJECT)".toList "2".toList n2 ++ "\r\n".toList
        ++ "\r\n".toList ++ ")\r\n".toList ++ tail
      = fetch_line "HEADER.FIELDS (SUBJECT)".toList "1".toList n1
        ++ ("\r\nSubject:".toList
          ++ ((' ' :: (a ++ '\r' :: '\n' :: ' ' :: b)) ++ ("\r\n\r\n)\r\n".toList
            ++ (fetch_line "HEADER.FIELDS (SUBJECT)".toList "2".toList n2
              ++ ("\r\n\r\n)\r\n".toList ++ tail))))) := by
    simp
  obtain ⟨f, hf⟩ := exists_fuel_of_two_le
    (fetch_line "HEADER.FIELDS (SUBJECT)".toList "1".toList n1
        ++ ("\r\nSubject:".toList
          ++ ((' ' :: (a ++ '\r' :: '\n' :: ' ' :: b)) ++ ("\r\n\r\n)\r\n".toList
            ++ (fetch_line "HEADER.FIELDS (SUBJECT)".toList "2".toList n2
              ++ ("\r\n\r\n)\r\n".toList ++ tail))))))
    (by simp only [List.length_append, List.length_cons]; omega)
  rw [shape, parse_list_response, hf,
    parse_list_loop_folded_entry _ _ _ _ _ _ _ _ d1 (by decide) hn1 hv1 ha hb,
    parse_list_loop_last_entry_then_tail _ _ _ _ _ _ d2 (by decide) hn2 hv2 ht1 ht2]
  have p1 : printf_d (decimal_value "1".toList) = "1".toList := by decide
  have p2 : printf_d (decimal_value "2".toList) = "2".toList := by decide
  rw [p1, p2]
  simp

/-- The response of the specification's example: subject `Hello` folded before ` world`, then
an entry without subject, then the tagged completion line. -/
theorem parse_list_response_folded_then_none_witness :
    parse_list_response
      (fetch_line "HEADER.FIELDS (SUBJECT)".toList "1".toList "27".toList ++ "\r\n".toList
        ++ "Subject: ".toList ++ "Hello".toList ++ "\r\n".toList ++ " ".toList
        ++ "world".toList ++ "\r\n".toList
        ++ "\r\n".toList ++ ")\r\n".toList
        ++ fetch_line "HEADER.FIELDS (SUBJECT)".toList "2".toList "2".toList ++ "\r\n".toList
        ++ "\r\n".toList ++ ")\r\n".toList ++ "A0003 OK Fetch completed\r\n".toList)
    = ⟨"1: ".toList ++ "Hello".toList.dropWhile (fun c => c = ' ' || c = '\t') ++ " ".toList
          ++ "world".toList ++ "\n".toList ++ "2: <No subject>\n".toList,
        Status.returned 1⟩ :=
  parse_list_response_folded_then_none "27".toList "2".toList "Hello".toList "world".toList
    "A0003 OK Fetch completed\r\n".toList
    ⟨by decide, by decide⟩ (by decide) ⟨by decide, by decide⟩ (by decide)
    (by decide) (by decide)
    ((strstr_eq_none_iff _ _ (by decide)).mp (by decide))
    ((strstr_eq_none_iff _ _ (by decide)).mp (by decide))

/-! ## The MIME parser on the specification's example message -/

theorem ci_false_of_not_mem (x : Char) (hx : is_letter x = false) (l : List Char)
    (h : x ∉ l) : ∀ c ∈ l, ci x c = false := by
  intro c hc
  cases hci : ci x c with
  | false => rfl
  | true =>
    have := (ci_iff_of_not_letter x c hx).mp hci
    exact absurd (this ▸ hc) h

theorem ci_false_of_crlf (x : Char) (h1 : ci x '\r' = false) (h2 : ci x '\n' = false)
    (w : List Char) (hw : ∀ c ∈ w, c = '\r' ∨ c = '\n') : ∀ c ∈ w, ci x c = false := by
  intro c hc
  rcases hw c hc with rfl | rfl
  · exact h1
  · exact h2

/-- A target found in the known text `G` is found there when `G` stands after text that cannot
start a match and before any other text. -/
theorem insensitive_strstr_found_in (w G rest : List Char) (x : Char) (t : List Char) (i : Nat)
    (ht : NUL ∉ x :: t) (hw : ∀ c ∈ w, ci x c = false)
    (hG : scan_forward (prefix_by ci (x :: t)) G = some i) :
    insensitive_strstr (w ++ (G ++ rest)) (x :: t) = some (i + w.length) := by
  rw [insensitive_strstr_eq_scan _ _ (by simp) ht, scan_prefix_skip_first ci x t w _ hw,
    scan_prefix_append ci _ G rest i hG]
  rfl

theorem scan_qp_closing (X : List Char) (hsp : ' ' ∉ X) :
    scan_forward (prefix_by ci "Content-Transfer-Encoding: quoted-printable".toList)
      (closing_delimiter X) = none := by
  apply scan_prefix_none_of_absent ci _ _ ' ' (by decide)
  apply ci_false_of_not_mem ' ' (by decide)
  simp [closing_delimiter, hsp]

/-- The quoted-printable header is not found in known text `G` that ends a line, followed by a
body text without that header and the closing delimiter. -/
theorem insensitive_strstr_qp_absent (w G T X : List Char)
    (hw : ∀ c ∈ w, ci 'C' c = false)
    (hG : scan_forward (prefix_by ci "Content-Transfer-Encoding: quoted-printable".toList) G
      = none)
    (hGl : G.getLast? = some '\n')
    (hT : ¬ ContainsCI T "Content-Transfer-Encoding: quoted-printable".toList)
    (hsp : ' ' ∉ X) :
    insensitive_strstr (w ++ (G ++ (T ++ closing_delimiter X)))
      "Content-Transfer-Encoding: quoted-printable".toList = none := by
  rw [insensitive_strstr_eq_scan _ _ (by decide) (by decide)]
  have e : "Content-Transfer-Encoding: quoted-printable".toList
      = 'C' :: "ontent-Transfer-Encoding: quoted-printable".toList := rfl
  have hc : closing_delimiter X = '\r' :: ("\n--".toList ++ X ++ "--".toList) := rfl
  rw [e, scan_prefix_skip_first ci 'C' _ w _ hw, ← e,
    scan_prefix_skip_last ci _ G '\n' _ hG hGl (by decide)]
  have h2 := scan_prefix_skip_before ci "Content-Transfer-Encoding: quoted-printable".toList T
    '\r' ("\n--".toList ++ X ++ "--".toList)
    ((scan_ci_eq_none_iff _ _ (by decide)).mpr hT) (by decide)
  rw [← hc] at h2
  rw [h2, scan_qp_closing X hsp]
  rfl

theorem drop_past_prefix (w F R : List Char) (k : Nat) (hk : k ≤ F.length) :
    (w ++ (F ++ R)).drop (k + w.length) = F.drop k ++ R := by
  rw [Nat.add_comm, ← List.drop_drop, List.drop_left, List.drop_append_of_le_length hk]

/-- The part headers of the example message resolve to the position just past the
transfer-encoding header, whatever line ends `w` precede them. -/
theorem resolve_headers_sample (w T X : List Char) (hw : ∀ c ∈ w, c = '\r' ∨ c = '\n')
    (hT : ¬ ContainsCI T "Content-Transfer-Encoding: quoted-printable".toList)
    (hsp : ' ' ∉ X) :
    resolve_headers (w ++ (part_headers ++ (T ++ closing_delimiter X)))
      = Except.ok (72 + w.length) := by
  have hwC := ci_false_of_crlf 'C' (by decide) (by decide) w hw
  have hwc := ci_false_of_crlf 'c' (by decide) (by decide) w hw
  have s1 : insensitive_strstr (w ++ (part_headers ++ (T ++ closing_delimiter X)))
      "Content-Type: text/plain".toList = some (0 + w.length) :=
    insensitive_strstr_found_in w part_headers _ 'C' _ 0 (by decide) hwC (by decide)
  have s2 : insensitive_strstr (w ++ (part_headers ++ (T ++ closing_delimiter X)))
      "charset=UTF-8".toList = some (26 + w.length) :=
    insensitive_strstr_found_in w part_headers _ 'c' _ 26 (by decide) hwc (by decide)
  have s3 := insensitive_strstr_qp_absent w part_headers T X hwC (by decide) (by decide) hT hsp
  have s4 : insensitive_strstr (w ++ (part_headers ++ (T ++ closing_delimiter X)))
      "Content-Transfer-Encoding: 7bit".toList = some (41 + w.length) :=
    insensitive_strstr_found_in w part_headers _ 'C' _ 41 (by decide) hwC (by decide)
  have hd : (w ++ (part_headers ++ (T ++ closing_delimiter X))).drop (39 + w.length)
      = part_headers.drop 39 ++ (T ++ closing_delimiter X) :=
    drop_past_prefix w part_headers _ 39 (by decide)
  have s5 := insensitive_strstr_qp_absent [] (part_headers.drop 39) T X (by simp) (by decide)
    (by decide) hT hsp
  have s6 : insensitive_strstr ([] ++ (part_headers.drop 39 ++ (T ++ closing_delimiter X)))
      "Content-Transfer-Encoding: 7bit".toList = some (2 + 0) :=
    insensitive_strstr_found_in [] (part_headers.drop 39) _ 'C' _ 2 (by decide) (by simp)
      (by decide)
  simp only [List.nil_append] at s5 s6
  have l1 : "charset=UTF-8".length = 13 := rfl
  have l2 : "Content-Transfer-Encoding: 7bit".length = 31 := rfl
  have e39 : 26 + w.length + 13 = 39 + w.length := by omega
  have hlt : 39 + w.length < 41 + w.length + 31 := by omega
  have c1 : check_content_type_charset (w ++ (part_headers ++ (T ++ closing_delimiter X)))
      = Except.ok (39 + w.length) := by
    simp only [check_content_type_charset, s1, s2, l1, e39]
  have c2 : check_encoding_parameter (w ++ (part_headers ++ (T ++ closing_delimiter X)))
      = Except.ok (41 + w.length + 31) := by
    simp only [check_encoding_parameter, s3, s4, l2]
  have c3 : check_encoding_parameter (part_headers.drop 39 ++ (T ++ closing_delimiter X))
      = Except.ok (2 + 0 + 31) := by
    simp only [check_encoding_parameter, s5, s6, l2]
  unfold resolve_headers
  rw [c1, c2]
  dsimp only
  rw [if_pos hlt, hd, c3]
  have e72 : 39 + w.length + (2 + 0 + 31) = 72 + w.length := by omega
  dsimp only
  rw [e72]

theorem prefix_by_take (r : Char → Char → Bool) (hr : ∀ c, r c c = true) (k : Nat)
    (Z R : List Char) : prefix_by r (Z.take k) (Z ++ R) = true := by
  have h := prefix_by_self_append r hr (Z.take k) (Z.drop k ++ R)
  rwa [← List.append_assoc, List.take_append_drop] at h

theorem drop_take_length (k : Nat) (Z R : List Char) :
    (Z ++ R).drop (Z.take k).length = Z.drop k ++ R := by
  have h : Z ++ R = Z.take k ++ (Z.drop k ++ R) := by
    rw [← List.append_assoc, List.take_append_drop]
  rw [h, List.drop_left]

/-- The start delimiter is found right after the blank line that follows the header `H`; the
offset returned is past as much of the delimiter as the buffer of `BUFFER_SIZE` holds. -/
theorem check_starting_boundary_sample (H X R : List Char) (hH : '\r' ∉ H) (hX0 : NUL ∉ X) :
    check_starting_boundary
        (H ++ ('\r' :: '\n' :: (("\r\n--".toList ++ X ++ "\r\n".toList) ++ R))) X
      = Except.ok (H.length + 2
          + (("\r\n--".toList ++ X ++ "\r\n".toList).take 1023).length) := by
  have eZ : "\r\n--".toList ++ X ++ "\r\n".toList
      = '\r' :: '\n' :: '-' :: '-' :: (X ++ "\r\n".toList) := by simp
  have eBS : ("\r\n--".toList ++ X ++ "\r\n".toList).take 1023
      = '\r' :: ('\n' :: '-' :: ('-' :: (X ++ "\r\n".toList)).take 1020) := by
    rw [eZ]
    rfl
  have hnul : NUL ∉ ("\r\n--".toList ++ X ++ "\r\n".toList).take 1023 := by
    intro h
    have h2 := List.mem_of_mem_take h
    have n1 : NUL ≠ '\r' := by decide
    have n2 : NUL ≠ '\n' := by decide
    have n3 : NUL ≠ '-' := by decide
    simp [hX0, n1, n2, n3] at h2
  have hscan : scan_forward (prefix_by ci (("\r\n--".toList ++ X ++ "\r\n".toList).take 1023))
      (H ++ ('\r' :: '\n' :: (("\r\n--".toList ++ X ++ "\r\n".toList) ++ R)))
      = some (H.length + 2) := by
    have hit : prefix_by ci (("\r\n--".toList ++ X ++ "\r\n".toList).take 1023)
        (("\r\n--".toList ++ X ++ "\r\n".toList) ++ R) = true := prefix_by_take ci ci_refl _ _ _
    have hne : ("\r\n--".toList ++ X ++ "\r\n".toList) ++ R ≠ [] := by simp
    have h0 := scan_forward_hit _ _ hne hit
    have miss1 : prefix_by ci ('\r' :: ('\n' :: '-' :: ('-' :: (X ++ "\r\n".toList)).take 1020))
        ('\r' :: '\n' :: (("\r\n--".toList ++ X ++ "\r\n".toList) ++ R)) = false := by
      rw [eZ]
      have : ci '-' '\r' = false := by decide
      simp [prefix_by, this]
    have miss2 : prefix_by ci ('\r' :: ('\n' :: '-' :: ('-' :: (X ++ "\r\n".toList)).take 1020))
        ('\n' :: (("\r\n--".toList ++ X ++ "\r\n".toList) ++ R)) = false := by
      have : ci '\r' '\n' = false := by decide
      simp [prefix_by, this]
    rw [eBS, scan_prefix_skip_first ci '\r' _ H _ (ci_false_of_not_mem '\r' (by decide) H hH),
      scan_forward_cons, miss1, scan_forward_cons, miss2, ← eBS, h0]
    simp only [Bool.false_eq_true, if_false, Option.map_some', Option.some.injEq]
    omega
  unfold check_starting_boundary snprintf
  have eb : BUFFER_SIZE - 1 = 1023 := rfl
  rw [eb]
  dsimp only
  rw [insensitive_strstr_eq_scan _ _ (by rw [eBS]; simp) hnul, hscan]

/-- The closing delimiter ends the body text `T` when the token fits the buffer. -/
theorem check_end_boundary_sample (T X : List Char) (hX0 : NUL ∉ X) (hXr : '\r' ∉ X)
    (hlen : X.length ≤ 1019) (hT : ¬ ContainsCI T ("\r\n--".toList ++ X)) :
    check_end_boundary (T ++ closing_delimiter X) X = Except.ok T := by
  have eP : "\r\n--".toList ++ X = '\r' :: ('\n' :: '-' :: '-' :: X) := by simp
  have etake : ("\r\n--".toList ++ X).take 1023 = "\r\n--".toList ++ X := by
    apply List.take_of_length_le
    simp only [List.length_append]
    have : "\r\n--".toList.length = 4 := rfl
    omega
  have hnul : NUL ∉ "\r\n--".toList ++ X := by
    have n1 : NUL ≠ '\r' := by decide
    have n2 : NUL ≠ '\n' := by decide
    have n3 : NUL ≠ '-' := by decide
    simp [hX0, n1, n2, n3]
  have hc : closing_delimiter X = '\r' :: ("\n--".toList ++ X ++ "--".toList) := rfl
  have hc2 : closing_delimiter X = ("\r\n--".toList ++ X) ++ "--".toList := by
    simp [closing_delimiter]
  have htail : ∀ x ∈ ("\r\n--".toList ++ X).tail, ci x '\r' = false := by
    intro x hx
    rw [ci_symm]
    apply ci_false_of_not_mem '\r' (by decide) _ _ x hx
    rw [eP]
    simp [hXr]
  have hscan : scan_forward (prefix_by ci ("\r\n--".toList ++ X)) (T ++ closing_delimiter X)
      = some T.length := by
    have h2 := scan_prefix_skip_before ci ("\r\n--".toList ++ X) T '\r'
      ("\n--".toList ++ X ++ "--".toList)
      ((scan_ci_eq_none_iff _ _ (by simp)).mpr hT) htail
    rw [← hc] at h2
    rw [h2, hc2, scan_forward_hit _ _ (by simp) (prefix_by_self_append ci ci_refl _ _)]
    simp
  unfold check_end_boundary snprintf
  have eb : BUFFER_SIZE - 1 = 1023 := rfl
  rw [eb, etake]
  dsimp only
  rw [insensitive_strstr_eq_scan _ _ (by simp) hnul, hscan]
  simp

theorem mem_drop_crlf (X : List Char) (hlen : X.length ≤ 1019) :
    ∀ c ∈ ("\r\n--".toList ++ X ++ "\r\n".toList).drop 1023, c = '\r' ∨ c = '\n' := by
  intro c hc
  have hl : ("\r\n--".toList ++ X).length ≤ 1023 := by
    simp only [List.length_append]
    have : "\r\n--".toList.length = 4 := rfl
    omega
  have e : 1023 = ("\r\n--".toList ++ X).length + (1023 - ("\r\n--".toList ++ X).length) := by
    omega
  rw [e, ← List.drop_drop, List.drop_left] at hc
  have := List.mem_of_mem_drop hc
  simpa using this

/-- C4 fails as stated: with the boundary token of 1020 characters `long_boundary` the end
delimiter that `check_end_boundary` formats is cut to `BUFFER_SIZE - 1` characters, so the text
`long_boundary_text`, which holds that shorter delimiter but not the full one and none of the
header markers, is not printed: the output is empty. -/
theorem print_mime_long_boundary :
    long_boundary ≠ [] ∧ '"' ∉ long_boundary ∧ ' ' ∉ long_boundary ∧ '\r' ∉ long_boundary
      ∧ '\n' ∉ long_boundary ∧
    ¬ ContainsCI long_boundary_text ("\r\n--".toList ++ long_boundary) ∧
    (∀ m ∈ searched_markers, ¬ ContainsCI long_boundary_text m) ∧
    print_mime (sample_message long_boundary long_boundary_text) = ⟨[], Status.returned 0⟩ ∧
    print_mime (sample_message long_boundary long_boundary_text)
      ≠ ⟨long_boundary_text, Status.returned 0⟩ := by
  have hm : ∀ m ∈ searched_markers,
      m ≠ [] ∧ NUL ∉ m ∧ insensitive_strstr long_boundary_text m = none := by decide!
  refine ⟨by decide!, by decide!, by decide!, by decide!, by decide!, ?_, ?_, by decide!,
    by decide!⟩
  · exact (insensitive_strstr_eq_none_iff _ _ (by decide!) (by decide!)).mp (by decide!)
  · intro m hmem
    obtain ⟨h1, h2, h3⟩ := hm m hmem
    exact (insensitive_strstr_eq_none_iff _ _ h1 h2).mp h3

/-- C4, amended: for a boundary token `X` of at most 1019 characters without NUL, double quote,
space or CR, and a text `T` that holds neither CRLF, two dashes and `X` nor the quoted-printable
header (in any letter case), `print_mime` on the example message writes exactly `T` and
returns. -/
theorem print_mime_sample_message (X T : List Char)
    (hX0 : NUL ∉ X) (hq : '"' ∉ X) (hsp : ' ' ∉ X) (hcr : '\r' ∉ X) (hlen : X.length ≤ 1019)
    (hT : ¬ ContainsCI T ("\r\n--".toList ++ X))
    (hQ : ¬ ContainsCI T "Content-Transfer-Encoding: quoted-printable".toList) :
    print_mime (sample_message X T) = ⟨T, Status.returned 0⟩ := by
  have shape1 : sample_message X T
      = [] ++ ("MIME-Version: 1.0\r\nContent-Type: multipart/alternative; boundary=\"".toList
        ++ (X ++ ('"' :: '\r' :: '\n' :: (("\r\n--".toList ++ X ++ "\r\n".toList)
          ++ (part_headers ++ (T ++ closing_delimiter X)))))) := by
    simp [sample_message, part_headers, closing_delimiter]
  have shape2 : (sample_message X T).drop 19
      = "Content-Type: multipart/alternative; ".toList
        ++ ("boundary=".toList ++ ('"' :: (X ++ '"' :: ('\r' :: '\n' ::
          (("\r\n--".toList ++ X ++ "\r\n".toList)
            ++ (part_headers ++ (T ++ closing_delimiter X))))))) := by
    simp [sample_message, part_headers, closing_delimiter]
  have shape3 : "Content-Type: multipart/alternative; ".toList
        ++ ("boundary=".toList ++ ('"' :: (X ++ '"' :: ('\r' :: '\n' ::
          (("\r\n--".toList ++ X ++ "\r\n".toList)
            ++ (part_headers ++ (T ++ closing_delimiter X)))))))
      = ("Content-Type: multipart/alternative; boundary=\"".toList ++ X ++ "\"".toList)
        ++ ('\r' :: '\n' :: (("\r\n--".toList ++ X ++ "\r\n".toList)
          ++ (part_headers ++ (T ++ closing_delimiter X)))) := by
    simp
  have ha : insensitive_strstr (sample_message X T) "MIME-Version: 1.0".toList
      = some (0 + ([] : List Char).length) := by
    rw [shape1]
    exact insensitive_strstr_found_in [] _ _ 'M' _ 0 (by decide) (by simp) (by decide)
  have hb : insensitive_strstr (sample_message X T)
      "Content-Type: multipart/alternative;".toList = some (19 + ([] : List Char).length) := by
    rw [shape1]
    exact insensitive_strstr_found_in [] _ _ 'C' _ 19 (by decide) (by simp) (by decide)
  have hgb := get_boundary_quoted "Content-Type: multipart/alternative; ".toList X
    ('\r' :: '\n' :: (("\r\n--".toList ++ X ++ "\r\n".toList)
      ++ (part_headers ++ (T ++ closing_delimiter X))))
    ((insensitive_strstr_eq_none_iff _ _ (by decide) (by decide)).mp (by decide)) hq
  have hH : '\r' ∉ "Content-Type: multipart/alternative; boundary=\"".toList ++ X
      ++ "\"".toList := by
    simp [hcr]
  have hsb := check_starting_boundary_sample _ X
    (part_headers ++ (T ++ closing_delimiter X)) hH hX0
  have hdrop : (("Content-Type: multipart/alternative; boundary=\"".toList ++ X ++ "\"".toList)
        ++ ('\r' :: '\n' :: (("\r\n--".toList ++ X ++ "\r\n".toList)
          ++ (part_headers ++ (T ++ closing_delimiter X))))).drop
        (("Content-Type: multipart/alternative; boundary=\"".toList ++ X ++ "\"".toList).length
          + 2 + (("\r\n--".toList ++ X ++ "\r\n".toList).take 1023).length)
      = ("\r\n--".toList ++ X ++ "\r\n".toList).drop 1023
        ++ (part_headers ++ (T ++ closing_delimiter X)) := by
    rw [← List.drop_drop, ← List.drop_drop, List.drop_left]
    simp only [List.drop_succ_cons, List.drop_zero]
    exact drop_take_length _ _ _
  have hw := mem_drop_crlf X hlen
  have hres := resolve_headers_sample (("\r\n--".toList ++ X ++ "\r\n".toList).drop 1023) T X
    hw hQ hsp
  have hlong : ¬ ((("\r\n--".toList ++ X ++ "\r\n".toList).drop 1023
      ++ (part_headers ++ (T ++ closing_delimiter X))).length
      < 72 + (("\r\n--".toList ++ X ++ "\r\n".toList).drop 1023).length + 4) := by
    have : part_headers.length = 76 := rfl
    rw [List.length_append, List.length_append, this]
    omega
  have hdrop2 : ((("\r\n--".toList ++ X ++ "\r\n".toList).drop 1023)
      ++ (part_headers ++ (T ++ closing_delimiter X))).drop
        (72 + (("\r\n--".toList ++ X ++ "\r\n".toList).drop 1023).length + 4)
      = T ++ closing_delimiter X := by
    have e : 72 + (("\r\n--".toList ++ X ++ "\r\n".toList).drop 1023).length + 4
        = 76 + (("\r\n--".toList ++ X ++ "\r\n".toList).drop 1023).length := by omega
    rw [e, drop_past_prefix _ part_headers _ 76 (by decide)]
    rfl
  have hend := check_end_boundary_sample T X hX0 hcr hlen hT
  unfold print_mime print_mime_content
  rw [ha]
  dsimp only
  rw [hb]
  dsimp only
  rw [List.length_nil, Nat.add_zero, shape2, hgb]
  dsimp only
  rw [shape3, hsb]
  dsimp only
  rw [hdrop, hres]
  dsimp only
  rw [if_neg hlong, hdrop2, hend]

/-- The message of the specification's example: boundary `X`, text `Hello`. -/
theorem print_mime_sample_message_witness :
    print_mime (sample_message "X".toList "Hello".toList)
      = ⟨"Hello".toList, Status.returned 0⟩ :=
  print_mime_sample_message "X".toList "Hello".toList (by decide) (by decide) (by decide)
    (by decide) (by decide)
    ((insensitive_strstr_eq_none_iff _ _ (by decide) (by decide)).mp (by decide))
    ((insensitive_strstr_eq_none_iff _ _ (by decide) (by decide)).mp (by decide))

/-! ## The transport: the read loop -/

theorem read_loop_succ (fuel : Nat) (conn : Connection) (size : Int) (buffer : List Char) :
    read_loop (fuel + 1) conn size buffer
      = if (buffer.length : Int) < size then
          (if (recv conn (size - (buffer.length : Int)).toNat).1 < 0 then Received.failed
           else read_loop fuel (recv conn (size - (buffer.length : Int)).toNat).2.2 size
            (buffer ++ (recv conn (size - (buffer.length : Int)).toNat).2.1))
        else Received.complete buffer conn := rfl

/-- On a closed connection the loop makes no progress: it has not ended after any number of
iterations. -/
theorem read_loop_closed (fuel : Nat) (size : Int) (buffer : List Char)
    (h : (buffer.length : Int) < size) :
    read_loop fuel [] size buffer = Received.out_of_fuel := by
  induction fuel with
  | zero => rfl
  | succ fuel ih =>
    rw [read_loop_succ, if_pos h]
    simpa [recv] using ih

theorem pending_bytes_map_data (chunks : List (List Char)) :
    pending_bytes (chunks.map Delivery.data) = chunks.flatten := by
  induction chunks with
  | nil => rfl
  | cons c cs ih => simp [pending_bytes, ih]

/-- When the peer closes before `size` bytes have come, the loop has not ended after any number
of iterations. -/
theorem read_loop_never_ends (chunks : List (List Char)) (size : Int) :
    ∀ (fuel : Nat) (buffer : List Char),
      (buffer.length : Int) + (chunks.flatten.length : Int) < size →
      read_loop fuel (chunks.map Delivery.data) size buffer = Received.out_of_fuel := by
  induction chunks with
  | nil =>
    intro fuel buffer h
    exact read_loop_closed fuel size buffer (by simpa using h)
  | cons c cs ih =>
    intro fuel buffer h
    cases fuel with
    | zero => rfl
    | succ fuel =>
      simp only [List.flatten_cons, List.length_append, Nat.cast_add] at h
      have hlt : (buffer.length : Int) < size := by omega
      have hc : c.length ≤ (size - (buffer.length : Int)).toNat := by omega
      rw [read_loop_succ, if_pos hlt]
      simp only [List.map_cons, recv, if_pos hc]
      rw [if_neg (by omega)]
      apply ih
      simp only [List.length_append, Nat.cast_add]
      omega

/-- The loop on a connection that delivers enough bytes, in any chunks: it ends with exactly
the bytes asked for, and the rest stays on the connection. -/
theorem read_loop_chunks (chunks : List (List Char)) :
    ∀ (fuel size : Nat) (buffer : List Char),
      chunks.length + 1 ≤ fuel → buffer.length ≤ size →
      size ≤ buffer.length + chunks.flatten.length →
      ∃ rest : List (List Char),
        read_loop fuel (chunks.map Delivery.data) (size : Int) buffer
          = Received.complete (buffer ++ chunks.flatten.take (size - buffer.length))
              (rest.map Delivery.data) ∧
        rest.flatten = chunks.flatten.drop (size - buffer.length) := by
  induction chunks with
  | nil =>
    intro fuel size buffer hf hb hs
    obtain ⟨f, rfl⟩ : ∃ f, fuel = f + 1 := ⟨fuel - 1, by omega⟩
    simp only [List.flatten_nil, List.length_nil, Nat.add_zero] at hs
    refine ⟨[], ?_, by simp⟩
    rw [read_loop_succ, if_neg (by omega)]
    simp
  | cons c cs ih =>
    intro fuel size buffer hf hb hs
    obtain ⟨f, rfl⟩ : ∃ f, fuel = f + 1 := ⟨fuel - 1, by omega⟩
    simp only [List.length_cons] at hf
    simp only [List.flatten_cons, List.length_append] at hs
    rw [read_loop_succ]
    by_cases hlt : (buffer.length : Int) < (size : Int)
    · rw [if_pos hlt]
      have hrem : ((size : Int) - (buffer.length : Int)).toNat = size - buffer.length := by
        omega
      rw [hrem]
      by_cases hc : c.length ≤ size - buffer.length
      · simp only [List.map_cons, recv, if_pos hc]
        rw [if_neg (by omega)]
        obtain ⟨rest, h1, h2⟩ := ih f size (buffer ++ c) (by omega)
          (by simp only [List.length_append]; omega)
          (by simp only [List.length_append]; omega)
        refine ⟨rest, ?_, ?_⟩
        · rw [h1]
          congr 1
          simp only [List.length_append, List.flatten_cons, List.append_assoc]
          congr 1
          rw [List.take_append_eq_append_take, List.take_of_length_le hc]
          congr 2
          omega
        · rw [h2]
          simp only [List.length_append, List.flatten_cons]
          rw [List.drop_append_eq_append_drop, List.drop_of_length_le hc, List.nil_append]
          congr 1
          omega
      · simp only [List.map_cons, recv, if_neg hc]
        rw [if_neg (by omega)]
        obtain ⟨g, rfl⟩ : ∃ g, f = g + 1 := ⟨f - 1, by omega⟩
        have hfull : ¬ (((buffer ++ c.take (size - buffer.length)).length : Int) < (size : Int)) := by
          simp only [List.length_append, List.length_take]
          omega
        rw [read_loop_succ, if_neg hfull]
        refine ⟨c.drop (size - buffer.length) :: cs, ?_, ?_⟩
        · simp only [List.map_cons, List.flatten_cons]
          congr 2
          rw [List.take_append_of_le_length (by omega)]
        · simp only [List.flatten_cons]
          rw [List.drop_append_of_le_length (by omega)]
    · rw [if_neg hlt]
      have he : size - buffer.length = 0 := by omega
      refine ⟨c :: cs, ?_, ?_⟩
      · simp [he]
      · simp [he]

/-- C14 fails on the code: when 3 of 5 requested bytes have come and the peer has closed, the
loop of `get_full_body` has not ended after any number of iterations (`recv` keeps returning 0,
which the loop adds to `total_received`), and `get_full_body` reports no transport error. -/
theorem get_full_body_spins_after_closure :
    (∀ fuel, read_loop fuel [Delivery.data "abc".toList] 5 [] = Received.out_of_fuel) ∧
    get_full_body [Delivery.data "abc".toList] 5 = Except.error Status.out_of_fuel := by
  have h : ∀ fuel, read_loop fuel [Delivery.data "abc".toList] 5 [] = Received.out_of_fuel :=
    fun fuel => read_loop_never_ends ["abc".toList] 5 fuel [] (by decide)
  refine ⟨h, ?_⟩
  simp only [get_full_body, read_exact, h]
  rfl

/-- C13: whatever the chunks in which at least `n` bytes are delivered, the read loop (shared by
`get_full_body`, `print_response` and `print_parsed_fields`) and `get_full_body` end with
exactly the first `n` bytes of the stream, leave the other bytes on the connection, and give the
same buffer as when the stream comes in a single delivery. -/
theorem read_exact_reassembles (chunks : List (List Char)) (n : Nat)
    (hlen : n ≤ chunks.flatten.length) :
    (∃ rest : List (List Char),
      read_exact (chunks.map Delivery.data) n
        = Received.complete (chunks.flatten.take n) (rest.map Delivery.data) ∧
      get_full_body (chunks.map Delivery.data) n
        = Except.ok (chunks.flatten.take n, rest.map Delivery.data) ∧
      rest.flatten = chunks.flatten.drop n) ∧
    (∃ rest : List (List Char),
      read_exact [Delivery.data chunks.flatten] n
        = Received.complete (chunks.flatten.take n) (rest.map Delivery.data) ∧
      get_full_body [Delivery.data chunks.flatten] n
        = Except.ok (chunks.flatten.take n, rest.map Delivery.data) ∧
      rest.flatten = chunks.flatten.drop n) := by
  have key : ∀ cs : List (List Char), n ≤ cs.flatten.length →
      ∃ rest : List (List Char),
        read_exact (cs.map Delivery.data) n
          = Received.complete (cs.flatten.take n) (rest.map Delivery.data) ∧
        get_full_body (cs.map Delivery.data) n
          = Except.ok (cs.flatten.take n, rest.map Delivery.data) ∧
        rest.flatten = cs.flatten.drop n := by
    intro cs hcs
    obtain ⟨rest, h1, h2⟩ := read_loop_chunks cs (cs.length + 1) n [] (le_refl _)
      (Nat.zero_le _) (by simpa using hcs)
    simp only [List.length_nil, Nat.sub_zero, List.nil_append] at h1 h2
    have h1' : read_exact (cs.map Delivery.data) n
        = Received.complete (cs.flatten.take n) (rest.map Delivery.data) := by
      simpa [read_exact] using h1
    refine ⟨rest, h1', ?_, h2⟩
    have hn1 : ¬ ((n : Int) + 1 < 0) := by omega
    have hn2 : ¬ ((n : Int) + 1 = 0) := by omega
    simp only [get_full_body, hn1, hn2, if_false, h1']
  refine ⟨key chunks hlen, ?_⟩
  have := key [chunks.flatten] (by simpa using hlen)
  simpa using this

/-- A literal of 5 bytes delivered as 3 bytes and then 2 bytes. -/
theorem read_exact_reassembles_witness :
    (∃ rest : List (List Char),
      read_exact (["abc".toList, "de".toList].map Delivery.data) (5 : Nat)
        = Received.complete (["abc".toList, "de".toList].flatten.take 5)
            (rest.map Delivery.data) ∧
      get_full_body (["abc".toList, "de".toList].map Delivery.data) (5 : Nat)
        = Except.ok (["abc".toList, "de".toList].flatten.take 5, rest.map Delivery.data) ∧
      rest.flatten = ["abc".toList, "de".toList].flatten.drop 5) ∧
    (∃ rest : List (List Char),
      read_exact [Delivery.data ["abc".toList, "de".toList].flatten] (5 : Nat)
        = Received.complete (["abc".toList, "de".toList].flatten.take 5)
            (rest.map Delivery.data) ∧
      get_full_body [Delivery.data ["abc".toList, "de".toList].flatten] (5 : Nat)
        = Except.ok (["abc".toList, "de".toList].flatten.take 5, rest.map Delivery.data) ∧
      rest.flatten = ["abc".toList, "de".toList].flatten.drop 5) :=
  read_exact_reassembles ["abc".toList, "de".toList] 5 (by decide)

/-! ## The operations -/

/-- C11 fails on the code: on a response that announces no literal, `parse_to` and `read_mime`
return normally with nothing written, while `fetch_email`, `parse_from`, `parse_date` and
`parse_subject` end the process with a non-zero exit status. -/
theorem parse_to_and_read_mime_end_silently :
    parse_to [Delivery.data "A0002 NO fetch failed\r\n".toList]
      = (⟨[], Status.returned 0⟩, [Delivery.data "A0002 NO fetch failed\r\n".toList]) ∧
    read_mime [Delivery.data "A0002 NO fetch failed\r\n".toList]
      = (⟨[], Status.returned 0⟩, [Delivery.data "A0002 NO fetch failed\r\n".toList]) ∧
    (fetch_email [Delivery.data "A0002 NO fetch failed\r\n".toList]).1
      = ⟨"Message not found\n".toList, Status.exited 3⟩ ∧
    (parse_from [Delivery.data "A0002 NO fetch failed\r\n".toList]).1
      = ⟨[], Status.exited EXIT_FAILURE⟩ ∧
    (parse_date [Delivery.data "A0002 NO fetch failed\r\n".toList]).1
      = ⟨[], Status.exited EXIT_FAILURE⟩ ∧
    (parse_subject [Delivery.data "A0002 NO fetch failed\r\n".toList]).1
      = ⟨[], Status.exited EXIT_FAILURE⟩ := by
  decide!

/-- C16: when the framing step announces a length `N ≤ 2`, `parse_subject` writes
`Subject: <No subject>` and a newline, `parse_to` writes the line `To:`, both return, and the
only read made after the look at the response is the one `recv` of
`receive_remaining_response`: `print_parsed_fields` is not run, no byte goes to a value. -/
theorem blank_field_placeholder (conn1 conn2 : Connection) (N1 N2 : Int) (i1 i2 : Nat)
    (h1 : 0 ≤ (recv conn1 (BUFFER_SIZE - 1)).1)
    (f1 : parse_subject_frame (recv conn1 (BUFFER_SIZE - 1)).2.1 = Frame.found N1 i1)
    (hN1 : N1 ≤ 2)
    (h2 : 0 ≤ (recv conn2 (BUFFER_SIZE - 1)).1)
    (f2 : parse_to_frame (recv conn2 (BUFFER_SIZE - 1)).2.1 = Frame.found N2 i2)
    (hN2 : N2 ≤ 2) :
    parse_subject conn1
      = (⟨"Subject: <No subject>\n".toList, Status.returned 0⟩,
          (recv conn1 (BUFFER_SIZE - 1)).2.2) ∧
    parse_to conn2
      = (⟨"To:\n".toList, Status.returned 0⟩, (recv conn2 (BUFFER_SIZE - 1)).2.2) := by
  have g1 : ¬ ((recv conn1 (BUFFER_SIZE - 1)).1 < 0) := by omega
  have g2 : ¬ ((recv conn2 (BUFFER_SIZE - 1)).1 < 0) := by omega
  have k1 : ¬ (2 < N1) := by omega
  have k2 : ¬ (2 < N2) := by omega
  constructor
  · simp only [parse_subject, g1, if_false, f1, k1, receive_remaining_response, print_around,
      List.append_nil]
  · simp only [parse_to, g2, if_false, f2, k2, receive_remaining_response, print_around,
      List.append_nil]

/-- The responses for a message without Subject and without To header: a literal of 2 bytes. -/
theorem blank_field_placeholder_witness :
    parse_subject [Delivery.data
        "* 1 FETCH (BODY[HEADER.FIELDS (SUBJECT)] \x7b2\x7d\r\n\r\n)\r\nA0005 OK\r\n".toList]
      = (⟨"Subject: <No subject>\n".toList, Status.returned 0⟩,
          (recv [Delivery.data
            "* 1 FETCH (BODY[HEADER.FIELDS (SUBJECT)] \x7b2\x7d\r\n\r\n)\r\nA0005 OK\r\n".toList]
            (BUFFER_SIZE - 1)).2.2) ∧
    parse_to [Delivery.data
        "* 1 FETCH (BODY[HEADER.FIELDS (TO)] \x7b2\x7d\r\n\r\n)\r\nA0003 OK\r\n".toList]
      = (⟨"To:\n".toList, Status.returned 0⟩,
          (recv [Delivery.data
            "* 1 FETCH (BODY[HEADER.FIELDS (TO)] \x7b2\x7d\r\n\r\n)\r\nA0003 OK\r\n".toList]
            (BUFFER_SIZE - 1)).2.2) :=
  blank_field_placeholder _ _ 2 2 55 45 (by decide!) (by decide!) (by decide)
    (by decide!) (by decide!) (by decide)

/-! ## The field extractor -/

theorem recv_data_nonneg (chunks : List (List Char)) (len : Nat) :
    ¬ ((recv (chunks.map Delivery.data) len).1 < 0) := by
  cases chunks with
  | nil => simp [recv]
  | cons c cs =>
    simp only [List.map_cons, recv]
    split <;> simp

theorem recv_data_bytes (first : List Char) (rest : Connection) (len : Nat) :
    (recv (Delivery.data first :: rest) len).2.1 = first.take len ∧
    ¬ ((recv (Delivery.data first :: rest) len).1 < 0) := by
  simp only [recv]
  split
  · rename_i h
    exact ⟨(List.take_of_length_le h).symm, by simp⟩
  · exact ⟨rfl, by simp⟩

/-- After a `recv` of at most `idx` bytes from a first delivery of at least `idx` bytes, the
connection delivers the stream from offset `idx` on. -/
theorem recv_data_rest (first : List Char) (chunks : List (List Char)) (idx : Nat)
    (hidx : idx ≤ first.length) :
    ∃ cs : List (List Char),
      (recv (Delivery.data first :: chunks.map Delivery.data) idx).2.2
        = cs.map Delivery.data ∧
      cs.flatten = (first ++ chunks.flatten).drop idx := by
  by_cases h : first.length ≤ idx
  · refine ⟨chunks, by simp [recv, h], ?_⟩
    have e : idx = first.length := by omega
    rw [e, List.drop_left]
  · refine ⟨first.drop idx :: chunks, by simp [recv, h], ?_⟩
    rw [List.flatten_cons, List.drop_append_of_le_length hidx]

/-- On a connection whose first delivery holds at least the `idx` bytes to discard, and which
delivers at least `size` bytes after them, `print_parsed_fields` prints the unfolding of the
`size` bytes that follow the first `idx` and returns. -/
theorem print_parsed_fields_stream (first : List Char) (chunks : List (List Char))
    (idx size : Nat) (h0 : 0 < idx) (hidx : idx ≤ first.length)
    (hsize : size ≤ ((first ++ chunks.flatten).drop idx).length) :
    ∃ conn2, print_parsed_fields (Delivery.data first :: chunks.map Delivery.data) idx
        (size : Int)
      = (⟨remove_cr_newline (c_string (((first ++ chunks.flatten).drop idx).take size)),
          Status.returned 0⟩, conn2) := by
  obtain ⟨cs, hcs, hflat⟩ := recv_data_rest first chunks idx hidx
  obtain ⟨rest, hread, -⟩ := read_loop_chunks cs (cs.length + 1) size [] (le_refl _)
    (Nat.zero_le _) (by rw [hflat]; simpa using hsize)
  simp only [List.length_nil, Nat.sub_zero, List.nil_append] at hread
  have hn1 : ¬ ((size : Int) + 1 < 0) := by omega
  have hn2 : ¬ ((size : Int) + 1 = 0) := by omega
  have hr := (recv_data_bytes first (chunks.map Delivery.data) idx).2
  have hre : read_exact (cs.map Delivery.data) (size : Int)
      = Received.complete (cs.flatten.take size) (rest.map Delivery.data) := by
    simpa [read_exact] using hread
  refine ⟨(recv (rest.map Delivery.data) (BUFFER_SIZE - 1)).2.2, ?_⟩
  simp only [print_parsed_fields, hn1, hn2, if_false, print_received, h0, if_true, hr, hcs,
    hre, receive_remaining_response, recv_data_nonneg, List.append_nil, hflat]

/-- The peeked chunk of a connection whose first delivery starts with a line free of NUL and
CR, followed by CRLF, is framed like the line. -/
theorem literal_frame_peek (format : List Char) (label : Nat) (line tail : List Char)
    (rest : Connection) (v : Int) (h0 : NUL ∉ line) (h1 : '\r' ∉ line)
    (hlen : line.length + 2 ≤ 1023)
    (hscan : ∀ t, sscanf (line ++ t) format = Scanned.assigned [v]) :
    literal_frame format label
        (recv (Delivery.data (line ++ "\r\n".toList ++ tail) :: rest) (BUFFER_SIZE - 1)).2.1
      = Frame.found v (line.length + 2 + label) := by
  have eb : BUFFER_SIZE - 1 = 1023 := rfl
  rw [eb, (recv_data_bytes _ rest 1023).1]
  have hl : (line ++ "\r\n".toList).length ≤ 1023 := by
    simp only [List.length_append]
    have : "\r\n".toList.length = 2 := rfl
    omega
  rw [List.take_append_eq_append_take, List.take_of_length_le hl]
  exact literal_frame_of_line format label line _ v h0 h1 hscan

theorem print_around_returned (before after out : List Char) (conn : Connection) :
    print_around before (⟨out, Status.returned 0⟩, conn) after
      = (⟨before ++ out ++ after, Status.returned 0⟩, conn) := rfl

theorem drop_line_label (line tail more : List Char) (k : Nat) :
    ((line ++ "\r\n".toList ++ tail) ++ more).drop (line.length + 2 + k)
      = (tail ++ more).drop k := by
  have e : (line ++ "\r\n".toList ++ tail) ++ more
      = (line ++ "\r\n".toList) ++ (tail ++ more) := by simp
  have l : line.length + 2 = (line ++ "\r\n".toList).length := by
    simp only [List.length_append]
    rfl
  rw [e, l, ← List.drop_drop, List.drop_left]

/-- The text an unfolded buffer prints is no longer than the buffer, and as long when the
buffer holds no NUL and no CRLF. -/
theorem unfolded_length (V : List Char) :
    (remove_cr_newline (c_string V)).length ≤ V.length ∧
    (NUL ∉ V → ¬ HasCRLF V → (remove_cr_newline (c_string V)).length = V.length) := by
  constructor
  · have h1 := remove_cr_newline_length_le (c_string V)
    have h2 : (c_string V).length ≤ V.length := (List.takeWhile_sublist _).length_le
    omega
  · intro h0 hc
    have e : c_string V = V := by
      unfold c_string
      rw [List.takeWhile_eq_self_iff]
      intro c hcV
      have : c ≠ NUL := fun e => h0 (e ▸ hcV)
      simpa using this
    rw [e, (remove_cr_newline_fixed_iff V).mpr hc]

/-- C12 fails as stated: for the literal of 13 bytes `From: a@b` CRLF CRLF that a server sends
for the From field, `parse_from` prints the value `a@b`, of length 3 and not 13 - 6 - 2 = 5:
the bytes read end with the CRLF of the header line, which unfolding removes. -/
theorem parse_from_value_shorter :
    parse_from [Delivery.data
      ("* 1 FETCH (BODY[HEADER.FIELDS (FROM)] \x7b13\x7d\r\nFrom: a@b\r\n\r\n)\r\n"
        ++ "A0002 OK Fetch completed\r\n").toList]
      = (⟨"From: ".toList ++ "a@b".toList ++ "\n".toList, Status.returned 0⟩, []) ∧
    "From: a@b\r\n\r\n".toList.length = 13 ∧
    "a@b".toList.length ≠ 13 - 6 - 2 := by
  decide!

/-- C12, amended: on a response whose first delivery holds the line
`* <seq> FETCH (BODY[<section>] {<N>}`, CRLF and at least the bytes of the label, with
`N ≥ prefix_len + 2` and at least `N - prefix_len - 2` bytes delivered after the label, each
field operation reads exactly the `N - prefix_len - 2` bytes `V` that follow the label and
prints the label, the unfolding of `V` and a newline. The value printed is never longer than
`N - prefix_len - 2`, and it has exactly that length when `V` holds no NUL and no CRLF. -/
theorem field_value_is_unfolded_literal (f : HeaderField) (seq n tail : List Char)
    (chunks : List (List Char))
    (hs : AllDigits seq) (hn : AllDigits n) (hv : (decimal_value n : Int) ≤ INT_MAX)
    (hline : (fetch_line f.section_name seq n).length + 2 ≤ 1023)
    (hN : f.label.length + 2 ≤ decimal_value n)
    (htail : f.label.length ≤ tail.length)
    (hbytes : decimal_value n - f.label.length - 2
      ≤ ((tail ++ chunks.flatten).drop f.label.length).length) :
    ∃ conn2,
      f.fetch (Delivery.data (fetch_line f.section_name seq n ++ "\r\n".toList ++ tail)
          :: chunks.map Delivery.data)
        = (⟨f.label
              ++ remove_cr_newline (c_string
                  (((tail ++ chunks.flatten).drop f.label.length).take
                    (decimal_value n - f.label.length - 2)))
              ++ "\n".toList, Status.returned 0⟩, conn2) ∧
      (remove_cr_newline (c_string
          (((tail ++ chunks.flatten).drop f.label.length).take
            (decimal_value n - f.label.length - 2)))).length
        ≤ decimal_value n - f.label.length - 2 ∧
      (NUL ∉ ((tail ++ chunks.flatten).drop f.label.length).take
            (decimal_value n - f.label.length - 2) →
        ¬ HasCRLF (((tail ++ chunks.flatten).drop f.label.length).take
            (decimal_value n - f.label.length - 2)) →
        (remove_cr_newline (c_string
          (((tail ++ chunks.flatten).drop f.label.length).take
            (decimal_value n - f.label.length - 2)))).length
          = decimal_value n - f.label.length - 2) := by
  have hVlen : (((tail ++ chunks.flatten).drop f.label.length).take
      (decimal_value n - f.label.length - 2)).length
      = decimal_value n - f.label.length - 2 := by
    rw [List.length_take]
    omega
  have hu := unfolded_length (((tail ++ chunks.flatten).drop f.label.length).take
    (decimal_value n - f.label.length - 2))
  rw [hVlen] at hu
  have hidx : (fetch_line f.section_name seq n).length + 2 + f.label.length
      ≤ (fetch_line f.section_name seq n ++ "\r\n".toList ++ tail).length := by
    simp only [List.length_append]
    have : "\r\n".toList.length = 2 := rfl
    omega
  have hsize : decimal_value n - f.label.length - 2
      ≤ (((fetch_line f.section_name seq n ++ "\r\n".toList ++ tail)
          ++ chunks.flatten).drop
            ((fetch_line f.section_name seq n).length + 2 + f.label.length)).length := by
    rw [drop_line_label]
    exact hbytes
  obtain ⟨conn2, hp⟩ := print_parsed_fields_stream
    (fetch_line f.section_name seq n ++ "\r\n".toList ++ tail) chunks
    ((fetch_line f.section_name seq n).length + 2 + f.label.length)
    (decimal_value n - f.label.length - 2) (by omega) hidx hsize
  rw [drop_line_label] at hp
  have hpeek := (recv_data_bytes (fetch_line f.section_name seq n ++ "\r\n".toList ++ tail)
    (chunks.map Delivery.data) (BUFFER_SIZE - 1)).2
  have hmin : INT_MIN = -2147483648 := rfl
  refine ⟨conn2, ?_, hu.1, hu.2⟩
  cases f with
  | From =>
    have c := fetch_line_clean "HEADER.FIELDS (FROM)".toList seq n hs hn (by decide) (by decide)
    have hf := literal_frame_peek "* %*d FETCH (BODY[HEADER.FIELDS (FROM)] \x7b%d\x7d".toList 6
      (fetch_line "HEADER.FIELDS (FROM)".toList seq n) tail (chunks.map Delivery.data)
      (decimal_value n) c.1 c.2 hline (fun t => sscanf_fetch_line_from seq n t hs hn hv)
    simp only [HeaderField.fetch, HeaderField.section_name, HeaderField.label] at hp hpeek hN ⊢
    have hl : "From: ".toList.length = 6 := rfl
    simp only [hl] at hN hp ⊢
    have hcast : ((decimal_value n : Int) - 8) = ((decimal_value n - 6 - 2 : Nat) : Int) := by
      omega
    have hg : ¬ (((decimal_value n - 6 - 2 : Nat) : Int) < INT_MIN) := by
      rw [hmin]
      omega
    simp only [parse_from, hpeek, if_false, parse_from_frame, hf, hg, hcast, hp,
      print_around_returned]
  | To =>
    have c := fetch_line_clean "HEADER.FIELDS (TO)".toList seq n hs hn (by decide) (by decide)
    have hf := literal_frame_peek "* %*d FETCH (BODY[HEADER.FIELDS (TO)] \x7b%d\x7d".toList 4
      (fetch_line "HEADER.FIELDS (TO)".toList seq n) tail (chunks.map Delivery.data)
      (decimal_value n) c.1 c.2 hline (fun t => sscanf_fetch_line_to seq n t hs hn hv)
    simp only [HeaderField.fetch, HeaderField.section_name, HeaderField.label] at hp hpeek hN ⊢
    have hl : "To: ".toList.length = 4 := rfl
    simp only [hl] at hN hp ⊢
    have hcast : ((decimal_value n : Int) - 6) = ((decimal_value n - 4 - 2 : Nat) : Int) := by
      omega
    have hg : (2 : Int) < (decimal_value n : Int) := by omega
    simp only [parse_to, hpeek, if_false, parse_to_frame, hf, hg, if_true, hcast, hp,
      print_around_returned]
  | Date =>
    have c := fetch_line_clean "HEADER.FIELDS (DATE)".toList seq n hs hn (by decide) (by decide)
    have hf := literal_frame_peek "* %*d FETCH (BODY[HEADER.FIELDS (DATE)] \x7b%d\x7d".toList 6
      (fetch_line "HEADER.FIELDS (DATE)".toList seq n) tail (chunks.map Delivery.data)
      (decimal_value n) c.1 c.2 hline (fun t => sscanf_fetch_line_date seq n t hs hn hv)
    simp only [HeaderField.fetch, HeaderField.section_name, HeaderField.label] at hp hpeek hN ⊢
    have hl : "Date: ".toList.length = 6 := rfl
    simp only [hl] at hN hp ⊢
    have hcast : ((decimal_value n : Int) - 8) = ((decimal_value n - 6 - 2 : Nat) : Int) := by
      omega
    have hg : ¬ (((decimal_value n - 6 - 2 : Nat) : Int) < INT_MIN) := by
      rw [hmin]
      omega
    simp only [parse_date, hpeek, if_false, parse_date_frame, hf, hg, hcast, hp,
      print_around_returned]
  | Subject =>
    have c := fetch_line_clean "HEADER.FIELDS (SUBJECT)".toList seq n hs hn (by decide)
      (by decide)
    have hf := literal_frame_peek
      "* %*d FETCH (BODY[HEADER.FIELDS (SUBJECT)] \x7b%d\x7d\r\n".toList 9
      (fetch_line "HEADER.FIELDS (SUBJECT)".toList seq n) tail (chunks.map Delivery.data)
      (decimal_value n) c.1 c.2 hline (fun t => sscanf_fetch_line_subject seq n t hs hn hv)
    simp only [HeaderField.fetch, HeaderField.section_name, HeaderField.label] at hp hpeek hN ⊢
    have hl : "Subject: ".toList.length = 9 := rfl
    simp only [hl] at hN hp ⊢
    have hcast : ((decimal_value n : Int) - 11) = ((decimal_value n - 9 - 2 : Nat) : Int) := by
      omega
    have hg : (2 : Int) < (decimal_value n : Int) := by omega
    simp only [parse_subject, hpeek, if_false, parse_subject_frame, hf, hg, if_true, hcast, hp,
      print_around_returned]

/-- The response of a server for the From field of a message from `a@b`, delivered in two
parts. -/
theorem field_value_is_unfolded_literal_witness :
    ∃ conn2,
      HeaderField.From.fetch
          (Delivery.data (fetch_line HeaderField.From.section_name "1".toList "13".toList
              ++ "\r\n".toList ++ "From: a@".toList)
            :: ["b\r\n\r\n)\r\n".toList, "A0002 OK\r\n".toList].map Delivery.data)
        = (⟨HeaderField.From.label
              ++ remove_cr_newline (c_string
                  ((("From: a@".toList
                      ++ ["b\r\n\r\n)\r\n".toList, "A0002 OK\r\n".toList].flatten).drop
                    HeaderField.From.label.length).take
                    (decimal_value "13".toList - HeaderField.From.label.length - 2)))
              ++ "\n".toList, Status.returned 0⟩, conn2) ∧
      (remove_cr_newline (c_string
          ((("From: a@".toList
              ++ ["b\r\n\r\n)\r\n".toList, "A0002 OK\r\n".toList].flatten).drop
            HeaderField.From.label.length).take
            (decimal_value "13".toList - HeaderField.From.label.length - 2)))).length
        ≤ decimal_value "13".toList - HeaderField.From.label.length - 2 ∧
      (NUL ∉ (("From: a@".toList
              ++ ["b\r\n\r\n)\r\n".toList, "A0002 OK\r\n".toList].flatten).drop
            HeaderField.From.label.length).take
            (decimal_value "13".toList - HeaderField.From.label.length - 2) →
        ¬ HasCRLF ((("From: a@".toList
              ++ ["b\r\n\r\n)\r\n".toList, "A0002 OK\r\n".toList].flatten).drop
            HeaderField.From.label.length).take
            (decimal_value "13".toList - HeaderField.From.label.length - 2)) →
        (remove_cr_newline (c_string
          ((("From: a@".toList
              ++ ["b\r\n\r\n)\r\n".toList, "A0002 OK\r\n".toList].flatten).drop
            HeaderField.From.label.length).take
            (decimal_value "13".toList - HeaderField.From.label.length - 2)))).length
          = decimal_value "13".toList - HeaderField.From.label.length - 2) :=
  field_value_is_unfolded_literal HeaderField.From "1".toList "13".toList "From: a@".toList
    ["b\r\n\r\n)\r\n".toList, "A0002 OK\r\n".toList]
    ⟨by decide, by decide⟩ ⟨by decide, by decide⟩ (by decide) (by decide) (by decide)
    (by decide) (by decide)

/-! ## What `get_boundary` returns -/

theorem strchr_some (s : List Char) (c : Char) :
    ∀ e, strchr s c = some e → s = s.take e ++ c :: s.drop (e + 1) ∧ c ∉ s.take e := by
  induction s with
  | nil =>
    intro e h
    simp [strchr, scan_forward] at h
  | cons x s ih =>
    intro e h
    unfold strchr at h
    rw [scan_forward_cons] at h
    by_cases hx : x = c
    · subst hx
      simp only [List.head?_cons, decide_True, if_true, Option.some.injEq] at h
      subst h
      simp
    · have hx2 : ¬ (some x = some c) := by simpa using hx
      simp only [List.head?_cons, hx2, decide_False, Bool.false_eq_true, if_false,
        Option.map_eq_some'] at h
      obtain ⟨k, hk, rfl⟩ := h
      obtain ⟨h1, h2⟩ := ih k hk
      constructor
      · simp only [List.take_succ_cons, List.drop_succ_cons, List.cons_append]
        rw [← h1]
      · simp only [List.take_succ_cons, List.mem_cons, not_or]
        exact ⟨fun e => hx e.symm, h2⟩

theorem dropWhile_head (p : Char → Bool) (s : List Char) :
    s.dropWhile p = [] ∨ ∃ c, (s.dropWhile p).head? = some c ∧ p c = false := by
  induction s with
  | nil => exact Or.inl rfl
  | cons x s ih =>
    rw [List.dropWhile_cons]
    cases hx : p x with
    | true => simpa using ih
    | false => exact Or.inr ⟨x, by simp, hx⟩

/-- The token `get_boundary` returns is the text of the first `boundary=` parameter: what
stands between the double quotes, or what stands before the first space, CR, LF or the end. -/
theorem get_boundary_spec (content t : List Char) (h : get_boundary content = some t) :
    ∃ i, insensitive_strstr content "boundary=".toList = some i ∧
      ((∃ rest, content.drop (i + 9) = '"' :: (t ++ '"' :: rest) ∧ '"' ∉ t) ∨
       ((content.drop (i + 9)).head? ≠ some '"' ∧
        ∃ post, content.drop (i + 9) = t ++ post ∧
          (∀ c ∈ t, c ≠ ' ' ∧ c ≠ '\r' ∧ c ≠ '\n') ∧
          (post = [] ∨ post.head? = some ' ' ∨ post.head? = some '\r'
            ∨ post.head? = some '\n'))) := by
  rw [get_boundary] at h
  cases hi : insensitive_strstr content "boundary=".toList with
  | none =>
    rw [hi] at h
    exact absurd h (by simp)
  | some i =>
    have hlen : "boundary=".length = 9 := rfl
    rw [hi] at h
    simp only [hlen] at h
    refine ⟨i, rfl, ?_⟩
    by_cases hq : (content.drop (i + 9)).headD NUL = '"'
    · left
      simp only [hq, if_true] at h
      cases hs : content.drop (i + 9) with
      | nil =>
        rw [hs] at hq
        exact absurd hq (by decide)
      | cons x rest0 =>
        rw [hs] at hq h
        simp only [List.headD_cons] at hq
        subst hq
        simp only [List.drop_succ_cons, List.drop_zero] at h
        cases he : strchr rest0 '"' with
        | none => simp [he] at h
        | some e =>
          simp only [he, Option.some.injEq] at h
          obtain ⟨h1, h2⟩ := strchr_some rest0 '"' e he
          rw [h] at h1 h2
          exact ⟨rest0.drop (e + 1), by rw [← h1], h2⟩
    · right
      simp only [hq, if_false, Option.some.injEq] at h
      constructor
      · intro hh
        apply hq
        cases hs : content.drop (i + 9) with
        | nil => simp [hs] at hh
        | cons x r =>
          rw [hs] at hh
          simpa using hh
      · refine ⟨(content.drop (i + 9)).dropWhile (fun c => c ≠ ' ' ∧ c ≠ '\r' ∧ c ≠ '\n'), ?_,
          ?_, ?_⟩
        · rw [← h, List.takeWhile_append_dropWhile]
        · intro c hc
          rw [← h] at hc
          have := List.mem_takeWhile_imp hc
          simpa using this
        · rcases dropWhile_head (fun c => c ≠ ' ' ∧ c ≠ '\r' ∧ c ≠ '\n')
            (content.drop (i + 9)) with h0 | ⟨c, hc, hp⟩
          · exact Or.inl h0
          · right
            simp only [ne_eq, Bool.decide_and, Bool.and_eq_false_imp, decide_eq_true_eq,
              decide_eq_false_iff_not, Decidable.not_not, decide_not, Bool.not_eq_true',
              Bool.not_eq_false'] at hp
            by_cases c1 : c = ' '
            · exact Or.inl (c1 ▸ hc)
            · by_cases c2 : c = '\r'
              · exact Or.inr (Or.inl (c2 ▸ hc))
              · have c3 := hp c1 c2
                exact Or.inr (Or.inr (c3 ▸ hc))

/-- C15 fails as stated: `get_boundary` returns the empty token for the parameter
`boundary=""` and for `boundary=` followed by a space, and a token of 71 characters when the
parameter has that many. -/
theorem get_boundary_empty_or_long :
    get_boundary "Content-Type: multipart/alternative; boundary=\"\"\r\n".toList = some [] ∧
    get_boundary "Content-Type: multipart/alternative; boundary= x\r\n".toList = some [] ∧
    get_boundary ("boundary=".toList ++ List.replicate 71 'x' ++ "\r\n".toList)
      = some (List.replicate 71 'x') ∧
    (List.replicate 71 'x').length = 71 := by
  decide!

/-- C15, amended: whenever `get_boundary` returns a token, the token is the verbatim text of
the first `boundary=` parameter, quoted (up to the next double quote) or bare (up to the first
space, CR, LF or the end of the input); its length is not bounded and may be 0. -/
theorem get_boundary_verbatim (content t : List Char) (h : get_boundary content = some t) :
    ∃ i, insensitive_strstr content "boundary=".toList = some i ∧
      ((∃ rest, content.drop (i + 9) = '"' :: (t ++ '"' :: rest) ∧ '"' ∉ t) ∨
       ((content.drop (i + 9)).head? ≠ some '"' ∧
        ∃ post, content.drop (i + 9) = t ++ post ∧
          (∀ c ∈ t, c ≠ ' ' ∧ c ≠ '\r' ∧ c ≠ '\n') ∧
          (post = [] ∨ post.head? = some ' ' ∨ post.head? = some '\r'
            ∨ post.head? = some '\n'))) :=
  get_boundary_spec content t h

/-- The parameters `boundary="abc123"` and `boundary=abc123`. -/
theorem get_boundary_verbatim_witness :
    (∃ i, insensitive_strstr "a; boundary=\"abc123\"\r\n".toList "boundary=".toList = some i ∧
      ((∃ rest, "a; boundary=\"abc123\"\r\n".toList.drop (i + 9)
            = '"' :: ("abc123".toList ++ '"' :: rest) ∧ '"' ∉ "abc123".toList) ∨
       (("a; boundary=\"abc123\"\r\n".toList.drop (i + 9)).head? ≠ some '"' ∧
        ∃ post, "a; boundary=\"abc123\"\r\n".toList.drop (i + 9) = "abc123".toList ++ post ∧
          (∀ c ∈ "abc123".toList, c ≠ ' ' ∧ c ≠ '\r' ∧ c ≠ '\n') ∧
          (post = [] ∨ post.head? = some ' ' ∨ post.head? = some '\r'
            ∨ post.head? = some '\n')))) :=
  get_boundary_verbatim "a; boundary=\"abc123\"\r\n".toList "abc123".toList (by decide)

/-! ## The return value of `parse_list_response` -/

theorem strstr_some_lt (s t : List Char) (i : Nat) (hne : t ≠ []) (h : strstr s t = some i) :
    i < s.length := by
  rw [strstr_eq_scan s t hne] at h
  exact (scan_forward_some_spec _ _ _ h).1

/-- Every iteration moves `line_start` forward: with more fuel than `line_start` has characters
the loop ends by itself. -/
theorem parse_list_loop_fuel (fuel : Nat) :
    ∀ (line out : List Char) (flag : Int), line.length < fuel →
      (parse_list_loop fuel line out flag).status ≠ Status.out_of_fuel := by
  induction fuel with
  | zero =>
    intro line out flag h
    exact absurd h (Nat.not_lt_zero _)
  | succ fuel ih =>
    intro line out flag h
    rw [parse_list_loop]
    split
    · simp
    · rename_i i hi
      have hlt := strstr_some_lt line "* ".toList i (by decide) hi
      dsimp only
      split
      · simp
      · split
        · split
          · split
            · apply ih
              simp only [List.length_drop]
              omega
            · simp
          · apply ih
            simp only [List.length_drop]
            omega
        · simp

theorem list_line_ne_nil (entry : Int × List Char) : list_line entry ≠ [] := by
  simp [list_line]

theorem flatten_list_lines_eq_nil (lines : List (Int × List Char)) :
    (lines.map list_line).flatten = [] ↔ lines = [] := by
  cases lines with
  | nil => simp
  | cons e lines =>
    simp [list_line_ne_nil]

/-- The loop keeps `is_not_empty` non-zero exactly when a line has been written, and writes
whole lines only. -/
theorem parse_list_loop_lines (fuel : Nat) :
    ∀ (line out : List Char) (flag : Int) (lines : List (Int × List Char)),
      out = (lines.map list_line).flatten → (flag ≠ 0 ↔ lines ≠ []) →
      ∃ lines2, (parse_list_loop fuel line out flag).stdout = (lines2.map list_line).flatten ∧
        ∀ v, (parse_list_loop fuel line out flag).status = Status.returned v →
          (v ≠ 0 ↔ lines2 ≠ []) := by
  induction fuel with
  | zero =>
    intro line out flag lines hout hflag
    exact ⟨lines, hout, fun v hv => by simp [parse_list_loop] at hv⟩
  | succ fuel ih =>
    intro line out flag lines hout hflag
    rw [parse_list_loop]
    split
    · refine ⟨lines, hout, fun v hv => ?_⟩
      simp only [Status.returned.injEq] at hv
      rw [← hv]
      exact hflag
    · dsimp only
      split
      · exact ⟨lines, hout, fun v hv => by simp at hv⟩
      · split
        · split
          · split
            · rename_i _ i hi _ values hv hlen _ j hj _ k hk
              apply ih _ _ _ (lines ++ [((values.headD 0),
                remove_cr_newline ((((line.drop i).drop (j + 10)).take k).dropWhile
                  (fun c => c = ' ' || c = '\t')))])
              · simp only [List.map_append, List.flatten_append, ← hout, List.map_cons,
                  List.map_nil, List.flatten_cons, List.flatten_nil, List.append_nil, list_line,
                  List.append_assoc]
              · simp
            · exact ⟨lines, hout, fun v hv => by simp at hv⟩
          · rename_i _ i hi _ values hv hlen _ hj
            apply ih _ _ _ (lines ++ [((values.headD 0), "<No subject>".toList)])
            · simp only [List.map_append, List.flatten_append, ← hout, List.map_cons,
                List.map_nil, List.flatten_cons, List.flatten_nil, List.append_nil, list_line,
                List.append_assoc]
              rfl
            · simp
        · exact ⟨lines, hout, fun v hv => by simp at hv⟩

theorem parse_list_loop_no_marker (fuel : Nat) (line out : List Char) (flag : Int)
    (h : ¬ Contains line "* ".toList) :
    parse_list_loop (fuel + 1) line out flag = ⟨out, Status.returned flag⟩ := by
  have hn : strstr line "* ".toList = none := (strstr_eq_none_iff _ _ (by decide)).mpr h
  rw [parse_list_loop, hn]

/-- C18: `parse_list_response` always comes to an end; what it has written is a sequence of
lines `<seq>: <text>`, and when it returns, the value is non-zero exactly when that sequence
has a line. On a response without `* ` it writes nothing and returns 0, and `list_email` then
ends the process with exit status 0, having written nothing. -/
theorem parse_list_response_flag (response : List Char) :
    (parse_list_response response).status ≠ Status.out_of_fuel ∧
    (∃ lines : List (Int × List Char),
      (parse_list_response response).stdout = (lines.map list_line).flatten ∧
      ∀ v, (parse_list_response response).status = Status.returned v →
        ((v ≠ 0 ↔ lines ≠ []) ∧ (v ≠ 0 ↔ (parse_list_response response).stdout ≠ []))) ∧
    (¬ Contains response "* ".toList →
      parse_list_response response = ⟨[], Status.returned 0⟩) ∧
    (∀ conn : Connection, 0 ≤ (recv conn (BUFFER_SIZE - 1)).1 →
      c_string (recv conn (BUFFER_SIZE - 1)).2.1 = response →
      ¬ Contains response "* ".toList →
      list_email conn = (⟨[], Status.exited 0⟩, (recv conn (BUFFER_SIZE - 1)).2.2)) := by
  have hnone : ¬ Contains response "* ".toList →
      parse_list_response response = ⟨[], Status.returned 0⟩ := fun h =>
    parse_list_loop_no_marker _ _ _ _ h
  refine ⟨parse_list_loop_fuel _ _ _ _ (Nat.lt_succ_self _), ?_, hnone, ?_⟩
  · obtain ⟨lines, h1, h2⟩ := parse_list_loop_lines (response.length + 1) response [] 0 []
      rfl (by simp)
    refine ⟨lines, h1, fun v hv => ⟨h2 v hv, ?_⟩⟩
    rw [h2 v hv]
    unfold parse_list_response
    rw [h1, ne_eq, ne_eq, flatten_list_lines_eq_nil]
  · intro conn hr hc hno
    have hneg : ¬ (recv conn (BUFFER_SIZE - 1)).1 < 0 := not_lt.mpr hr
    simp only [list_email, hneg, if_false, hc, hnone hno, if_true]

/-- A tagged completion line alone: no message entry, nothing is written, exit status 0. -/
theorem parse_list_response_flag_witness :
    ¬ Contains "A0003 OK FETCH completed\r\n".toList "* ".toList ∧
    parse_list_response "A0003 OK FETCH completed\r\n".toList = ⟨[], Status.returned 0⟩ ∧
    list_email [Delivery.data "A0003 OK FETCH completed\r\n".toList]
      = (⟨[], Status.exited 0⟩, []) :=
  ⟨(strstr_eq_none_iff _ _ (by decide)).mp (by decide),
   (parse_list_response_flag "A0003 OK FETCH completed\r\n".toList).2.2.1
     ((strstr_eq_none_iff _ _ (by decide)).mp (by decide)),
   (parse_list_response_flag "A0003 OK FETCH completed\r\n".toList).2.2.2
     [Delivery.data "A0003 OK FETCH completed\r\n".toList] (by decide) (by decide)
     ((strstr_eq_none_iff _ _ (by decide)).mp (by decide))⟩

/-! ## The order in which `print_mime` resolves the two part headers -/

theorem scan_forward_eq_some_iff (hit : List Char → Bool) (s : List Char) (i : Nat) :
    scan_forward hit s = some i
      ↔ i < s.length ∧ hit (s.drop i) = true ∧ ∀ j, j < i → hit (s.drop j) = false := by
  constructor
  · exact scan_forward_some_spec hit s i
  · rintro ⟨h1, h2, h3⟩
    cases h : scan_forward hit s with
    | none =>
      have := (scan_forward_eq_none_iff hit s).mp h i h1
      rw [h2] at this
      exact absurd this (by simp)
    | some k =>
      obtain ⟨k1, k2, k3⟩ := scan_forward_some_spec hit s k h
      rcases Nat.lt_trichotomy i k with hlt | heq | hgt
      · have := k3 i hlt
        rw [h2] at this
        exact absurd this (by simp)
      · rw [heq]
      · have := h3 k hgt
        rw [k2] at this
        exact absurd this (by simp)

/-- A search that finds its first match at `p` finds it again, at `p - k`, when started `k ≤ p`
characters further on. -/
theorem scan_forward_drop (hit : List Char → Bool) (s : List Char) (p k : Nat)
    (h : scan_forward hit s = some p) (hk : k ≤ p) :
    scan_forward hit (s.drop k) = some (p - k) := by
  obtain ⟨h1, h2, h3⟩ := scan_forward_some_spec hit s p h
  rw [scan_forward_eq_some_iff]
  have e : k + (p - k) = p := by omega
  refine ⟨by simp only [List.length_drop]; omega, ?_, ?_⟩
  · rw [List.drop_drop, e]
    exact h2
  · intro j hj
    rw [List.drop_drop]
    exact h3 (k + j) (by omega)

theorem scan_forward_drop_none (hit : List Char → Bool) (s : List Char) (k : Nat)
    (h : scan_forward hit s = none) : scan_forward hit (s.drop k) = none := by
  rw [scan_forward_eq_none_iff] at h ⊢
  intro j hj
  rw [List.drop_drop]
  simp only [List.length_drop] at hj
  exact h (k + j) (by omega)

theorem ci_trans_left (x y c : Char) (hx : ci x c = true) (hy : ci y c = true) :
    ci x y = true := by
  simp only [ci, decide_eq_true_eq] at hx hy ⊢
  rw [hx, hy]

/-- Two patterns that match at the same position agree, up to letter case, on the characters
they share. -/
theorem prefix_by_ci_agree (a : List Char) :
    ∀ (b u : List Char), prefix_by ci a u = true → prefix_by ci b u = true →
      (a.zip b).all (fun e => ci e.1 e.2) = true := by
  induction a with
  | nil => intro b u _ _; rfl
  | cons x a ih =>
    intro b u ha hb
    cases b with
    | nil => rfl
    | cons y b =>
      cases u with
      | nil => simp [prefix_by] at ha
      | cons c u =>
        simp only [prefix_by, Bool.and_eq_true] at ha hb
        simp only [List.zip_cons_cons, List.all_cons, Bool.and_eq_true]
        exact ⟨ci_trans_left x y c ha.1 hb.1, ih b u ha.2 hb.2⟩

/-- A pattern `b` that matches `d` characters after a match of `a` agrees with the rest of
`a`, up to letter case, on the characters they share. -/
theorem prefix_by_ci_overlap (d : Nat) :
    ∀ (a b u : List Char), prefix_by ci a u = true → prefix_by ci b (u.drop d) = true →
      ((a.drop d).zip b).all (fun e => ci e.1 e.2) = true := by
  induction d with
  | zero =>
    intro a b u ha hb
    exact prefix_by_ci_agree a b u ha hb
  | succ d ih =>
    intro a b u ha hb
    cases a with
    | nil => rfl
    | cons x a =>
      cases u with
      | nil => simp [prefix_by] at ha
      | cons c u =>
        simp only [prefix_by, Bool.and_eq_true] at ha
        simp only [List.drop_succ_cons] at hb ⊢
        exact ih a b u ha.2 hb

/-- Patterns that cannot overlap: a match of `b` that starts at or after the start of a match
of `a` starts at or after its end. -/
theorem matches_apart (a b s : List Char) (p d : Nat)
    (hab : ∀ d, d < a.length → ((a.drop d).zip b).all (fun e => ci e.1 e.2) = false)
    (ha : prefix_by ci a (s.drop p) = true) (hb : prefix_by ci b (s.drop (p + d)) = true) :
    a.length ≤ d := by
  by_contra hlt
  have h := prefix_by_ci_overlap d a b (s.drop p) ha (by rw [List.drop_drop]; exact hb)
  rw [hab d (by omega)] at h
  exact absurd h (by simp)

/-- The three transfer-encoding markers `check_encoding_parameter` looks for, in its order. -/
theorem encoding_marker_apart (K : List Char)
    (hK : K = "Content-Transfer-Encoding: quoted-printable".toList
      ∨ K = "Content-Transfer-Encoding: 7bit".toList
      ∨ K = "Content-Transfer-Encoding: 8bit".toList) :
    13 < K.length ∧ K ≠ [] ∧ NUL ∉ K ∧
    (∀ d, d < K.length →
      ((K.drop d).zip "charset=UTF-8".toList).all (fun e => ci e.1 e.2) = false) ∧
    (∀ d, d < "charset=UTF-8".toList.length →
      (("charset=UTF-8".toList.drop d).zip K).all (fun e => ci e.1 e.2) = false) := by
  rcases hK with h | h | h <;> subst h <;> decide!

theorem check_encoding_parameter_spec (content : List Char) (enc : Nat)
    (h : check_encoding_parameter content = Except.ok enc) :
    ∃ K p, (K = "Content-Transfer-Encoding: quoted-printable".toList
        ∨ K = "Content-Transfer-Encoding: 7bit".toList
        ∨ K = "Content-Transfer-Encoding: 8bit".toList) ∧
      scan_forward (prefix_by ci K) content = some p ∧ enc = p + K.length ∧
      ∀ k, k ≤ p → check_encoding_parameter (content.drop k) = Except.ok (p - k + K.length) := by
  have e1 := fun s => insensitive_strstr_eq_scan s
    "Content-Transfer-Encoding: quoted-printable".toList (by decide) (by decide)
  have e2 := fun s => insensitive_strstr_eq_scan s
    "Content-Transfer-Encoding: 7bit".toList (by decide) (by decide)
  have e3 := fun s => insensitive_strstr_eq_scan s
    "Content-Transfer-Encoding: 8bit".toList (by decide) (by decide)
  have l1 : "Content-Transfer-Encoding: quoted-printable".length
      = "Content-Transfer-Encoding: quoted-printable".toList.length := rfl
  have l2 : "Content-Transfer-Encoding: 7bit".length
      = "Content-Transfer-Encoding: 7bit".toList.length := rfl
  have l3 : "Content-Transfer-Encoding: 8bit".length
      = "Content-Transfer-Encoding: 8bit".toList.length := rfl
  rw [check_encoding_parameter, e1, e2, e3, l1, l2, l3] at h
  cases h1 : scan_forward (prefix_by ci "Content-Transfer-Encoding: quoted-printable".toList)
      content with
  | some p =>
    rw [h1] at h
    simp only [Except.ok.injEq] at h
    refine ⟨_, p, Or.inl rfl, h1, h.symm, fun k hk => ?_⟩
    rw [check_encoding_parameter, e1, scan_forward_drop _ _ p k h1 hk, l1]
  | none =>
    rw [h1] at h
    cases h2 : scan_forward (prefix_by ci "Content-Transfer-Encoding: 7bit".toList) content with
    | some p =>
      rw [h2] at h
      simp only [Except.ok.injEq] at h
      refine ⟨_, p, Or.inr (Or.inl rfl), h2, h.symm, fun k hk => ?_⟩
      rw [check_encoding_parameter, e1, e2, scan_forward_drop_none _ _ k h1,
        scan_forward_drop _ _ p k h2 hk, l2]
    | none =>
      rw [h2] at h
      cases h3 : scan_forward (prefix_by ci "Content-Transfer-Encoding: 8bit".toList)
          content with
      | some p =>
        rw [h3] at h
        simp only [Except.ok.injEq] at h
        refine ⟨_, p, Or.inr (Or.inr rfl), h3, h.symm, fun k hk => ?_⟩
        rw [check_encoding_parameter, e1, e2, e3, scan_forward_drop_none _ _ k h1,
          scan_forward_drop_none _ _ k h2, scan_forward_drop _ _ p k h3 hk, l3]
      | none =>
        rw [h3] at h
        exact absurd h (by simp)

theorem check_content_type_charset_spec (content : List Char) (ct : Nat)
    (h : check_content_type_charset content = Except.ok ct) :
    ∃ q, scan_forward (prefix_by ci "charset=UTF-8".toList) content = some q ∧ ct = q + 13 := by
  have e := insensitive_strstr_eq_scan content "charset=UTF-8".toList (by decide) (by decide)
  have l : "charset=UTF-8".length = 13 := rfl
  rw [check_content_type_charset, e, l] at h
  split at h
  · split at h
    · rename_i q hq
      simp only [Except.ok.injEq] at h
      exact ⟨q, hq, h.symm⟩
    · exact absurd h (by simp)
  · exact absurd h (by simp)

/-- The final parse position is the greater of the two positions found from the part start. -/
theorem resolve_headers_max (content : List Char) (pos : Nat)
    (h : resolve_headers content = Except.ok pos) :
    ∃ ct enc, check_content_type_charset content = Except.ok ct ∧
      check_encoding_parameter content = Except.ok enc ∧ pos = max ct enc := by
  rw [resolve_headers] at h
  cases hct : check_content_type_charset content with
  | error e =>
    rw [hct] at h
    exact absurd h (by simp)
  | ok ct =>
    cases henc : check_encoding_parameter content with
    | error e =>
      rw [hct, henc] at h
      exact absurd h (by simp)
    | ok enc =>
      rw [hct, henc] at h
      refine ⟨ct, enc, rfl, rfl, ?_⟩
      obtain ⟨q, hq, hctq⟩ := check_content_type_charset_spec content ct hct
      obtain ⟨K, p, hK, hp, hencp, hdrop⟩ := check_encoding_parameter_spec content enc henc
      obtain ⟨hK13, _, _, hKc, hcK⟩ := encoding_marker_apart K hK
      obtain ⟨_, hqhit, _⟩ := scan_forward_some_spec _ _ _ hq
      obtain ⟨_, hphit, _⟩ := scan_forward_some_spec _ _ _ hp
      have hcl : "charset=UTF-8".toList.length = 13 := rfl
      by_cases hlt : ct < enc
      · simp only [hlt, if_true] at h
        have hle : ct ≤ p := by
          by_contra hgt
          by_cases hqp : q ≤ p
          · have e : q + (p - q) = p := by omega
            have := matches_apart "charset=UTF-8".toList K content q (p - q) hcK hqhit
              (by rw [e]; exact hphit)
            omega
          · have e : p + (q - p) = q := by omega
            have := matches_apart K "charset=UTF-8".toList content p (q - p) hKc hphit
              (by rw [e]; exact hqhit)
            omega
        rw [hdrop ct hle] at h
        simp only [Except.ok.injEq] at h
        omega
      · simp only [hlt, if_false] at h
        have hle : enc ≤ q := by
          by_contra hgt
          have hqp : p ≤ q := by omega
          have e : p + (q - p) = q := by omega
          have := matches_apart K "charset=UTF-8".toList content p (q - p) hKc hphit
            (by rw [e]; exact hqhit)
          omega
        cases hk : check_content_type_charset (content.drop enc) with
        | error e =>
          rw [hk] at h
          exact absurd h (by simp)
        | ok k =>
          rw [hk] at h
          simp only [Except.ok.injEq] at h
          obtain ⟨q2, hq2, hk2⟩ := check_content_type_charset_spec _ k hk
          rw [scan_forward_drop _ _ q enc hq hle] at hq2
          simp only [Option.some.injEq] at hq2
          omega

/-- C19: whenever the header resolution of `print_mime` succeeds, both independent lookups from
the part start succeed as well, and the final parse position is the greater of the two
positions they give: the end of the first `charset=UTF-8` and the end of the selected
`Content-Transfer-Encoding` marker. -/
theorem resolve_headers_later_position (content : List Char) (pos : Nat)
    (h : resolve_headers content = Except.ok pos) :
    ∃ ct enc, check_content_type_charset content = Except.ok ct ∧
      check_encoding_parameter content = Except.ok enc ∧ pos = max ct enc :=
  resolve_headers_max content pos h

/-- The two orders of the part headers: content type first, transfer encoding first. -/
theorem resolve_headers_later_position_witness :
    (∃ ct enc, check_content_type_charset part_headers = Except.ok ct ∧
      check_encoding_parameter part_headers = Except.ok enc ∧ 72 = max ct enc) ∧
    (∃ ct enc,
      check_content_type_charset ("Content-Transfer-Encoding: 8bit\r\n"
        ++ "Content-Type: text/plain; charset=utf-8\r\n\r\nHi").toList = Except.ok ct ∧
      check_encoding_parameter ("Content-Transfer-Encoding: 8bit\r\n"
        ++ "Content-Type: text/plain; charset=utf-8\r\n\r\nHi").toList = Except.ok enc ∧
      72 = max ct enc) :=
  ⟨resolve_headers_later_position part_headers 72 (by rfl),
   resolve_headers_later_position _ 72 (by rfl)⟩

/-! ## The extent of the text `print_mime` writes -/

theorem matchesAtCI_iff (s t : List Char) (j : Nat) :
    MatchesAtCI s t j ↔ prefix_by ci t (s.drop j) = true :=
  (prefix_ci_iff t (s.drop j)).symm

/-- The function `print_mime` hands the text after the part headers to `check_end_boundary`. -/
theorem print_mime_content_eq (body : List Char) :
    print_mime_content body
      = match print_mime_body_start body with
        | Except.error e => Except.error e
        | Except.ok r => check_end_boundary r.2 r.1 := by
  rw [print_mime_content, print_mime_body_start]
  cases insensitive_strstr body "MIME-Version: 1.0".toList with
  | none => rfl
  | some v =>
    dsimp only
    cases insensitive_strstr body "Content-Type: multipart/alternative;".toList with
    | none => rfl
    | some i =>
      dsimp only
      cases get_boundary (body.drop i) with
      | none => rfl
      | some boundary =>
        dsimp only
        cases check_starting_boundary (body.drop i) boundary with
        | error e => rfl
        | ok s =>
          dsimp only
          cases resolve_headers ((body.drop i).drop s) with
          | error e => rfl
          | ok pos =>
            dsimp only
            split <;> rfl

theorem get_boundary_mem (content t : List Char) (h : get_boundary content = some t) :
    ∀ c ∈ t, c ∈ content := by
  intro c hc
  obtain ⟨i, _, hq | ⟨_, post, hb, _⟩⟩ := get_boundary_spec content t h
  · obtain ⟨rest, hq, _⟩ := hq
    apply List.mem_of_mem_drop (n := i + 9)
    rw [hq]
    simp [hc]
  · apply List.mem_of_mem_drop (n := i + 9)
    rw [hb]
    simp [hc]

theorem print_mime_body_start_boundary (body boundary start : List Char)
    (h : print_mime_body_start body = Except.ok (boundary, start)) :
    ∃ i, get_boundary (body.drop i) = some boundary := by
  rw [print_mime_body_start] at h
  split at h
  · exact absurd h (by simp)
  · split at h
    · exact absurd h (by simp)
    · rename_i i _
      dsimp only at h
      split at h
      · exact absurd h (by simp)
      · rename_i b hb
        split at h
        · exact absurd h (by simp)
        · split at h
          · exact absurd h (by simp)
          · split at h
            · exact absurd h (by simp)
            · simp only [Except.ok.injEq, Prod.mk.injEq] at h
              exact ⟨i, by rw [hb, h.1]⟩

theorem check_content_type_charset_error (content : List Char) (e : Status)
    (h : check_content_type_charset content = Except.error e) : e = Status.exited 4 := by
  rw [check_content_type_charset] at h
  split at h
  · split at h
    · exact absurd h (by simp)
    · simp only [Except.error.injEq] at h
      exact h.symm
  · simp only [Except.error.injEq] at h
    exact h.symm

theorem check_encoding_parameter_error (content : List Char) (e : Status)
    (h : check_encoding_parameter content = Except.error e) : e = Status.exited 4 := by
  rw [check_encoding_parameter] at h
  split at h
  · exact absurd h (by simp)
  · split at h
    · exact absurd h (by simp)
    · split at h
      · exact absurd h (by simp)
      · simp only [Except.error.injEq] at h
        exact h.symm

theorem resolve_headers_error (content : List Char) (e : Status)
    (h : resolve_headers content = Except.error e) : e = Status.exited 4 := by
  rw [resolve_headers] at h
  split at h
  · rename_i e1 h1
    simp only [Except.error.injEq] at h
    rw [← h]
    exact check_content_type_charset_error _ _ h1
  · split at h
    · rename_i e1 h1
      simp only [Except.error.injEq] at h
      rw [← h]
      exact check_encoding_parameter_error _ _ h1
    · split at h
      · split at h
        · rename_i e1 h1
          simp only [Except.error.injEq] at h
          rw [← h]
          exact check_encoding_parameter_error _ _ h1
        · exact absurd h (by simp)
      · split at h
        · rename_i e1 h1
          simp only [Except.error.injEq] at h
          rw [← h]
          exact check_content_type_charset_error _ _ h1
        · exact absurd h (by simp)

/-- The ways `print_mime` ends without writing: exit code 4, or the step past the end of the
string. -/
theorem print_mime_content_error (body : List Char) (e : Status)
    (h : print_mime_content body = Except.error e) :
    e = Status.exited 4 ∨ e = Status.undefined := by
  rw [print_mime_content] at h
  split at h
  · simp only [Except.error.injEq] at h
    exact Or.inl h.symm
  · split at h
    · simp only [Except.error.injEq] at h
      exact Or.inl h.symm
    · dsimp only at h
      split at h
      · simp only [Except.error.injEq] at h
        exact Or.inl h.symm
      · split at h
        · rename_i e1 h1
          simp only [Except.error.injEq] at h
          rw [check_starting_boundary] at h1
          split at h1
          · exact absurd h1 (by simp)
          · simp only [Except.error.injEq] at h1
            rw [← h, ← h1]
            exact Or.inl rfl
        · split at h
          · rename_i e1 h1
            simp only [Except.error.injEq] at h
            rw [← h]
            exact Or.inl (resolve_headers_error _ _ h1)
          · split at h
            · simp only [Except.error.injEq] at h
              exact Or.inr h.symm
            · rw [check_end_boundary] at h
              split at h
              · exact absurd h (by simp)
              · simp only [Except.error.injEq] at h
                exact Or.inl h.symm

theorem print_mime_returned (body text : List Char) (v : Int)
    (h : print_mime body = ⟨text, Status.returned v⟩) :
    v = 0 ∧ print_mime_content body = Except.ok text := by
  rw [print_mime] at h
  split at h
  · rename_i c hc
    simp only [Run.mk.injEq, Status.returned.injEq] at h
    exact ⟨h.2.symm, by rw [hc, h.1]⟩
  · rename_i e he
    simp only [Run.mk.injEq] at h
    rcases print_mime_content_error body e he with h1 | h1
    · rw [h1] at h
      exact absurd h.2 (by simp)
    · rw [h1] at h
      exact absurd h.2 (by simp)

theorem end_delimiter_shape (boundary : List Char) (h0 : NUL ∉ boundary) :
    snprintf BUFFER_SIZE ("\r\n--".toList ++ boundary) ≠ [] ∧
    NUL ∉ snprintf BUFFER_SIZE ("\r\n--".toList ++ boundary) := by
  constructor
  · simp [snprintf, BUFFER_SIZE]
  · intro hm
    have hm2 := List.mem_of_mem_take hm
    simp only [List.mem_append] at hm2
    rcases hm2 with h | h
    · exact absurd h (by decide)
    · exact h0 h

/-- The text `check_end_boundary` returns: the characters before the first position at which
the formatted end delimiter matches up to letter case. -/
theorem check_end_boundary_spec (start boundary text : List Char) (h0 : NUL ∉ boundary)
    (h : check_end_boundary start boundary = Except.ok text) :
    text = start.take text.length ∧ text.length < start.length ∧
    prefix_by ci (snprintf BUFFER_SIZE ("\r\n--".toList ++ boundary))
      (start.drop text.length) = true ∧
    ∀ j, j < text.length →
      prefix_by ci (snprintf BUFFER_SIZE ("\r\n--".toList ++ boundary)) (start.drop j)
        = false := by
  obtain ⟨hne, hnul⟩ := end_delimiter_shape boundary h0
  rw [check_end_boundary] at h
  rw [insensitive_strstr_eq_scan _ _ hne hnul] at h
  split at h
  · rename_i k hk
    simp only [Except.ok.injEq] at h
    obtain ⟨k1, k2, k3⟩ := scan_forward_some_spec _ _ _ hk
    have hl : text.length = k := by
      rw [← h, List.length_take]
      omega
    rw [hl]
    exact ⟨h.symm, k1, k2, k3⟩
  · exact absurd h (by simp)

/-- C20 fails as stated: with the boundary token of 1020 characters `long_boundary`, the text
after the part headers of the example message has its first occurrence of CRLF, two dashes and
the token at offset 1024, and `print_mime` succeeds with an output that ends at offset 0. -/
theorem print_mime_ends_at_cut_delimiter :
    print_mime_body_start (sample_message long_boundary long_boundary_text)
      = Except.ok (long_boundary, long_boundary_text ++ closing_delimiter long_boundary) ∧
    MatchesAtCI (long_boundary_text ++ closing_delimiter long_boundary)
      ("\r\n--".toList ++ long_boundary) 1024 ∧
    (∀ j, j < 1024 → ¬ MatchesAtCI (long_boundary_text ++ closing_delimiter long_boundary)
      ("\r\n--".toList ++ long_boundary) j) ∧
    print_mime (sample_message long_boundary long_boundary_text) = ⟨[], Status.returned 0⟩ := by
  have hs : scan_forward (prefix_by ci ("\r\n--".toList ++ long_boundary))
      (long_boundary_text ++ closing_delimiter long_boundary) = some 1024 := by decide!
  obtain ⟨_, s2, s3⟩ := scan_forward_some_spec _ _ _ hs
  refine ⟨by decide!, (matchesAtCI_iff _ _ _).mpr s2, fun j hj hm => ?_, by decide!⟩
  have := s3 j hj
  rw [(matchesAtCI_iff _ _ _).mp hm] at this
  exact absurd this (by simp)

/-- C20, amended: whenever `print_mime` succeeds on a body without NUL, its output is the text
that starts 4 characters after the final header parse position and ends just before the first
position at which the first `BUFFER_SIZE - 1` characters of CRLF, two dashes and the boundary
token match up to letter case; that is the whole delimiter when the token has at most 1019
characters. The output never contains the whole delimiter, in any letter case. -/
theorem print_mime_output_extent (body text : List Char) (h0 : NUL ∉ body)
    (h : print_mime body = ⟨text, Status.returned 0⟩) :
    ∃ boundary start, print_mime_body_start body = Except.ok (boundary, start) ∧
      text = start.take text.length ∧ text.length < start.length ∧
      MatchesAtCI start (("\r\n--".toList ++ boundary).take (BUFFER_SIZE - 1)) text.length ∧
      (∀ j, j < text.length →
        ¬ MatchesAtCI start (("\r\n--".toList ++ boundary).take (BUFFER_SIZE - 1)) j) ∧
      (boundary.length ≤ 1019 →
        ("\r\n--".toList ++ boundary).take (BUFFER_SIZE - 1) = "\r\n--".toList ++ boundary) ∧
      ¬ ContainsCI text ("\r\n--".toList ++ boundary) := by
  have hc := (print_mime_returned body text 0 h).2
  rw [print_mime_content_eq] at hc
  split at hc
  · exact absurd hc (by simp)
  · rename_i r hr
    obtain ⟨boundary, start⟩ := r
    dsimp only at hc
    obtain ⟨i, hi⟩ := print_mime_body_start_boundary body boundary start hr
    have hb0 : NUL ∉ boundary := fun hm =>
      h0 (List.mem_of_mem_drop (get_boundary_mem _ _ hi NUL hm))
    obtain ⟨s1, s2, s3, s4⟩ := check_end_boundary_spec start boundary text hb0 hc
    have hsn : snprintf BUFFER_SIZE ("\r\n--".toList ++ boundary)
        = ("\r\n--".toList ++ boundary).take (BUFFER_SIZE - 1) := rfl
    rw [hsn] at s3 s4
    refine ⟨boundary, start, hr, s1, s2, (matchesAtCI_iff _ _ _).mpr s3, fun j hj hm => ?_,
      fun hlen => ?_, ?_⟩
    · have := s4 j hj
      rw [(matchesAtCI_iff _ _ _).mp hm] at this
      exact absurd this (by simp)
    · apply List.take_of_length_le
      simp only [List.length_append, BUFFER_SIZE]
      have : "\r\n--".toList.length = 4 := rfl
      omega
    · rintro ⟨pre, mid, post, ht, hmid⟩
      have hml : mid.length = ("\r\n--".toList ++ boundary).length := by
        have := congrArg List.length hmid
        simpa using this
      have h4 : 4 ≤ mid.length := by
        rw [hml]
        simp
      have hj : pre.length < text.length := by
        rw [ht]
        simp only [List.length_append]
        omega
      obtain ⟨R, hR⟩ : ∃ R, start = text ++ R := by
        have hs := (List.take_append_drop text.length start).symm
        rw [← s1] at hs
        exact ⟨_, hs⟩
      have hd : start.drop pre.length
          = mid.take (BUFFER_SIZE - 1) ++ (mid.drop (BUFFER_SIZE - 1) ++ (post ++ R)) := by
        rw [hR, ht]
        simp only [List.append_assoc, List.drop_left]
        rw [← List.append_assoc (mid.take _), List.take_append_drop]
      have hp : prefix_by ci (("\r\n--".toList ++ boundary).take (BUFFER_SIZE - 1))
          (start.drop pre.length) = true := by
        rw [prefix_ci_iff]
        refine ⟨_, _, hd, ?_⟩
        rw [List.map_take, List.map_take, hmid]
      have := s4 pre.length hj
      rw [hp] at this
      exact absurd this (by simp)

/-- The example message with the boundary `X` and the text `Hello`. -/
theorem print_mime_output_extent_witness :
    ∃ boundary start,
      print_mime_body_start (sample_message "X".toList "Hello".toList)
        = Except.ok (boundary, start) ∧
      "Hello".toList = start.take "Hello".toList.length ∧
      "Hello".toList.length < start.length ∧
      MatchesAtCI start (("\r\n--".toList ++ boundary).take (BUFFER_SIZE - 1))
        "Hello".toList.length ∧
      (∀ j, j < "Hello".toList.length →
        ¬ MatchesAtCI start (("\r\n--".toList ++ boundary).take (BUFFER_SIZE - 1)) j) ∧
      (boundary.length ≤ 1019 →
        ("\r\n--".toList ++ boundary).take (BUFFER_SIZE - 1) = "\r\n--".toList ++ boundary) ∧
      ¬ ContainsCI "Hello".toList ("\r\n--".toList ++ boundary) :=
  print_mime_output_extent (sample_message "X".toList "Hello".toList) "Hello".toList
    (by decide!) (by decide!)

/-! ## The outcomes of `print_mime` -/

/-- C17 fails on the code: for a body that ends 2 characters after the transfer-encoding header
of the selected part, `print_mime` steps 4 characters past the parse position, beyond the end
of the string, and searches from there: the behaviour is undefined, it is neither the output of
a text nor the exit with code 4. That step is the only other outcome: every run of `print_mime`
writes a text and returns 0, or exits with code 4 having written nothing, or makes that step
having written nothing. -/
theorem print_mime_steps_past_end :
    print_mime ("MIME-Version: 1.0\r\n"
      ++ "Content-Type: multipart/alternative; boundary=\"X\"\r\n\r\n"
      ++ "--X\r\n"
      ++ "Content-Type: text/plain; charset=UTF-8\r\n"
      ++ "Content-Transfer-Encoding: 7bit\r\n").toList
      = ⟨[], Status.undefined⟩ ∧
    ∀ body, (∃ text, print_mime body = ⟨text, Status.returned 0⟩)
      ∨ print_mime body = ⟨[], Status.exited 4⟩
      ∨ print_mime body = ⟨[], Status.undefined⟩ := by
  refine ⟨by decide!, fun body => ?_⟩
  cases h : print_mime_content body with
  | ok text => exact Or.inl ⟨text, by rw [print_mime, h]⟩
  | error e =>
    rcases print_mime_content_error body e h with h1 | h1
    · exact Or.inr (Or.inl (by rw [print_mime, h, h1]))
    · exact Or.inr (Or.inr (by rw [print_mime, h, h1]))

/-! ## What `remove_cr_newline` deletes -/

theorem not_hasCRLF_nil : ¬ HasCRLF [] := by
  rintro ⟨a, b, h⟩
  simp at h

theorem not_hasCRLF_singleton (c : Char) : ¬ HasCRLF [c] := by
  rw [hasCRLF_cons]
  rintro (h | h)
  · simp at h
  · exact not_hasCRLF_nil h

/-- The input is a sequence of texts without CRLF, separated by the CRLF pairs that the scan
meets, and the output is the sequence of those texts without the separators. -/
theorem remove_cr_newline_segments (s : List Char) :
    ∃ (a : List Char) (segs : List (List Char)),
      ¬ HasCRLF a ∧ (∀ b ∈ segs, ¬ HasCRLF b) ∧
      s = a ++ (segs.map (fun b => '\r' :: '\n' :: b)).flatten ∧
      remove_cr_newline s = a ++ segs.flatten ∧
      (remove_cr_newline s).length + 2 * segs.length = s.length := by
  induction s using remove_cr_newline.induct with
  | case1 => exact ⟨[], [], not_hasCRLF_nil, by simp, by simp, by simp [remove_cr_newline], rfl⟩
  | case2 c =>
    exact ⟨[c], [], not_hasCRLF_singleton c, by simp, by simp, by simp [remove_cr_newline], rfl⟩
  | case3 c d rest hcd ih =>
    obtain ⟨a, segs, ha, hsegs, hs, hr, hl⟩ := ih
    refine ⟨[], a :: segs, not_hasCRLF_nil, ?_, ?_, ?_, ?_⟩
    · intro b hb
      rcases List.mem_cons.mp hb with h | h
      · rw [h]
        exact ha
      · exact hsegs b h
    · simp only [List.map_cons, List.flatten_cons, List.nil_append, List.cons_append]
      rw [hcd.1, hcd.2, ← hs]
    · simp only [remove_cr_newline, if_pos hcd, List.flatten_cons, List.nil_append]
      exact hr
    · simp only [remove_cr_newline, if_pos hcd, List.length_cons]
      omega
  | case4 c d rest hcd ih =>
    obtain ⟨a, segs, ha, hsegs, hs, hr, hl⟩ := ih
    refine ⟨c :: a, segs, ?_, hsegs, ?_, ?_, ?_⟩
    · rw [hasCRLF_cons]
      rintro (⟨hc, hhead⟩ | h)
      · cases a with
        | nil => simp at hhead
        | cons x a =>
          simp only [List.head?_cons, Option.some.injEq] at hhead
          simp only [List.cons_append, List.cons.injEq] at hs
          exact hcd ⟨hc, by rw [hs.1, hhead]⟩
      · exact ha h
    · rw [List.cons_append, ← hs]
    · simp only [remove_cr_newline, if_neg hcd, List.cons_append]
      rw [hr]
    · simp only [remove_cr_newline, if_neg hcd, List.length_cons] at hl ⊢
      omega

/-- C21: the input of `remove_cr_newline` is a text `a` followed by `k` CRLF pairs, each
followed by a text, none of these texts holding a CRLF; these pairs are the ones a single
left-to-right scan meets. The output is the same sequence of texts with the `k` pairs left out,
every other character kept in order, so its length is the input length minus `2 * k`; and the
output is the input itself exactly when the input holds no CR directly followed by LF. -/
theorem remove_cr_newline_deletes_pairs (s : List Char) :
    (∃ (a : List Char) (segs : List (List Char)),
      ¬ HasCRLF a ∧ (∀ b ∈ segs, ¬ HasCRLF b) ∧
      s = a ++ (segs.map (fun b => '\r' :: '\n' :: b)).flatten ∧
      remove_cr_newline s = a ++ segs.flatten ∧
      (remove_cr_newline s).length = s.length - 2 * segs.length ∧
      2 * segs.length ≤ s.length) ∧
    (remove_cr_newline s = s ↔ ¬ HasCRLF s) := by
  obtain ⟨a, segs, ha, hsegs, hs, hr, hl⟩ := remove_cr_newline_segments s
  exact ⟨⟨a, segs, ha, hsegs, hs, hr, by omega, by omega⟩, remove_cr_newline_fixed_iff s⟩

/-! ## Termination of `parse_list_response` -/

theorem scan_decimal_length (input rest : List Char) (v : Int)
    (h : scan_decimal input = some (v, rest)) : rest.length < input.length := by
  have h1 : (input.dropWhile isspace).length ≤ input.length :=
    (List.dropWhile_sublist _).length_le
  have h3 : (input.dropWhile isspace).tail.length ≤ (input.dropWhile isspace).length := by
    simp
  have key : ∀ s : List Char, s.takeWhile isdigit ≠ [] →
      (s.dropWhile isdigit).length < s.length := by
    intro s hs
    have e := congrArg List.length (List.takeWhile_append_dropWhile isdigit s)
    simp only [List.length_append] at e
    have : 0 < (s.takeWhile isdigit).length := List.length_pos.mpr hs
    omega
  rw [scan_decimal] at h
  split at h
  · split at h
    · exact absurd h (by simp)
    · rename_i hd
      simp only [Option.some.injEq, Prod.mk.injEq] at h
      rw [← h.2]
      have h2 := key _ hd
      omega
  · split at h
    · exact absurd h (by simp)
    · rename_i hd
      simp only [Option.some.injEq, Prod.mk.injEq] at h
      rw [← h.2]
      have h2 := key _ hd
      omega

/-- A run of `sscanf` that makes every assignment of its format has read at least `min_input`
characters. -/
theorem sscanf_run_min_input (ds : List Directive) :
    ∀ (input : List Char) (acc values : List Int),
      sscanf_run ds input acc = Scanned.assigned values →
      values.length = acc.length + assignments ds → min_input ds ≤ input.length := by
  induction ds with
  | nil => intro input acc values _ _; simp [min_input]
  | cons d ds ih =>
    intro input acc values h hlen
    cases d with
    | space =>
      simp only [sscanf_run] at h
      simp only [assignments] at hlen
      simp only [min_input]
      have := ih _ _ _ h hlen
      have h1 : (input.dropWhile isspace).length ≤ input.length :=
        (List.dropWhile_sublist _).length_le
      omega
    | ordinary c =>
      simp only [min_input]
      split
      · exact Nat.zero_le _
      · rename_i hpos
        simp only [sscanf_run] at h
        simp only [assignments] at hlen hpos
        split at h
        · rename_i hc
          have := ih _ _ _ h hlen
          cases input with
          | nil => simp at hc
          | cons x rest =>
            simp only [List.tail_cons] at this
            simp only [List.length_cons]
            omega
        · simp only [Scanned.assigned.injEq] at h
          rw [h] at hlen
          omega
    | decimal assign =>
      simp only [min_input]
      split
      · exact Nat.zero_le _
      · rename_i hpos
        simp only [sscanf_run] at h
        split at h
        · simp only [Scanned.assigned.injEq] at h
          rw [h] at hlen
          omega
        · rename_i v rest hsd
          have hl := scan_decimal_length _ _ _ hsd
          cases assign with
          | true =>
            simp only [if_true] at h
            split at h
            · simp only [assignments] at hlen
              have := ih _ _ _ h (by simp only [List.length_append, List.length_singleton]; omega)
              omega
            · exact absurd h (by simp)
          | false =>
            simp only [Bool.false_eq_true, if_false] at h
            simp only [assignments] at hlen
            have := ih _ _ _ h hlen
            omega

theorem strstr_some_le (s t : List Char) (i : Nat) (hne : t ≠ []) (h : strstr s t = some i) :
    i + t.length ≤ s.length := by
  rw [strstr_eq_scan s t hne] at h
  obtain ⟨h1, h2, -⟩ := scan_forward_some_spec _ _ _ h
  obtain ⟨v, hv⟩ := (prefix_eq_iff t (s.drop i)).mp h2
  have := congrArg List.length hv
  simp only [List.length_drop, List.length_append] at this
  omega

/-- An iteration that goes on moves the scan position strictly forward, to a position inside
the buffer. -/
theorem parse_list_advance_bounds (line : List Char) (d : Nat)
    (h : parse_list_advance line = some d) : 5 ≤ d ∧ d ≤ line.length := by
  rw [parse_list_advance] at h
  split at h
  · exact absurd h (by simp)
  · rename_i i hi
    have hi2 := strstr_some_le line "* ".toList i (by decide) hi
    split at h
    · exact absurd h (by simp)
    · rename_i values hv
      split at h
      · rename_i hlen
        have hmin := sscanf_run_min_input _ _ _ _ hv (by rw [hlen]; rfl)
        have hm : min_input (parse_format
            "* %d FETCH (BODY[HEADER.FIELDS (SUBJECT)] \x7b%d\x7d\r\n".toList) = 38 := by
          decide
        rw [hm] at hmin
        simp only [List.length_drop] at hmin
        split at h
        · rename_i j hj
          have hj2 := strstr_some_le _ "\r\nSubject:".toList j (by decide) hj
          split at h
          · rename_i k hk
            have hk2 := strstr_some_le _ "\r\n\r\n)\r\n".toList k (by decide) hk
            simp only [Option.some.injEq] at h
            simp only [List.length_drop] at hj2 hk2
            have l1 : "\r\nSubject:".toList.length = 10 := rfl
            have l2 : "\r\n\r\n)\r\n".toList.length = 7 := rfl
            omega
          · exact absurd h (by simp)
        · simp only [Option.some.injEq] at h
          omega
      · exact absurd h (by simp)

/-- An iteration that goes on is followed by the loop from the new scan position. -/
theorem parse_list_loop_advance (line out : List Char) (flag : Int) (d : Nat)
    (h : parse_list_advance line = some d) :
    ∃ out2, ∀ fuel, parse_list_loop (fuel + 1) line out flag
      = parse_list_loop fuel (line.drop d) out2 1 := by
  rw [parse_list_advance] at h
  split at h
  · exact absurd h (by simp)
  · rename_i i hi
    split at h
    · exact absurd h (by simp)
    · rename_i values hv
      split at h
      · rename_i hlen
        split at h
        · rename_i j hj
          split at h
          · rename_i k hk
            simp only [Option.some.injEq] at h
            refine ⟨out ++ printf_d (values.headD 0) ++ ": ".toList
              ++ remove_cr_newline ((((line.drop i).drop (j + 10)).take k).dropWhile
                (fun c => c = ' ' || c = '\t')) ++ "\n".toList, fun fuel => ?_⟩
            rw [parse_list_loop, hi]
            dsimp only
            rw [hv]
            dsimp only
            rw [if_pos hlen, hj]
            dsimp only
            rw [hk]
            dsimp only
            rw [← h]
            simp only [List.drop_drop, Nat.add_assoc]
          · exact absurd h (by simp)
        · rename_i hj
          simp only [Option.some.injEq] at h
          refine ⟨out ++ printf_d (values.headD 0) ++ ": <No subject>\n".toList, fun fuel => ?_⟩
          rw [parse_list_loop, hi]
          dsimp only
          rw [hv]
          dsimp only
          rw [if_pos hlen, hj]
          dsimp only
          rw [← h, List.drop_drop]
      · exact absurd h (by simp)

/-- An iteration that does not go on is the last one. -/
theorem parse_list_loop_last (line out : List Char) (flag : Int)
    (h : parse_list_advance line = none) :
    ∀ fuel, parse_list_loop (fuel + 1) line out flag = parse_list_loop 1 line out flag := by
  intro fuel
  cases hi : strstr line "* ".toList with
  | none => rw [parse_list_loop, parse_list_loop, hi]
  | some i =>
    cases hv : sscanf (line.drop i)
        "* %d FETCH (BODY[HEADER.FIELDS (SUBJECT)] \x7b%d\x7d\r\n".toList with
    | undefined =>
      rw [parse_list_loop, parse_list_loop, hi]
      dsimp only
      rw [hv]
    | assigned values =>
      by_cases hlen : values.length = 2
      · cases hj : strstr (line.drop i) "\r\nSubject:".toList with
        | none =>
          rw [parse_list_advance, hi] at h
          dsimp only at h
          rw [hv] at h
          dsimp only at h
          rw [if_pos hlen, hj] at h
          exact absurd h (by simp)
        | some j =>
          cases hk : strstr ((line.drop i).drop (j + 10)) "\r\n\r\n)\r\n".toList with
          | none =>
            rw [parse_list_loop, parse_list_loop, hi]
            dsimp only
            rw [hv]
            dsimp only
            simp only [if_pos hlen]
            rw [hj]
            dsimp only
            rw [hk]
          | some k =>
            rw [parse_list_advance, hi] at h
            dsimp only at h
            rw [hv] at h
            dsimp only at h
            rw [if_pos hlen, hj] at h
            dsimp only at h
            rw [hk] at h
            exact absurd h (by simp)
      · rw [parse_list_loop, parse_list_loop, hi]
        dsimp only
        rw [hv]
        dsimp only
        simp only [if_neg hlen]

/-- More iterations than the buffer has characters are never used: the result is the same for
every such bound. -/
theorem parse_list_loop_fuel_irrelevant (fuel1 : Nat) :
    ∀ (fuel2 : Nat) (line out : List Char) (flag : Int),
      line.length < fuel1 → line.length < fuel2 →
      parse_list_loop fuel1 line out flag = parse_list_loop fuel2 line out flag := by
  induction fuel1 with
  | zero => intro fuel2 line out flag h; exact absurd h (Nat.not_lt_zero _)
  | succ f1 ih =>
    intro fuel2 line out flag h1 h2
    cases fuel2 with
    | zero => exact absurd h2 (Nat.not_lt_zero _)
    | succ f2 =>
      cases ha : parse_list_advance line with
      | none =>
        rw [parse_list_loop_last line out flag ha f1, parse_list_loop_last line out flag ha f2]
      | some d =>
        obtain ⟨hd1, hd2⟩ := parse_list_advance_bounds line d ha
        obtain ⟨o, e⟩ := parse_list_loop_advance line out flag d ha
        rw [e f1, e f2]
        apply ih
        · simp only [List.length_drop]
          omega
        · simp only [List.length_drop]
          omega

/-- C23: `parse_list_response` terminates on every response buffer. An iteration of its loop
that ends neither the loop nor the process moves `line_start` forward by `parse_list_advance`
characters (to 5 characters past the `* ` found in the no-subject branch, to 7 characters past
the entry terminator in the subject branch): that is at least 5 characters and at most what is
left of the buffer. So the loop never makes more iterations than the buffer has characters:
with any larger bound on their number the result is the same, and it is not the result of a run
cut short. -/
theorem parse_list_response_terminates (response : List Char) :
    (parse_list_response response).status ≠ Status.out_of_fuel ∧
    (∀ fuel, response.length < fuel →
      parse_list_loop fuel response [] 0 = parse_list_response response) ∧
    (∀ (line out : List Char) (flag : Int) (d : Nat), parse_list_advance line = some d →
      5 ≤ d ∧ d ≤ line.length ∧
      ∃ out2, ∀ fuel, parse_list_loop (fuel + 1) line out flag
        = parse_list_loop fuel (line.drop d) out2 1) ∧
    (∀ (line out : List Char) (flag : Int), parse_list_advance line = none →
      ∀ fuel, parse_list_loop (fuel + 1) line out flag = parse_list_loop 1 line out flag ∧
        (parse_list_loop 1 line out flag).status ≠ Status.out_of_fuel) := by
  refine ⟨parse_list_loop_fuel _ _ _ _ (Nat.lt_succ_self _), fun fuel h => ?_,
    fun line out flag d h => ?_, fun line out flag h fuel => ?_⟩
  · exact parse_list_loop_fuel_irrelevant fuel _ response [] 0 h (Nat.lt_succ_self _)
  · obtain ⟨h1, h2⟩ := parse_list_advance_bounds line d h
    exact ⟨h1, h2, parse_list_loop_advance line out flag d h⟩
  · refine ⟨parse_list_loop_last line out flag h fuel, ?_⟩
    rw [← parse_list_loop_last line out flag h line.length]
    exact parse_list_loop_fuel _ _ _ _ (Nat.lt_succ_self _)

/-- A response with one entry without subject and one with a subject: the loop advances by 5,
then to the end of the second entry, then ends. -/
theorem parse_list_response_terminates_witness :
    parse_list_advance ("* 1 FETCH (BODY[HEADER.FIELDS (SUBJECT)] \x7b2\x7d\r\n\r\n)\r\n"
      ++ "A0003 OK\r\n").toList = some 5 ∧
    (5 ≤ 5 ∧ 5 ≤ ("* 1 FETCH (BODY[HEADER.FIELDS (SUBJECT)] \x7b2\x7d\r\n\r\n)\r\n"
      ++ "A0003 OK\r\n").toList.length ∧
      ∃ out2, ∀ fuel, parse_list_loop (fuel + 1)
          ("* 1 FETCH (BODY[HEADER.FIELDS (SUBJECT)] \x7b2\x7d\r\n\r\n)\r\n"
            ++ "A0003 OK\r\n").toList [] 0
        = parse_list_loop fuel
          (("* 1 FETCH (BODY[HEADER.FIELDS (SUBJECT)] \x7b2\x7d\r\n\r\n)\r\n"
            ++ "A0003 OK\r\n").toList.drop 5) out2 1) :=
  ⟨by decide!,
   (parse_list_response_terminates
      ("* 1 FETCH (BODY[HEADER.FIELDS (SUBJECT)] \x7b2\x7d\r\n\r\n)\r\n"
        ++ "A0003 OK\r\n").toList).2.2.1
    ("* 1 FETCH (BODY[HEADER.FIELDS (SUBJECT)] \x7b2\x7d\r\n\r\n)\r\n"
      ++ "A0003 OK\r\n").toList [] 0 5 (by decide!)⟩

/-! ## The byte count handed to `print_parsed_fields` -/

/-- C22 fails on the code: the guard `> 2` of `parse_to` and `parse_subject` lets the announced
lengths 3 pass, and `parse_from` and `parse_date` have no guard; the byte counts handed on are
then 3 - 6 = -3, 3 - 11 = -8, 3 - 8 = -5 and 7 - 8 = -1. For the first three the allocation of
`print_size + 1` bytes fails, `print_parsed_fields` prints the negative count and the process
ends with `EXIT_FAILURE`; for the count -1 the buffer has size 0 and storing the terminator in
it is undefined. -/
theorem field_byte_count_negative :
    (parse_to [Delivery.data
      "* 1 FETCH (BODY[HEADER.FIELDS (TO)] \x7b3\x7d\r\nabc)\r\nA0003 OK\r\n".toList]).1
      = ⟨"To: -3".toList, Status.exited EXIT_FAILURE⟩ ∧
    (parse_subject [Delivery.data
      "* 1 FETCH (BODY[HEADER.FIELDS (SUBJECT)] \x7b3\x7d\r\nabc)\r\nA0005 OK\r\n".toList]).1
      = ⟨"Subject: -8".toList, Status.exited EXIT_FAILURE⟩ ∧
    (parse_from [Delivery.data
      "* 1 FETCH (BODY[HEADER.FIELDS (FROM)] \x7b3\x7d\r\nabc)\r\nA0002 OK\r\n".toList]).1
      = ⟨"From: -5".toList, Status.exited EXIT_FAILURE⟩ ∧
    (parse_date [Delivery.data
      "* 1 FETCH (BODY[HEADER.FIELDS (DATE)] \x7b7\x7d\r\nabcdefg)\r\nA0004 OK\r\n".toList]).1
      = ⟨"Date: ".toList, Status.undefined⟩ := by
  decide!

/-! ## The output of `fetch_email` -/

/-- On a connection whose first delivery holds at least the `idx` bytes to discard, and which
delivers at least `size` bytes after them, `print_response` prints the `size` bytes that follow
the first `idx`, up to the first NUL among them, and returns. -/
theorem print_response_stream (first : List Char) (chunks : List (List Char))
    (idx size : Nat) (h0 : 0 < idx) (hidx : idx ≤ first.length)
    (hsize : size ≤ ((first ++ chunks.flatten).drop idx).length) :
    ∃ conn2, print_response (Delivery.data first :: chunks.map Delivery.data) idx (size : Int)
      = (⟨c_string (((first ++ chunks.flatten).drop idx).take size), Status.returned 0⟩,
          conn2) := by
  obtain ⟨cs, hcs, hflat⟩ := recv_data_rest first chunks idx hidx
  obtain ⟨rest, hread, -⟩ := read_loop_chunks cs (cs.length + 1) size [] (le_refl _)
    (Nat.zero_le _) (by rw [hflat]; simpa using hsize)
  simp only [List.length_nil, Nat.sub_zero, List.nil_append] at hread
  have hn1 : ¬ ((size : Int) + 1 < 0) := by omega
  have hn2 : ¬ ((size : Int) + 1 = 0) := by omega
  have hr := (recv_data_bytes first (chunks.map Delivery.data) idx).2
  have hre : read_exact (cs.map Delivery.data) (size : Int)
      = Received.complete (cs.flatten.take size) (rest.map Delivery.data) := by
    simpa [read_exact] using hread
  refine ⟨(recv (rest.map Delivery.data) (BUFFER_SIZE - 1)).2.2, ?_⟩
  simp only [print_response, hn1, hn2, if_false, print_received, h0, if_true, hr, hcs,
    hre, receive_remaining_response, recv_data_nonneg, List.append_nil, hflat]

theorem c_string_of_no_nul (V : List Char) (h : NUL ∉ V) : c_string V = V := by
  unfold c_string
  rw [List.takeWhile_eq_self_iff]
  intro c hcV
  have : c ≠ NUL := fun e => h (e ▸ hcV)
  simpa using this

/-- A text of `n ≥ 1` characters is its first `n - 1` characters followed by LF exactly when
its last character is LF. -/
theorem all_but_last_then_lf (S : List Char) (n : Nat) (h1 : 1 ≤ n) (hn : n ≤ S.length) :
    S.take (n - 1) ++ "\n".toList = S.take n ↔ (S.take n).getLast? = some '\n' := by
  have hl : (S.take n).length = n := by
    rw [List.length_take]
    omega
  have hne : S.take n ≠ [] := by
    intro e
    rw [e] at hl
    simp at hl
    omega
  have hd : (S.take n).dropLast = S.take (n - 1) := by
    rw [List.dropLast_eq_take, hl, List.take_take]
    congr 1
    omega
  have hsplit := List.dropLast_append_getLast hne
  rw [hd] at hsplit
  rw [List.getLast?_eq_getLast _ hne]
  constructor
  · intro e
    rw [← hsplit] at e
    have := List.append_cancel_left e
    simp only [Option.some.injEq]
    have h2 : "\n".toList = ['\n'] := rfl
    rw [h2] at this
    simp only [List.cons.injEq, and_true] at this
    exact this.symm
  · intro e
    simp only [Option.some.injEq] at e
    conv_rhs => rw [← hsplit, e]
    rfl

/-- A response line that announces 2147483648 bytes: the `%d` conversion has no `int` to give,
whatever follows the line. -/
theorem fetch_email_frame_too_long (tail : List Char) :
    fetch_email_frame
        (fetch_line [] "1".toList "2147483648".toList ++ "\r\n".toList ++ tail)
      = Frame.undefined := by
  have hs : AllDigits "1".toList := ⟨by decide, by decide⟩
  have hn : AllDigits "2147483648".toList := ⟨by decide, by decide⟩
  have c := fetch_line_clean [] "1".toList "2147483648".toList hs hn (by decide) (by decide)
  have hc : c_string (fetch_line [] "1".toList "2147483648".toList ++ "\r\n".toList ++ tail)
      = fetch_line [] "1".toList "2147483648".toList ++ ('\r' :: '\n' :: c_string tail) := by
    unfold c_string
    rw [List.append_assoc, List.takeWhile_append_of_pos]
    · have e : "\r\n".toList ++ tail = '\r' :: '\n' :: tail := rfl
      have n1 : '\r' ≠ NUL := by decide
      have n2 : '\n' ≠ NUL := by decide
      rw [e]
      simp [List.takeWhile, n1, n2]
    · intro a ha
      have : a ≠ NUL := fun e => c.1 (e ▸ ha)
      simpa using this
  have hb : isdigit '}' = false := by decide
  have hsp : isdigit ' ' = false := by decide
  have hv : decimal_value "2147483648".toList = 2147483648 := by decide
  have hscan : sscanf (fetch_line [] "1".toList "2147483648".toList
        ++ ('\r' :: '\n' :: c_string tail)) "* %*d FETCH (BODY[] \x7b%d\x7d".toList
      = Scanned.undefined := by
    have h1 := scan_decimal_digits "1".toList ' '
      (" FETCH (BODY[".toList.tail ++ [] ++ "] \x7b".toList ++ "2147483648".toList
        ++ "\x7d".toList ++ ('\r' :: '\n' :: c_string tail)) hs hsp
    have h2 := scan_decimal_digits "2147483648".toList '}' ('\r' :: '\n' :: c_string tail)
      hn hb
    rw [hv] at h2
    simp [fetch_line, sscanf, parse_format, isspace, sscanf_run] at h1 h2 ⊢
    simp [h1, isspace, sscanf_run, h2]
    intro _
    decide
  unfold fetch_email_frame literal_frame
  simp only [hc, hscan]

/-- C24 fails as stated: a response that announces the 6 bytes `Hi` CRLF CRLF and then holds
them, none of them NUL, but whose first line comes in one delivery and its CRLF in the next,
makes `fetch_email` write `Message not found` and exit with 3; and on a first line that
announces 2147483648 bytes the framing step has no `int` for the length and nothing of the
literal is written, whatever bytes follow. -/
theorem fetch_email_needs_whole_line :
    (fetch_email [Delivery.data "* 1 FETCH (BODY[] \x7b6\x7d".toList,
        Delivery.data "\r\nHi\r\n\r\n)\r\nA0002 OK\r\n".toList]).1
      = ⟨"Message not found\n".toList, Status.exited 3⟩ ∧
    (∀ (tail : List Char) (rest : Connection),
      (fetch_email (Delivery.data
          (fetch_line [] "1".toList "2147483648".toList ++ "\r\n".toList ++ tail) :: rest)).1
        = ⟨[], Status.undefined⟩) := by
  refine ⟨by decide!, fun tail rest => ?_⟩
  have hpeek := recv_data_bytes
    (fetch_line [] "1".toList "2147483648".toList ++ "\r\n".toList ++ tail) rest
    (BUFFER_SIZE - 1)
  have eb : BUFFER_SIZE - 1 = 1023 := rfl
  have hl : (fetch_line [] "1".toList "2147483648".toList ++ "\r\n".toList).length ≤ 1023 := by
    decide
  have ht : (fetch_line [] "1".toList "2147483648".toList ++ "\r\n".toList ++ tail).take 1023
      = fetch_line [] "1".toList "2147483648".toList ++ "\r\n".toList
        ++ tail.take (1023
          - (fetch_line [] "1".toList "2147483648".toList ++ "\r\n".toList).length) := by
    rw [List.take_append_eq_append_take, List.take_of_length_le hl]
  rw [eb, ht] at hpeek
  simp only [fetch_email, eb, hpeek.2, if_false, hpeek.1, fetch_email_frame_too_long]

/-- C24, amended: on a retrieve response whose first delivery holds the whole line
`* <seq> FETCH (BODY[] {<N>}` and its CRLF, the two within the 1023 bytes of the first look at
the response, with `1 ≤ N ≤ INT_MAX`, followed (in that delivery and the next ones) by at least
`N` bytes of which the first `N`, the literal, hold no NUL, `fetch_email` writes the first
`N - 1` bytes of the literal and one LF and ends the process with status 0. What it writes is
the literal itself exactly when the last byte of the literal is LF. -/
theorem fetch_email_all_but_last (seq n tail : List Char) (chunks : List (List Char))
    (hs : AllDigits seq) (hn : AllDigits n) (hv : (decimal_value n : Int) ≤ INT_MAX)
    (hline : (fetch_line [] seq n).length + 2 ≤ 1023)
    (hN : 1 ≤ decimal_value n)
    (hbytes : decimal_value n ≤ (tail ++ chunks.flatten).length)
    (h0 : NUL ∉ (tail ++ chunks.flatten).take (decimal_value n)) :
    (∃ conn2,
      fetch_email (Delivery.data (fetch_line [] seq n ++ "\r\n".toList ++ tail)
          :: chunks.map Delivery.data)
        = (⟨(tail ++ chunks.flatten).take (decimal_value n - 1) ++ "\n".toList,
            Status.exited 0⟩, conn2)) ∧
    ((tail ++ chunks.flatten).take (decimal_value n - 1) ++ "\n".toList
        = (tail ++ chunks.flatten).take (decimal_value n)
      ↔ ((tail ++ chunks.flatten).take (decimal_value n)).getLast? = some '\n') := by
  refine ⟨?_, all_but_last_then_lf _ _ hN hbytes⟩
  have hidx : (fetch_line [] seq n).length + 2 + 0
      ≤ (fetch_line [] seq n ++ "\r\n".toList ++ tail).length := by
    simp only [List.length_append]
    have : "\r\n".toList.length = 2 := rfl
    omega
  have hsize : decimal_value n - 1
      ≤ (((fetch_line [] seq n ++ "\r\n".toList ++ tail) ++ chunks.flatten).drop
          ((fetch_line [] seq n).length + 2 + 0)).length := by
    rw [drop_line_label, List.drop_zero]
    omega
  obtain ⟨conn2, hp⟩ := print_response_stream
    (fetch_line [] seq n ++ "\r\n".toList ++ tail) chunks
    ((fetch_line [] seq n).length + 2 + 0) (decimal_value n - 1) (by omega) hidx hsize
  rw [drop_line_label, List.drop_zero] at hp
  have hnul : NUL ∉ (tail ++ chunks.flatten).take (decimal_value n - 1) := by
    intro hm
    apply h0
    have e : (tail ++ chunks.flatten).take (decimal_value n - 1)
        = ((tail ++ chunks.flatten).take (decimal_value n)).take (decimal_value n - 1) := by
      rw [List.take_take]
      congr 1
      omega
    rw [e] at hm
    exact List.mem_of_mem_take hm
  rw [c_string_of_no_nul _ hnul] at hp
  have hpeek := (recv_data_bytes (fetch_line [] seq n ++ "\r\n".toList ++ tail)
    (chunks.map Delivery.data) (BUFFER_SIZE - 1)).2
  have c := fetch_line_clean [] seq n hs hn (by decide) (by decide)
  have hf := literal_frame_peek "* %*d FETCH (BODY[] \x7b%d\x7d".toList 0
    (fetch_line [] seq n) tail (chunks.map Delivery.data)
    (decimal_value n) c.1 c.2 hline (fun t => sscanf_fetch_line_body seq n t hs hn hv)
  have hmin : INT_MIN = -2147483648 := rfl
  have hcast : ((decimal_value n : Int) - 1) = ((decimal_value n - 1 : Nat) : Int) := by
    omega
  have hg : ¬ (((decimal_value n - 1 : Nat) : Int) < INT_MIN) := by
    rw [hmin]
    omega
  refine ⟨conn2, ?_⟩
  simp only [fetch_email, hpeek, if_false, fetch_email_frame, hf, hg, hcast, hp,
    print_around_returned, List.nil_append]

/-- The response for a message of 6 bytes, `Hi` CRLF CRLF, delivered in two parts. -/
theorem fetch_email_all_but_last_witness :
    (∃ conn2,
      fetch_email (Delivery.data (fetch_line [] "1".toList "6".toList ++ "\r\n".toList
            ++ "Hi\r".toList)
          :: ["\n\r\n)\r\n".toList, "A0002 OK\r\n".toList].map Delivery.data)
        = (⟨("Hi\r".toList ++ ["\n\r\n)\r\n".toList, "A0002 OK\r\n".toList].flatten).take
              (decimal_value "6".toList - 1) ++ "\n".toList,
            Status.exited 0⟩, conn2)) ∧
    (("Hi\r".toList ++ ["\n\r\n)\r\n".toList, "A0002 OK\r\n".toList].flatten).take
          (decimal_value "6".toList - 1) ++ "\n".toList
        = ("Hi\r".toList ++ ["\n\r\n)\r\n".toList, "A0002 OK\r\n".toList].flatten).take
          (decimal_value "6".toList)
      ↔ (("Hi\r".toList ++ ["\n\r\n)\r\n".toList, "A0002 OK\r\n".toList].flatten).take
          (decimal_value "6".toList)).getLast? = some '\n') :=
  fetch_email_all_but_last "1".toList "6".toList "Hi\r".toList
    ["\n\r\n)\r\n".toList, "A0002 OK\r\n".toList]
    ⟨by decide, by decide⟩ ⟨by decide, by decide⟩ (by decide) (by decide) (by decide)
    (by decide) (by decide)

/-! ## `escape_special_char` -/

theorem escaped_length_ge (l : List Char) : l.length ≤ (escaped l).length := by
  induction l with
  | nil => simp [escaped]
  | cons c l ih =>
    rw [escaped]
    split <;> simp only [List.length_cons] <;> omega

theorem unescaped_escaped (l : List Char) : unescaped (escaped l) = l := by
  induction l with
  | nil => rfl
  | cons c l ih =>
    rw [escaped]
    split
    · rw [unescaped, if_pos rfl, ih]
    · rename_i hc
      have hb : c ≠ '\\' := fun e => hc (Or.inr e)
      cases he : escaped l with
      | nil =>
        rw [he] at ih
        rw [← ih]
        rfl
      | cons d r =>
        rw [unescaped, if_neg hb, ← he, ih]

/-- The loop appends to `output` the escaping of the longest prefix of the rest of the input
whose escaping still fits. -/
theorem escape_loop_spec (output_size : Int) (rest : List Char) :
    ∀ output : List Char, (output.length : Int) ≤ output_size - 1 →
      ∃ k, k ≤ rest.length ∧
        escape_loop output_size rest output = output ++ escaped (rest.take k) ∧
        (output.length : Int) + ((escaped (rest.take k)).length : Int) ≤ output_size - 1 ∧
        ∀ m, m ≤ rest.length →
          (output.length : Int) + ((escaped (rest.take m)).length : Int) ≤ output_size - 1 →
          m ≤ k := by
  induction rest with
  | nil =>
    intro output h
    exact ⟨0, le_refl _, by simp [escape_loop, escaped], by simpa [escaped] using h,
      fun m hm _ => hm⟩
  | cons c rest ih =>
    intro output h
    rw [escape_loop]
    by_cases h1 : (output.length : Int) < output_size - 1
    · rw [if_pos h1]
      by_cases hc : c = '"' ∨ c = '\\'
      · rw [if_pos hc]
        by_cases h2 : (output.length : Int) < output_size - 2
        · rw [if_pos h2]
          obtain ⟨k, hk, he, hl, hmax⟩ := ih (output ++ ['\\', c]) (by
            simp only [List.length_append, List.length_cons, List.length_nil, Nat.cast_add]
            omega)
          refine ⟨k + 1, by simp only [List.length_cons]; omega, ?_, ?_, ?_⟩
          · rw [he, List.take_succ_cons, escaped, if_pos hc]
            simp
          · rw [List.take_succ_cons, escaped, if_pos hc]
            simp only [List.length_append, List.length_cons, List.length_nil, Nat.cast_add]
              at hl ⊢
            omega
          · intro m hm hfit
            cases m with
            | zero => omega
            | succ m =>
              rw [List.take_succ_cons, escaped, if_pos hc] at hfit
              have := hmax m (by simp only [List.length_cons] at hm; omega) (by
                simp only [List.length_append, List.length_cons, List.length_nil, Nat.cast_add]
                  at hfit ⊢
                omega)
              omega
        · rw [if_neg h2]
          refine ⟨0, Nat.zero_le _, by simp [escaped], by simpa [escaped] using h, ?_⟩
          intro m hm hfit
          cases m with
          | zero => exact le_refl _
          | succ m =>
            rw [List.take_succ_cons, escaped, if_pos hc] at hfit
            simp only [List.length_cons, Nat.cast_add] at hfit
            omega
      · rw [if_neg hc]
        obtain ⟨k, hk, he, hl, hmax⟩ := ih (output ++ [c]) (by
          simp only [List.length_append, List.length_cons, List.length_nil, Nat.cast_add]
          omega)
        refine ⟨k + 1, by simp only [List.length_cons]; omega, ?_, ?_, ?_⟩
        · rw [he, List.take_succ_cons, escaped, if_neg hc]
          simp
        · rw [List.take_succ_cons, escaped, if_neg hc]
          simp only [List.length_append, List.length_cons, List.length_nil, Nat.cast_add]
            at hl ⊢
          omega
        · intro m hm hfit
          cases m with
          | zero => omega
          | succ m =>
            rw [List.take_succ_cons, escaped, if_neg hc] at hfit
            have := hmax m (by simp only [List.length_cons] at hm; omega) (by
              simp only [List.length_append, List.length_cons, List.length_nil, Nat.cast_add]
                at hfit ⊢
              omega)
            omega
    · rw [if_neg h1]
      refine ⟨0, Nat.zero_le _, by simp [escaped], by simpa [escaped] using h, ?_⟩
      intro m hm hfit
      cases m with
      | zero => exact le_refl _
      | succ m =>
        have hge := escaped_length_ge ((c :: rest).take (m + 1))
        rw [List.length_take] at hge
        simp only [List.length_cons] at hge hm
        omega

/-- C25: for `output_size ≥ 1`, `escape_special_char` stores the complete escaping of a prefix
of the input, of at most `output_size - 1` characters; the prefix is the longest one whose
escaping has at most `output_size - 1` characters. Being the escaping of a prefix, the string
has every inserted backslash followed by the character it escapes, and removing the inserted
backslashes gives back the prefix: the whole input when its escaping fits. -/
theorem escape_special_char_longest_fit (input : List Char) (output_size : Int)
    (h : 1 ≤ output_size) :
    ∃ k, k ≤ input.length ∧
      escape_special_char input output_size = some (escaped (input.take k)) ∧
      ((escaped (input.take k)).length : Int) ≤ output_size - 1 ∧
      (∀ m, m ≤ input.length →
        ((escaped (input.take m)).length : Int) ≤ output_size - 1 → m ≤ k) ∧
      unescaped (escaped (input.take k)) = input.take k ∧
      (((escaped input).length : Int) ≤ output_size - 1 →
        escape_special_char input output_size = some (escaped input) ∧
        unescaped (escaped input) = input) := by
  obtain ⟨k, hk, he, hl, hmax⟩ := escape_loop_spec output_size input [] (by simp; omega)
  simp only [List.length_nil, Nat.cast_zero, zero_add, List.nil_append] at he hl hmax
  have hs : escape_special_char input output_size = some (escaped (input.take k)) := by
    rw [escape_special_char, if_neg (by omega), he]
  refine ⟨k, hk, hs, hl, hmax, unescaped_escaped _, fun hfit => ?_⟩
  have hfull := hmax input.length (le_refl _) (by rw [List.take_length]; exact hfit)
  have e : k = input.length := by omega
  rw [e, List.take_length] at hs
  exact ⟨hs, unescaped_escaped _⟩

/-- The folder name `my "box"` with room for 512 bytes, and with room for 6. -/
theorem escape_special_char_longest_fit_witness :
    (∃ k, k ≤ "my \"box\"".toList.length ∧
      escape_special_char "my \"box\"".toList 512 = some (escaped ("my \"box\"".toList.take k)) ∧
      ((escaped ("my \"box\"".toList.take k)).length : Int) ≤ 512 - 1 ∧
      (∀ m, m ≤ "my \"box\"".toList.length →
        ((escaped ("my \"box\"".toList.take m)).length : Int) ≤ 512 - 1 → m ≤ k) ∧
      unescaped (escaped ("my \"box\"".toList.take k)) = "my \"box\"".toList.take k ∧
      (((escaped "my \"box\"".toList).length : Int) ≤ 512 - 1 →
        escape_special_char "my \"box\"".toList 512 = some (escaped "my \"box\"".toList) ∧
        unescaped (escaped "my \"box\"".toList) = "my \"box\"".toList)) ∧
    escape_special_char "my \"box\"".toList 512 = some "my \\\"box\\\"".toList ∧
    escape_special_char "my \"box\"".toList 5 = some "my ".toList :=
  ⟨escape_special_char_longest_fit "my \"box\"".toList 512 (by decide), by decide,
    by decide⟩

/-! ## `insensitive_strstr` -/

/-- Whether a pattern matches at the start of a text, up to letter case, depends only on the
lower-case forms of the two. -/
theorem prefix_by_ci_congr (t : List Char) :
    ∀ (t2 u u2 : List Char), t2.map tolower = t.map tolower → u2.map tolower = u.map tolower →
      prefix_by ci t2 u2 = prefix_by ci t u := by
  induction t with
  | nil =>
    intro t2 u u2 ht _
    simp only [List.map_nil, List.map_eq_nil_iff] at ht
    rw [ht]
    simp [prefix_by]
  | cons x t ih =>
    intro t2 u u2 ht hu
    cases t2 with
    | nil => simp at ht
    | cons x2 t2 =>
      simp only [List.map_cons, List.cons.injEq] at ht
      cases u with
      | nil =>
        simp only [List.map_nil, List.map_eq_nil_iff] at hu
        rw [hu]
        simp [prefix_by]
      | cons c u =>
        cases u2 with
        | nil => simp at hu
        | cons c2 u2 =>
          simp only [List.map_cons, List.cons.injEq] at hu
          simp only [prefix_by, ci]
          rw [ht.1, hu.1, ih t2 u u2 ht.2 hu.2]

theorem scan_forward_pointwise (hit hit2 : List Char → Bool) (s : List Char) :
    ∀ s2 : List Char, s2.length = s.length →
      (∀ j, hit2 (s2.drop j) = hit (s.drop j)) →
      scan_forward hit2 s2 = scan_forward hit s := by
  induction s with
  | nil =>
    intro s2 hl _
    have e : s2 = [] := List.length_eq_zero.mp hl
    rw [e]
    rfl
  | cons c s ih =>
    intro s2 hl h
    cases s2 with
    | nil => simp at hl
    | cons c2 s2 =>
      rw [scan_forward_cons, scan_forward_cons]
      have h0 := h 0
      simp only [List.drop_zero] at h0
      rw [h0, ih s2 (by simpa using hl) (fun j => by simpa using h (j + 1))]

theorem matchesAtCI_lt (s t : List Char) (i : Nat) (hne : t ≠ []) (h : MatchesAtCI s t i) :
    i < s.length := by
  obtain ⟨mid, post, hd, hm⟩ := h
  by_contra hge
  rw [List.drop_eq_nil_of_le (by omega)] at hd
  have hmid : mid = [] := (List.append_eq_nil.mp hd.symm).1
  rw [hmid] at hm
  simp only [List.map_nil] at hm
  exact hne (List.map_eq_nil_iff.mp hm.symm)

/-- C26: for a target `t` without NUL (a C string), `insensitive_strstr` returns offset 0 when
`t` is empty; when `t` is not empty it returns `i` exactly when `i` is the smallest offset at
which the text of the search string equals `t` up to ASCII letter case, and no match exactly
when there is no such offset; and the result is the same for any two search strings, and any
two targets, that differ in letter case only. -/
theorem insensitive_strstr_first_match (s t : List Char) (ht : NUL ∉ t) :
    (t = [] → insensitive_strstr s t = some 0) ∧
    (t ≠ [] →
      (∀ i, insensitive_strstr s t = some i ↔
        (MatchesAtCI s t i ∧ ∀ j, j < i → ¬ MatchesAtCI s t j)) ∧
      (insensitive_strstr s t = none ↔ ∀ i, ¬ MatchesAtCI s t i)) ∧
    (∀ s2 t2 : List Char, s2.map tolower = s.map tolower → t2.map tolower = t.map tolower →
      insensitive_strstr s2 t2 = insensitive_strstr s t) := by
  refine ⟨fun h0 => ?_, fun hne => ⟨fun i => ?_, ?_⟩, fun s2 t2 hs2 ht2 => ?_⟩
  · rw [h0]
    rfl
  · rw [insensitive_strstr_eq_scan s t hne ht, scan_forward_eq_some_iff]
    constructor
    · rintro ⟨_, h2, h3⟩
      refine ⟨(matchesAtCI_iff s t i).mpr h2, fun j hj hm => ?_⟩
      have := h3 j hj
      rw [(matchesAtCI_iff s t j).mp hm] at this
      exact absurd this (by simp)
    · rintro ⟨h1, h2⟩
      refine ⟨matchesAtCI_lt s t i hne h1, (matchesAtCI_iff s t i).mp h1, fun j hj => ?_⟩
      have := h2 j hj
      rw [matchesAtCI_iff] at this
      simpa using this
  · rw [insensitive_strstr_eq_scan s t hne ht, scan_forward_eq_none_iff]
    constructor
    · intro h i hm
      have hlt := matchesAtCI_lt s t i hne hm
      have := h i hlt
      rw [(matchesAtCI_iff s t i).mp hm] at this
      exact absurd this (by simp)
    · intro h j _
      have := h j
      rw [matchesAtCI_iff] at this
      simpa using this
  · by_cases hne : t = []
    · rw [hne] at ht2 ⊢
      simp only [List.map_nil, List.map_eq_nil_iff] at ht2
      rw [ht2]
      rfl
    · have hne2 : t2 ≠ [] := by
        intro e
        rw [e] at ht2
        simp only [List.map_nil] at ht2
        exact hne (List.map_eq_nil_iff.mp ht2.symm)
      have hnul2 : NUL ∉ t2 := by
        intro hm
        have h1 : tolower NUL ∈ t2.map tolower := List.mem_map_of_mem _ hm
        rw [ht2] at h1
        obtain ⟨x, hx, hxe⟩ := List.mem_map.mp h1
        have h2 : tolower NUL = NUL := (tolower_eq_nul_iff NUL).mpr rfl
        rw [h2] at hxe
        have := (tolower_eq_nul_iff x).mp hxe
        exact ht (this ▸ hx)
      rw [insensitive_strstr_eq_scan s t hne ht, insensitive_strstr_eq_scan s2 t2 hne2 hnul2]
      apply scan_forward_pointwise
      · have := congrArg List.length hs2
        simpa using this
      · intro j
        apply prefix_by_ci_congr t t2 _ _ ht2
        rw [List.map_drop, List.map_drop, hs2]

/-- The search for `WORLD` in `Hello World`, and in the same text in capital letters. -/
theorem insensitive_strstr_first_match_witness :
    insensitive_strstr "Hello World".toList "WORLD".toList = some 6 ∧
    insensitive_strstr "HELLO WORLD".toList "world".toList
      = insensitive_strstr "Hello World".toList "WORLD".toList ∧
    MatchesAtCI "Hello World".toList "WORLD".toList 6 :=
  ⟨by decide,
   (insensitive_strstr_first_match "Hello World".toList "WORLD".toList (by decide)).2.2
     "HELLO WORLD".toList "world".toList (by decide) (by decide),
   ((((insensitive_strstr_first_match "Hello World".toList "WORLD".toList
     (by decide)).2.1
     (by decide)).1 6).mp (by decide)).1⟩

end SimpleEmailClient
